import Mathlib

/-!
# Lazy linear-algebra expression nodes of blaze-lib

A shallow embedding of `blaze/math/expressions/DVecDVecAddExpr.h` and
`blaze/math/expressions/TDMatSVecMultExpr.h`.

* Containers are external collaborators of the two headers; they appear here through the
  capability contract the headers consume: a size, element access, a block accessor and, for
  sparse vectors, the ordered sequence of stored elements.
* `size_t` is a 64-bit unsigned integer, modelled as a `Nat` with explicit `% 2 ^ 64` in loop
  counters.
* Element arithmetic is exact: the element type is any type with the operations used by the
  code, and the theorems are stated over semirings and rings.
* A violated `BLAZE_INTERNAL_ASSERT`, a thrown exception, an iterator dereferenced past the end
  or a loop that does not finish within its bound is a `Failure`.
* Where aliasing matters, stored vectors live in a memory indexed by the address of the
  container; a node holds a stored operand by its address and an expression operand by value,
  and an assignment takes the memory and the address of its destination and returns the memory.
-/

namespace blaze

/-- Ways in which an operation stops without producing a result. -/
inductive Failure where
  /-- The exception `std::invalid_argument( msg )`. -/
  | invalidArgument (msg : String)
  /-- A violated `BLAZE_INTERNAL_ASSERT( cond, msg )`. -/
  | internalAssert (msg : String)
  /-- A sparse-vector iterator dereferenced at `end()`. -/
  | iteratorPastEnd
  /-- A counting loop that did not finish within the iteration bound given to it. -/
  | loopBoundExceeded
  deriving DecidableEq

/-- The number of values of `size_t`. -/
@[reducible] def sizeRange : Nat := 2 ^ 64

/-! ## Container capability contract -/

/-- A dense vector: `size()` and the element storage read by `operator[]`. The storage is
indexed beyond `size` as well, which is where the padding elements of a vector live. -/
structure DenseVector (α : Type) where
  size : Nat
  data : Nat → α

/-- A column-major dense matrix: `rows()`, `columns()`, `spacing()` (the padded length of a
column) and the element read by `operator()(i,j)`. -/
structure DenseMatrix (α : Type) where
  rows : Nat
  columns : Nat
  spacing : Nat
  elem : Nat → Nat → α

/-- One stored element of a sparse vector, read by `element->index()` and `element->value()`. -/
structure SparseElement (α : Type) where
  index : Nat
  value : α

/-- A sparse vector: `size()` and the stored elements in the order `begin()` .. `end()`
visits them. -/
structure SparseVector (α : Type) where
  size : Nat
  elements : List (SparseElement α)

/-- The member `nonZeros()` of a sparse vector. -/
def SparseVector.nonZeros {α : Type} (x : SparseVector α) : Nat :=
  x.elements.length

/-- Modelled from the spec: `reset` of `blaze/math/shims/Reset.h` on one element, which is not
part of the sources at hand; an empty sparse vector "yields the zero element". -/
def resetElement {α : Type} [Zero α] : α := 0

/-- Modelled from the spec: `reset` of `blaze/math/shims/Reset.h` on a dense vector, which is
not part of the sources at hand; "the destination is reset to all-zero element values". -/
def reset {α : Type} [Zero α] (v : DenseVector α) : DenseVector α :=
  { v with data := fun i => if i < v.size then 0 else v.data i }

/-! ## `DVecDVecAddExpr` -/

/-- The addition node: the members `lhs_` and `rhs_`. -/
structure DVecDVecAddExpr (α : Type) where
  lhs : DenseVector α
  rhs : DenseVector α

namespace DVecDVecAddExpr

variable {α : Type}

/-- The constructor `DVecDVecAddExpr( lhs, rhs )`. -/
def ctor (lhs rhs : DenseVector α) : Except Failure (DVecDVecAddExpr α) :=
  if lhs.size = rhs.size then .ok { lhs := lhs, rhs := rhs }
  else .error (.internalAssert "Invalid vector sizes")

/-- The member `operator[]( index )`. -/
def subscript [Add α] (e : DVecDVecAddExpr α) (index : Nat) : Except Failure α :=
  if index < e.lhs.size then .ok (e.lhs.data index + e.rhs.data index)
  else .error (.internalAssert "Invalid vector access index")

/-- The member `size()`. -/
def size (e : DVecDVecAddExpr α) : Nat :=
  e.lhs.size

end DVecDVecAddExpr

/-- The global `operator+( lhs, rhs )` on two dense vectors. -/
def operatorAdd {α : Type} (lhs rhs : DenseVector α) : Except Failure (DVecDVecAddExpr α) :=
  if lhs.size ≠ rhs.size then .error (.invalidArgument "Vector sizes do not match")
  else DVecDVecAddExpr.ctor lhs rhs

/-! ## `TDMatSVecMultExpr` -/

/-- The multiplication node: the members `mat_` and `vec_`. -/
structure TDMatSVecMultExpr (α : Type) where
  mat : DenseMatrix α
  vec : SparseVector α

namespace TDMatSVecMultExpr

variable {α : Type}

/-- The constructor `TDMatSVecMultExpr( mat, vec )`. -/
def ctor (mat : DenseMatrix α) (vec : SparseVector α) : Except Failure (TDMatSVecMultExpr α) :=
  if mat.columns = vec.size then .ok { mat := mat, vec := vec }
  else .error (.internalAssert "Invalid matrix and vector sizes")

/-- The member `operator[]( index )`. The evaluated operand `x` is the operand itself, so the
assertion `x.size() == vec_.size()` cannot fail. -/
def subscript [Zero α] [Add α] [Mul α] (e : TDMatSVecMultExpr α) (index : Nat) :
    Except Failure α :=
  if index < e.mat.rows then
    match e.vec.elements with
    | element :: rest =>
        .ok (rest.foldl (fun res element => res + e.mat.elem index element.index * element.value)
          (e.mat.elem index element.index * element.value))
    | [] => .ok resetElement
  else .error (.internalAssert "Invalid vector access index")

/-- The member `size()`. -/
def size (e : TDMatSVecMultExpr α) : Nat :=
  e.mat.rows

end TDMatSVecMultExpr

/-- The global `operator*( mat, vec )` on a column-major dense matrix and a sparse vector. -/
def operatorMul {α : Type} (mat : DenseMatrix α) (vec : SparseVector α) :
    Except Failure (TDMatSVecMultExpr α) :=
  if mat.columns ≠ vec.size then .error (.invalidArgument "Matrix and vector sizes do not match")
  else TDMatSVecMultExpr.ctor mat vec

/-! ## Loops and block primitives used by the kernels -/

/-- The row loop `for( size_t i=0UL; i<M; ++i ) body( i )` acting on the storage of `y`. -/
def forRows {α : Type} (M : Nat) (body : Nat → (Nat → α) → (Nat → α)) (y : Nat → α) :
    Nat → α :=
  (List.range M).foldl (fun y i => body i y) y

/-- The block loop `for( size_t i=0UL; (i+IT::size) <= M; i+=IT::size ) body( i )`, started at
`i` and run for at most `bound` evaluations of its condition. -/
def forBlocksLE {α : Type} (w M : Nat) (body : Nat → (Nat → α) → (Nat → α)) :
    (bound : Nat) → (i : Nat) → (Nat → α) → Except Failure (Nat → α)
  | 0, _, _ => .error .loopBoundExceeded
  | bound + 1, i, y =>
      if (i + w) % sizeRange ≤ M then forBlocksLE w M body bound ((i + w) % sizeRange) (body i y)
      else .ok y

/-- The block loop `for( size_t i=0UL; i<M; i+=IT::size ) body( i )`, started at `i` and run
for at most `bound` evaluations of its condition. -/
def forBlocksLT {α : Type} (w M : Nat) (body : Nat → (Nat → α) → (Nat → α)) :
    (bound : Nat) → (i : Nat) → (Nat → α) → Except Failure (Nat → α)
  | 0, _, _ => .error .loopBoundExceeded
  | bound + 1, i, y =>
      if i < M then forBlocksLT w M body bound ((i + w) % sizeRange) (body i y)
      else .ok y

/-- The group loop `for( size_t j=j0; (j+4UL)<=jend; j+=4UL )`, each round of which reads four
elements through the iterator `element` and then runs `body` on them. It returns the iterator
position it stops at and the storage of `y`. -/
def forGroupsOfFour {α : Type} (jend : Nat)
    (body : SparseElement α → SparseElement α → SparseElement α → SparseElement α →
      (Nat → α) → Except Failure (Nat → α)) :
    (j : Nat) → (element : List (SparseElement α)) → (Nat → α) →
      Except Failure (List (SparseElement α) × (Nat → α))
  | j, e1 :: e2 :: e3 :: e4 :: rest, y =>
      if (j + 4) % sizeRange ≤ jend then
        match body e1 e2 e3 e4 y with
        | .ok y1 => forGroupsOfFour jend body ((j + 4) % sizeRange) rest y1
        | .error f => .error f
      else .ok (e1 :: e2 :: e3 :: e4 :: rest, y)
  | j, element, y =>
      if (j + 4) % sizeRange ≤ jend then .error .iteratorPastEnd else .ok (element, y)

/-- The remainder loop `for( ; element!=end; ++element )`, each round of which runs `body` on
the element under the iterator. -/
def forRemaining {α : Type}
    (body : SparseElement α → (Nat → α) → Except Failure (Nat → α)) :
    (element : List (SparseElement α)) → (Nat → α) → Except Failure (Nat → α)
  | [], y => .ok y
  | e1 :: rest, y =>
      match body e1 y with
      | .ok y1 => forRemaining body rest y1
      | .error f => .error f

/-- The group bound `x.nonZeros() & size_t(-4)`. -/
def groupEnd (nonZeros : Nat) : Nat :=
  nonZeros &&& (sizeRange - 4)

/-- A block of `w` lanes (`IntrinsicType`, with `w = IT::size`); `+`, `-` and `*` on blocks
act lane by lane. -/
abbrev Block (w : Nat) (α : Type) : Type := Fin w → α

/-- Modelled from the spec: the block accessor `A.get( i, j )` of a column-major dense matrix,
which is not part of the sources at hand; lane `l` holds row `i + l` of column `j`. -/
def DenseMatrix.get {α : Type} (A : DenseMatrix α) (w i j : Nat) : Block w α :=
  fun l => A.elem (i + l.val) j

/-- Modelled from the spec: the intrinsic `set( v )` of `blaze/math/Intrinsics.h`, which is not
part of the sources at hand; every lane holds `v`. -/
def set {α : Type} (w : Nat) (v : α) : Block w α :=
  fun _ => v

/-- Modelled from the spec: the intrinsic `load( &y[i] )` of `blaze/math/Intrinsics.h`, which
is not part of the sources at hand; lane `l` holds `y[i + l]`. -/
def load {α : Type} (w : Nat) (y : Nat → α) (i : Nat) : Block w α :=
  fun l => y (i + l.val)

/-- Modelled from the spec: the intrinsic `store( &y[i], b )` of `blaze/math/Intrinsics.h`,
which is not part of the sources at hand; `y[i + l]` receives lane `l` of `b`. -/
def store {α : Type} (w : Nat) (y : Nat → α) (i : Nat) (b : Block w α) : Nat → α :=
  fun k => if h : i ≤ k ∧ k < i + w then b ⟨k - i, by omega⟩ else y k

/-! ## Kernel selection of `TDMatSVecMultExpr` -/

/-- The compile-time facts about the types `T1` (target vector), `T2` (matrix operand) and
`T3` (vector operand) that the kernel selection reads. -/
structure KernelTraits where
  /-- The flag `T1::vectorizable`. -/
  t1Vectorizable : Bool
  /-- The flag `T2::vectorizable`. -/
  t2Vectorizable : Bool
  /-- The trait `IsSame<typename T1::ElementType,typename T2::ElementType>`. -/
  sameElementT1T2 : Bool
  /-- The trait `IsSame<typename T1::ElementType,typename T3::ElementType>`. -/
  sameElementT1T3 : Bool
  /-- The flag `IntrinsicTrait<typename T1::ElementType>::addition`. -/
  intrinsicAddition : Bool
  /-- The flag `IntrinsicTrait<typename T1::ElementType>::multiplication`. -/
  intrinsicMultiplication : Bool
  /-- The trait `IsResizable<typename T1::ElementType>`. -/
  resizableT1Element : Bool
  /-- The trait `IsResizable<VET>`. -/
  resizableVET : Bool
  deriving DecidableEq

/-- The helper `UseVectorizedKernel<T1,T2,T3>::value`. -/
def UseVectorizedKernel (t : KernelTraits) : Bool :=
  t.t1Vectorizable && t.t2Vectorizable && t.sameElementT1T2 && t.sameElementT1T3 &&
    t.intrinsicAddition && t.intrinsicMultiplication

/-- The helper `UseOptimizedKernel<T1,T2,T3>::value`. -/
def UseOptimizedKernel (t : KernelTraits) : Bool :=
  !UseVectorizedKernel t && !t.resizableT1Element && !t.resizableVET

/-- The helper `UseDefaultKernel<T1,T2,T3>::value`. -/
def UseDefaultKernel (t : KernelTraits) : Bool :=
  !UseVectorizedKernel t && !UseOptimizedKernel t

/-- The three overloads of each `select*Kernel` function. -/
inductive Kernel where
  | default
  | optimized
  | vectorized
  deriving DecidableEq

/-- The overloads left enabled by their `EnableIf` return types. -/
def enabledKernels (t : KernelTraits) : List Kernel :=
  (if UseDefaultKernel t then [Kernel.default] else []) ++
  (if UseOptimizedKernel t then [Kernel.optimized] else []) ++
  (if UseVectorizedKernel t then [Kernel.vectorized] else [])

/-- Overload resolution of a `select*Kernel` call: the call is well formed when exactly one
overload is enabled, and that overload is the one called. -/
def selectKernel (t : KernelTraits) : Option Kernel :=
  match enabledKernels t with
  | [k] => some k
  | _ => none

namespace TDMatSVecMultExpr

variable {α : Type}

/-! ### Assignment kernels -/

/-- The default overload of `selectAssignKernel( y, A, x )`. -/
def selectAssignKernelDefault [Add α] [Mul α] (y : DenseVector α) (A : DenseMatrix α)
    (x : SparseVector α) : Except Failure (DenseVector α) :=
  if x.nonZeros = 0 then .error (.internalAssert "Invalid number of non-zero elements") else
  let M := A.rows
  match x.elements with
  | [] => .error .iteratorPastEnd
  | element :: rest =>
      let y1 := forRows M
        (fun i y => Function.update y i (A.elem i element.index * element.value)) y.data
      match forRemaining (fun element y => .ok (forRows M
          (fun i y => Function.update y i (y i + A.elem i element.index * element.value)) y))
          rest y1 with
      | .ok y2 => .ok { y with data := y2 }
      | .error f => .error f

/-- The optimized overload of `selectAssignKernel( y, A, x )`. -/
def selectAssignKernelOptimized [Add α] [Mul α] (y : DenseVector α) (A : DenseMatrix α)
    (x : SparseVector α) : Except Failure (DenseVector α) :=
  if x.nonZeros = 0 then .error (.internalAssert "Invalid number of non-zero elements") else
  let M := A.rows
  let jend := groupEnd x.nonZeros
  if x.nonZeros - x.nonZeros % 4 ≠ jend then .error (.internalAssert "Invalid end calculation")
  else
  let first : Except Failure (List (SparseElement α) × (Nat → α)) :=
    if jend > 3 then
      match x.elements with
      | e1 :: e2 :: e3 :: e4 :: element =>
          .ok (element, forRows M (fun i y => Function.update y i
            (A.elem i e1.index * e1.value + A.elem i e2.index * e2.value
              + A.elem i e3.index * e3.value + A.elem i e4.index * e4.value)) y.data)
      | _ => .error .iteratorPastEnd
    else
      match x.elements with
      | e1 :: element =>
          .ok (element, forRows M (fun i y => Function.update y i
            (A.elem i e1.index * e1.value)) y.data)
      | [] => .error .iteratorPastEnd
  match first with
  | .error f => .error f
  | .ok (element, y1) =>
  match forGroupsOfFour jend (fun e1 e2 e3 e4 y => .ok (forRows M
      (fun i y => Function.update y i
        (y i + (A.elem i e1.index * e1.value + A.elem i e2.index * e2.value
          + A.elem i e3.index * e3.value + A.elem i e4.index * e4.value))) y))
      (if jend > 3 then 4 else 1) element y1 with
  | .error f => .error f
  | .ok (element, y2) =>
  match forRemaining (fun e1 y => .ok (forRows M
      (fun i y => Function.update y i (y i + A.elem i e1.index * e1.value)) y))
      element y2 with
  | .error f => .error f
  | .ok y3 => .ok { y with data := y3 }

/-- The vectorized overload of `selectAssignKernel( y, A, x )`, for blocks of `w = IT::size`
lanes. -/
def selectAssignKernelVectorized [Add α] [Mul α] (w : Nat) (y : DenseVector α)
    (A : DenseMatrix α) (x : SparseVector α) : Except Failure (DenseVector α) :=
  if x.nonZeros = 0 then .error (.internalAssert "Invalid number of non-zero elements") else
  let M := A.spacing
  let jend := groupEnd x.nonZeros
  if x.nonZeros - x.nonZeros % 4 ≠ jend then .error (.internalAssert "Invalid end calculation")
  else
  let first : Except Failure (List (SparseElement α) × (Nat → α)) :=
    if jend > 3 then
      match x.elements with
      | e1 :: e2 :: e3 :: e4 :: element =>
          match forBlocksLE w M (fun i y => store w y i
              (A.get w i e1.index * set w e1.value + A.get w i e2.index * set w e2.value
                + A.get w i e3.index * set w e3.value + A.get w i e4.index * set w e4.value))
              (M + 1) 0 y.data with
          | .ok y1 => .ok (element, y1)
          | .error f => .error f
      | _ => .error .iteratorPastEnd
    else
      match x.elements with
      | e1 :: element =>
          match forBlocksLE w M (fun i y => store w y i (A.get w i e1.index * set w e1.value))
              (M + 1) 0 y.data with
          | .ok y1 => .ok (element, y1)
          | .error f => .error f
      | [] => .error .iteratorPastEnd
  match first with
  | .error f => .error f
  | .ok (element, y1) =>
  match forGroupsOfFour jend (fun e1 e2 e3 e4 y => forBlocksLT w M
      (fun i y => store w y i
        (load w y i + A.get w i e1.index * set w e1.value + A.get w i e2.index * set w e2.value
          + A.get w i e3.index * set w e3.value + A.get w i e4.index * set w e4.value))
      (M + 1) 0 y)
      (if jend > 3 then 4 else 1) element y1 with
  | .error f => .error f
  | .ok (element, y2) =>
  match forRemaining (fun e1 y => forBlocksLT w M
      (fun i y => store w y i (load w y i + A.get w i e1.index * set w e1.value))
      (M + 1) 0 y)
      element y2 with
  | .error f => .error f
  | .ok y3 => .ok { y with data := y3 }

/-- The overload of `selectAssignKernel( y, A, x )` named by `k`. -/
def selectAssignKernel [Add α] [Mul α] (k : Kernel) (w : Nat) (y : DenseVector α)
    (A : DenseMatrix α) (x : SparseVector α) : Except Failure (DenseVector α) :=
  match k with
  | .default => selectAssignKernelDefault y A x
  | .optimized => selectAssignKernelOptimized y A x
  | .vectorized => selectAssignKernelVectorized w y A x

/-- The friend `assign( DenseVector& lhs, const TDMatSVecMultExpr& rhs )`, with `k` the kernel
overload resolution picks and `w = IT::size`. The evaluated operands `x` and `A` are the
operands themselves, so the three assertions comparing them with `rhs.vec_` and `rhs.mat_`
cannot fail. -/
def assign [Zero α] [Add α] [Mul α] (k : Kernel) (w : Nat) (lhs : DenseVector α)
    (rhs : TDMatSVecMultExpr α) : Except Failure (DenseVector α) :=
  if lhs.size ≠ rhs.size then .error (.internalAssert "Invalid vector sizes") else
  let x := rhs.vec
  if x.nonZeros = 0 then .ok (reset lhs) else
  let A := rhs.mat
  if A.rows ≠ lhs.size then .error (.internalAssert "Invalid vector size") else
  selectAssignKernel k w lhs A x

/-! ### Addition assignment kernels -/

/-- The default overload of `selectAddAssignKernel( y, A, x )`. -/
def selectAddAssignKernelDefault [Add α] [Mul α] (y : DenseVector α) (A : DenseMatrix α)
    (x : SparseVector α) : Except Failure (DenseVector α) :=
  if x.nonZeros = 0 then .error (.internalAssert "Invalid number of non-zero elements") else
  let M := A.rows
  match forRemaining (fun element y => .ok (forRows M
      (fun i y => Function.update y i (y i + A.elem i element.index * element.value)) y))
      x.elements y.data with
  | .error f => .error f
  | .ok y1 => .ok { y with data := y1 }

/-- The optimized overload of `selectAddAssignKernel( y, A, x )`. -/
def selectAddAssignKernelOptimized [Add α] [Mul α] (y : DenseVector α) (A : DenseMatrix α)
    (x : SparseVector α) : Except Failure (DenseVector α) :=
  if x.nonZeros = 0 then .error (.internalAssert "Invalid number of non-zero elements") else
  let M := A.rows
  let jend := groupEnd x.nonZeros
  if x.nonZeros - x.nonZeros % 4 ≠ jend then .error (.internalAssert "Invalid end calculation")
  else
  match forGroupsOfFour jend (fun e1 e2 e3 e4 y => .ok (forRows M
      (fun i y => Function.update y i
        (y i + (A.elem i e1.index * e1.value + A.elem i e2.index * e2.value
          + A.elem i e3.index * e3.value + A.elem i e4.index * e4.value))) y))
      0 x.elements y.data with
  | .error f => .error f
  | .ok (element, y1) =>
  match forRemaining (fun e1 y => .ok (forRows M
      (fun i y => Function.update y i (y i + A.elem i e1.index * e1.value)) y))
      element y1 with
  | .error f => .error f
  | .ok y2 => .ok { y with data := y2 }

/-- The vectorized overload of `selectAddAssignKernel( y, A, x )`, for blocks of
`w = IT::size` lanes. -/
def selectAddAssignKernelVectorized [Add α] [Mul α] (w : Nat) (y : DenseVector α)
    (A : DenseMatrix α) (x : SparseVector α) : Except Failure (DenseVector α) :=
  if x.nonZeros = 0 then .error (.internalAssert "Invalid number of non-zero elements") else
  let M := A.spacing
  let jend := groupEnd x.nonZeros
  if x.nonZeros - x.nonZeros % 4 ≠ jend then .error (.internalAssert "Invalid end calculation")
  else
  match forGroupsOfFour jend (fun e1 e2 e3 e4 y => forBlocksLT w M
      (fun i y => store w y i
        (load w y i + A.get w i e1.index * set w e1.value
          + A.get w i e2.index * set w e2.value + A.get w i e3.index * set w e3.value
          + A.get w i e4.index * set w e4.value))
      (M + 1) 0 y)
      0 x.elements y.data with
  | .error f => .error f
  | .ok (element, y1) =>
  match forRemaining (fun e1 y => forBlocksLT w M
      (fun i y => store w y i (load w y i + A.get w i e1.index * set w e1.value))
      (M + 1) 0 y)
      element y1 with
  | .error f => .error f
  | .ok y2 => .ok { y with data := y2 }

/-- The overload of `selectAddAssignKernel( y, A, x )` named by `k`. -/
def selectAddAssignKernel [Add α] [Mul α] (k : Kernel) (w : Nat) (y : DenseVector α)
    (A : DenseMatrix α) (x : SparseVector α) : Except Failure (DenseVector α) :=
  match k with
  | .default => selectAddAssignKernelDefault y A x
  | .optimized => selectAddAssignKernelOptimized y A x
  | .vectorized => selectAddAssignKernelVectorized w y A x

/-- The friend `addAssign( DenseVector& lhs, const TDMatSVecMultExpr& rhs )`, with `k` the
kernel overload resolution picks and `w = IT::size`. -/
def addAssign [Add α] [Mul α] (k : Kernel) (w : Nat) (lhs : DenseVector α)
    (rhs : TDMatSVecMultExpr α) : Except Failure (DenseVector α) :=
  if lhs.size ≠ rhs.size then .error (.internalAssert "Invalid vector sizes") else
  let x := rhs.vec
  if x.nonZeros = 0 then .ok lhs else
  let A := rhs.mat
  if A.rows ≠ lhs.size then .error (.internalAssert "Invalid vector size") else
  selectAddAssignKernel k w lhs A x

/-! ### Subtraction assignment kernels -/

/-- The default overload of `selectSubAssignKernel( y, A, x )`. -/
def selectSubAssignKernelDefault [Sub α] [Mul α] (y : DenseVector α) (A : DenseMatrix α)
    (x : SparseVector α) : Except Failure (DenseVector α) :=
  if x.nonZeros = 0 then .error (.internalAssert "Invalid number of non-zero elements") else
  let M := A.rows
  match forRemaining (fun element y => .ok (forRows M
      (fun i y => Function.update y i (y i - A.elem i element.index * element.value)) y))
      x.elements y.data with
  | .error f => .error f
  | .ok y1 => .ok { y with data := y1 }

/-- The optimized overload of `selectSubAssignKernel( y, A, x )`. -/
def selectSubAssignKernelOptimized [Add α] [Sub α] [Mul α] (y : DenseVector α)
    (A : DenseMatrix α) (x : SparseVector α) : Except Failure (DenseVector α) :=
  if x.nonZeros = 0 then .error (.internalAssert "Invalid number of non-zero elements") else
  let M := A.rows
  let jend := groupEnd x.nonZeros
  if x.nonZeros - x.nonZeros % 4 ≠ jend then .error (.internalAssert "Invalid end calculation")
  else
  match forGroupsOfFour jend (fun e1 e2 e3 e4 y => .ok (forRows M
      (fun i y => Function.update y i
        (y i - (A.elem i e1.index * e1.value + A.elem i e2.index * e2.value
          + A.elem i e3.index * e3.value + A.elem i e4.index * e4.value))) y))
      0 x.elements y.data with
  | .error f => .error f
  | .ok (element, y1) =>
  match forRemaining (fun e1 y => .ok (forRows M
      (fun i y => Function.update y i (y i - A.elem i e1.index * e1.value)) y))
      element y1 with
  | .error f => .error f
  | .ok y2 => .ok { y with data := y2 }

/-- The vectorized overload of `selectSubAssignKernel( y, A, x )`, for blocks of
`w = IT::size` lanes. -/
def selectSubAssignKernelVectorized [Sub α] [Mul α] (w : Nat) (y : DenseVector α)
    (A : DenseMatrix α) (x : SparseVector α) : Except Failure (DenseVector α) :=
  if x.nonZeros = 0 then .error (.internalAssert "Invalid number of non-zero elements") else
  let M := A.spacing
  let jend := groupEnd x.nonZeros
  if x.nonZeros - x.nonZeros % 4 ≠ jend then .error (.internalAssert "Invalid end calculation")
  else
  match forGroupsOfFour jend (fun e1 e2 e3 e4 y => forBlocksLT w M
      (fun i y => store w y i
        (load w y i - A.get w i e1.index * set w e1.value
          - A.get w i e2.index * set w e2.value - A.get w i e3.index * set w e3.value
          - A.get w i e4.index * set w e4.value))
      (M + 1) 0 y)
      0 x.elements y.data with
  | .error f => .error f
  | .ok (element, y1) =>
  match forRemaining (fun e1 y => forBlocksLT w M
      (fun i y => store w y i (load w y i - A.get w i e1.index * set w e1.value))
      (M + 1) 0 y)
      element y1 with
  | .error f => .error f
  | .ok y2 => .ok { y with data := y2 }

/-- The overload of `selectSubAssignKernel( y, A, x )` named by `k`. -/
def selectSubAssignKernel [Add α] [Sub α] [Mul α] (k : Kernel) (w : Nat) (y : DenseVector α)
    (A : DenseMatrix α) (x : SparseVector α) : Except Failure (DenseVector α) :=
  match k with
  | .default => selectSubAssignKernelDefault y A x
  | .optimized => selectSubAssignKernelOptimized y A x
  | .vectorized => selectSubAssignKernelVectorized w y A x

/-- The friend `subAssign( DenseVector& lhs, const TDMatSVecMultExpr& rhs )`, with `k` the
kernel overload resolution picks and `w = IT::size`. -/
def subAssign [Add α] [Sub α] [Mul α] (k : Kernel) (w : Nat) (lhs : DenseVector α)
    (rhs : TDMatSVecMultExpr α) : Except Failure (DenseVector α) :=
  if lhs.size ≠ rhs.size then .error (.internalAssert "Invalid vector sizes") else
  let x := rhs.vec
  if x.nonZeros = 0 then .ok lhs else
  let A := rhs.mat
  if A.rows ≠ lhs.size then .error (.internalAssert "Invalid vector size") else
  selectSubAssignKernel k w lhs A x

end TDMatSVecMultExpr

/-! ## Specification-side sum -/

/-- The sum, in iteration order, over the stored elements `(j, v)` of `x` of `A(i,j) * v`,
starting from the zero element. -/
def rowSum {α : Type} [Zero α] [Add α] [Mul α] (A : DenseMatrix α) (x : SparseVector α)
    (i : Nat) : α :=
  (x.elements.map (fun element => A.elem i element.index * element.value)).foldl (· + ·) 0

/-! ## Stored vectors and the operands of an addition node -/

/-- The dense vectors stored in memory, by the address of the container. -/
abbrev DenseMemory (α : Type) : Type := Nat → DenseVector α

/-- The write `v[i] = value` to the dense vector stored at address `d`. -/
def DenseMemory.write {α : Type} (mem : DenseMemory α) (d i : Nat) (value : α) :
    DenseMemory α :=
  Function.update mem d { mem d with data := Function.update (mem d).data i value }

/-- The element loop `for( size_t i=0UL; i<n; ++i ) body( i )` acting on the memory, each round
of which may fail. -/
def forElements {α : Type} (n : Nat)
    (body : Nat → DenseMemory α → Except Failure (DenseMemory α)) (mem : DenseMemory α) :
    Except Failure (DenseMemory α) :=
  (List.range n).foldlM (fun mem i => body i mem) mem

/-- Modelled from the spec: the default `assign( lhs, rhs )`, `addAssign( lhs, rhs )`,
`subAssign( lhs, rhs )` and `multAssign( lhs, rhs )` of a stored dense vector `lhs` (at address
`d`) and a dense vector `rhs` read through its subscript operator, which are not part of the
sources at hand: for `i` from `0` to `lhs.size()`, `lhs[i]` becomes `combine( lhs[i], rhs[i] )`,
where `combine` keeps the right value (copy-assign), adds, subtracts or multiplies. -/
def elementwiseAssign {α : Type} (combine : α → α → α)
    (subscript : DenseMemory α → Nat → Except Failure α) (mem : DenseMemory α) (d : Nat) :
    Except Failure (DenseMemory α) :=
  forElements (mem d).size
    (fun i mem =>
      match subscript mem i with
      | .ok value => .ok (mem.write d i (combine ((mem d).data i) value))
      | .error f => .error f)
    mem

/-- The capability contract of a dense vector type `VT` used as an operand of an expression
node, towards stored dense vectors as destinations. -/
structure DenseOperand (α : Type) where
  /-- The trait `IsComputation<VT>::value`. -/
  isComputation : Bool
  /-- The trait `RequiresEvaluation<VT>::value`. -/
  requiresEvaluation : Bool
  /-- The trait `IsTemporary<typename VT::ReturnType>::value`. -/
  returnsTemporary : Bool
  /-- The address `&operand` of the member of the node that holds the operand: the address of
  a stored container held by reference, and none of the addresses of the memory for an
  expression held by value. -/
  address : Option Nat
  /-- The member `size()`. -/
  size : DenseMemory α → Nat
  /-- The member `operator[]( index )`. -/
  subscript : DenseMemory α → Nat → Except Failure α
  /-- The member `isAliased( alias )`. -/
  isAliased : Nat → Bool
  /-- The member `canAlias( alias )`. -/
  canAlias : Nat → Bool
  /-- The call `assign( lhs, operand )` for the dense vector `lhs` stored at the given
  address. -/
  assignTo : DenseMemory α → Nat → Except Failure (DenseMemory α)
  /-- The call `addAssign( lhs, operand )` for the dense vector `lhs` stored at the given
  address. -/
  addAssignTo : DenseMemory α → Nat → Except Failure (DenseMemory α)
  /-- The call `subAssign( lhs, operand )` for the dense vector `lhs` stored at the given
  address. -/
  subAssignTo : DenseMemory α → Nat → Except Failure (DenseMemory α)
  /-- The call `multAssign( lhs, operand )` for the dense vector `lhs` stored at the given
  address. -/
  multAssignTo : DenseMemory α → Nat → Except Failure (DenseMemory α)

/-- Modelled from the spec: a stored dense vector used as an operand, whose class is not part
of the sources at hand. It is no computation, is held by reference, is aliased with its own
address only, and is assigned element by element. -/
def DenseOperand.stored {α : Type} [Add α] [Sub α] [Mul α] (address : Nat) : DenseOperand α :=
  { isComputation := false
    requiresEvaluation := false
    returnsTemporary := false
    address := some address
    size := fun mem => (mem address).size
    subscript := fun mem i => .ok ((mem address).data i)
    isAliased := fun ptr => decide (ptr = address)
    canAlias := fun ptr => decide (ptr = address)
    assignTo := elementwiseAssign (fun _ value => value)
      (fun mem i => .ok ((mem address).data i))
    addAssignTo := elementwiseAssign (fun old value => old + value)
      (fun mem i => .ok ((mem address).data i))
    subAssignTo := elementwiseAssign (fun old value => old - value)
      (fun mem i => .ok ((mem address).data i))
    multAssignTo := elementwiseAssign (fun old value => old * value)
      (fun mem i => .ok ((mem address).data i)) }

namespace TDMatSVecMultExpr

variable {α : Type}

/-- Modelled from the spec: the construction `const ResultType tmp( rhs )` of the result
vector from the node, whose class is not part of the sources at hand: a new dense vector of
length `rhs.size()`, whose storage holds `fresh` before it is written, to which the node is
assigned. -/
def tmp [Zero α] [Add α] [Mul α] (k : Kernel) (w : Nat) (fresh : Nat → α)
    (rhs : TDMatSVecMultExpr α) : Except Failure (DenseVector α) :=
  assign k w { size := rhs.size, data := fresh } rhs

/-- The friend `multAssign( DenseVector& lhs, const TDMatSVecMultExpr& rhs )` for the dense
vector `lhs` stored at address `d`. -/
def multAssign [Zero α] [Add α] [Mul α] (k : Kernel) (w : Nat) (fresh : Nat → α)
    (mem : DenseMemory α) (d : Nat) (rhs : TDMatSVecMultExpr α) :
    Except Failure (DenseMemory α) :=
  if (mem d).size ≠ rhs.size then .error (.internalAssert "Invalid vector sizes") else
  match tmp k w fresh rhs with
  | .ok t =>
      elementwiseAssign (fun old value => old * value) (fun _ i => .ok (t.data i)) mem d
  | .error f => .error f

/-- The multiplication node used as an operand of another node: it is a computation held by
value, its composite type is `const ResultType`, so it requires an evaluation, and its
operands, a matrix and a sparse vector, are none of the dense vectors of the memory. The
assignment calls are the friends of the class, applied to the stored destination. -/
def toOperand [Zero α] [Add α] [Sub α] [Mul α] (k : Kernel) (w : Nat) (fresh : Nat → α)
    (e : TDMatSVecMultExpr α) : DenseOperand α :=
  { isComputation := true
    requiresEvaluation := true
    returnsTemporary := false
    address := none
    size := fun _ => e.size
    subscript := fun _ i => e.subscript i
    isAliased := fun _ => false
    canAlias := fun _ => false
    assignTo := fun mem d =>
      match assign k w (mem d) e with
      | .ok y => .ok (Function.update mem d y)
      | .error f => .error f
    addAssignTo := fun mem d =>
      match addAssign k w (mem d) e with
      | .ok y => .ok (Function.update mem d y)
      | .error f => .error f
    subAssignTo := fun mem d =>
      match subAssign k w (mem d) e with
      | .ok y => .ok (Function.update mem d y)
      | .error f => .error f
    multAssignTo := fun mem d => multAssign k w fresh mem d e }

end TDMatSVecMultExpr

/-- The addition node as its assignment functions see it: each operand is of a dense vector
type of its own, a stored vector held by reference or an expression held by value. -/
structure DVecDVecAddNode (α : Type) where
  lhs : DenseOperand α
  rhs : DenseOperand α

/-- Modelled from the spec: the member `isAliased( alias )` of the stored destination at
address `d`, whose class is not part of the sources at hand: the destination is aliased with
its own address only. -/
def storedIsAliased (d : Nat) (ptr : Option Nat) : Bool :=
  decide (ptr = some d)

namespace DVecDVecAddNode

variable {α : Type}

/-- The switch `returnExpr`. -/
def returnExpr (e : DVecDVecAddNode α) : Bool :=
  !e.lhs.returnsTemporary && !e.rhs.returnsTemporary

/-- The switch `useAssign`. -/
def useAssign (e : DVecDVecAddNode α) : Bool :=
  e.lhs.requiresEvaluation || e.rhs.requiresEvaluation || !e.returnExpr

/-- The member `size()`. -/
def size (e : DVecDVecAddNode α) (mem : DenseMemory α) : Nat :=
  e.lhs.size mem

/-- The member `operator[]( index )`. -/
def subscript [Add α] (e : DVecDVecAddNode α) (mem : DenseMemory α) (index : Nat) :
    Except Failure α :=
  if index < e.lhs.size mem then
    match e.lhs.subscript mem index, e.rhs.subscript mem index with
    | .ok l, .ok r => .ok (l + r)
    | .error f, _ => .error f
    | _, .error f => .error f
  else .error (.internalAssert "Invalid vector access index")

/-- The member `canAlias( alias )`. -/
def canAlias (e : DVecDVecAddNode α) (ptr : Nat) : Bool :=
  (e.lhs.isComputation &&
      (if e.lhs.requiresEvaluation then e.lhs.isAliased ptr else e.lhs.canAlias ptr)) ||
    (e.rhs.isComputation &&
      (if e.rhs.requiresEvaluation then e.rhs.isAliased ptr else e.rhs.canAlias ptr))

/-- The member `isAliased( alias )`. -/
def isAliased (e : DVecDVecAddNode α) (ptr : Nat) : Bool :=
  e.lhs.isAliased ptr || e.rhs.isAliased ptr

/-- The friend `assign( DenseVector& lhs, const DVecDVecAddExpr& rhs )`, enabled when
`useAssign` holds, for the dense vector `lhs` stored at address `d`. -/
def assign (e : DVecDVecAddNode α) (mem : DenseMemory α) (d : Nat) :
    Except Failure (DenseMemory α) :=
  if (mem d).size ≠ e.size mem then .error (.internalAssert "Invalid vector sizes") else
  if !e.lhs.isComputation && storedIsAliased d e.lhs.address then e.rhs.addAssignTo mem d
  else if !e.rhs.isComputation && storedIsAliased d e.rhs.address then e.lhs.addAssignTo mem d
  else
    match e.lhs.assignTo mem d with
    | .ok mem1 => e.rhs.addAssignTo mem1 d
    | .error f => .error f

/-- The friend `addAssign( DenseVector& lhs, const DVecDVecAddExpr& rhs )`, enabled when
`useAssign` holds, for the dense vector `lhs` stored at address `d`. -/
def addAssign (e : DVecDVecAddNode α) (mem : DenseMemory α) (d : Nat) :
    Except Failure (DenseMemory α) :=
  if (mem d).size ≠ e.size mem then .error (.internalAssert "Invalid vector sizes") else
  match e.lhs.addAssignTo mem d with
  | .ok mem1 => e.rhs.addAssignTo mem1 d
  | .error f => .error f

/-- The friend `subAssign( DenseVector& lhs, const DVecDVecAddExpr& rhs )`, enabled when
`useAssign` holds, for the dense vector `lhs` stored at address `d`. -/
def subAssign (e : DVecDVecAddNode α) (mem : DenseMemory α) (d : Nat) :
    Except Failure (DenseMemory α) :=
  if (mem d).size ≠ e.size mem then .error (.internalAssert "Invalid vector sizes") else
  match e.lhs.subAssignTo mem d with
  | .ok mem1 => e.rhs.subAssignTo mem1 d
  | .error f => .error f

end DVecDVecAddNode

/-! ## Stored sparse vectors as destinations -/

/-- The sparse vectors stored in memory, by the address of the container. -/
abbrev SparseMemory (α : Type) : Type := Nat → SparseVector α

/-- Modelled from the spec: the value a sparse vector holds at index `i`, read by the
subscript operator of its class, which is not part of the sources at hand: the value of the
stored element with that index, and the zero element when there is none. -/
def SparseVector.value {α : Type} [Zero α] (x : SparseVector α) (i : Nat) : α :=
  match x.elements.find? (fun element => element.index == i) with
  | some element => element.value
  | none => 0

/-- Modelled from the spec: the call `assign( lhs, rhs )` of a sparse vector `lhs` and a dense
vector `rhs`, which is not part of the sources at hand: `lhs` keeps its size and stores, in
ascending index order, the elements `(i, rhs[i])` with `rhs[i]` not the zero element. -/
def assignDenseToSparse {α : Type} [Zero α] [DecidableEq α] (lhs : SparseVector α)
    (rhs : DenseVector α) : SparseVector α :=
  { size := lhs.size
    elements := (List.range lhs.size).filterMap
      (fun i => if rhs.data i = 0 then none else some { index := i, value := rhs.data i }) }

/-- The multiplication node whose vector operand is a stored sparse vector: the member `vec_`
is a reference, here the address of the vector, and `mat_` is the matrix. -/
structure TDMatSVecMultStored (α : Type) where
  mat : DenseMatrix α
  vec : Nat

namespace TDMatSVecMultStored

variable {α : Type}

/-- The node with the vector its member `vec_` refers to in the memory. -/
def load (e : TDMatSVecMultStored α) (mem : SparseMemory α) : TDMatSVecMultExpr α :=
  { mat := e.mat, vec := mem e.vec }

/-- The friend `assign( SparseVector& lhs, const TDMatSVecMultExpr& rhs )` for the sparse
vector `lhs` stored at address `d`. -/
def assignToSparse [Zero α] [Add α] [Mul α] [DecidableEq α] (k : Kernel) (w : Nat)
    (fresh : Nat → α) (mem : SparseMemory α) (d : Nat) (rhs : TDMatSVecMultStored α) :
    Except Failure (SparseMemory α) :=
  if (mem d).size ≠ (rhs.load mem).size then .error (.internalAssert "Invalid vector sizes")
  else
  match (rhs.load mem).tmp k w fresh with
  | .ok t => .ok (Function.update mem d (assignDenseToSparse (mem d) t))
  | .error f => .error f

end TDMatSVecMultStored

/-! ## What a call to an operand owes its caller -/

/-- The values of the operand do not depend on the dense vector stored at address `d`. -/
def DenseOperand.Avoids {α : Type} (o : DenseOperand α) (d : Nat) : Prop :=
  ∀ mem mem1 : DenseMemory α, (∀ a, a ≠ d → mem1 a = mem a) →
    o.size mem1 = o.size mem ∧ o.subscript mem1 = o.subscript mem

/-- The call `assign( lhs, operand )`, for `lhs` stored at `d` and of the size of the operand,
returns; it leaves the other stored vectors and the size of `lhs` as they are, and `lhs[i]`
holds the value the operand had at `i` before the call. -/
def DenseOperand.AssignCopies {α : Type} (o : DenseOperand α) (mem : DenseMemory α)
    (d : Nat) : Prop :=
  (mem d).size = o.size mem →
  ∃ mem1, o.assignTo mem d = .ok mem1 ∧ (∀ a, a ≠ d → mem1 a = mem a) ∧
    (mem1 d).size = (mem d).size ∧
    ∀ i, i < (mem d).size → ∃ value, o.subscript mem i = .ok value ∧ (mem1 d).data i = value

/-- The call `addAssign( lhs, operand )`, for `lhs` stored at `d` and of the size of the
operand, returns; it leaves the other stored vectors and the size of `lhs` as they are, and
`lhs[i]` has grown by the value the operand had at `i` before the call. -/
def DenseOperand.AddAssignAdds {α : Type} [Add α] (o : DenseOperand α) (mem : DenseMemory α)
    (d : Nat) : Prop :=
  (mem d).size = o.size mem →
  ∃ mem1, o.addAssignTo mem d = .ok mem1 ∧ (∀ a, a ≠ d → mem1 a = mem a) ∧
    (mem1 d).size = (mem d).size ∧
    ∀ i, i < (mem d).size →
      ∃ value, o.subscript mem i = .ok value ∧ (mem1 d).data i = (mem d).data i + value

/-- The side conditions under which a kernel of the multiplication node computes the product:
the unrolled kernels count the stored elements in a `size_t`, and the vectorized kernel runs
in the lane-wise block model, with blocks of `w >= 1` lanes and the padded column length
`A.spacing()` a multiple of `w` that is at least `A.rows()`. -/
def KernelFits {α : Type} (k : Kernel) (w : Nat) (A : DenseMatrix α) (x : SparseVector α) :
    Prop :=
  (k ≠ Kernel.default → x.nonZeros + 4 < sizeRange) ∧
  (k = Kernel.vectorized →
    0 < w ∧ w ∣ A.spacing ∧ A.rows ≤ A.spacing ∧ A.spacing + w < sizeRange)

/-! ## Temporaries of the addition node and its block accessor -/

namespace DVecDVecAddNode

variable {α : Type}

/-- The call `assign( lhs, node )` for the dense vector `lhs` stored at address `d`, as
overload resolution settles it: the friend of the class when `useAssign` enables it, and
otherwise the default assignment of dense vectors, which reads the node element by element
through its subscript operator. -/
def assignTo [Add α] (e : DVecDVecAddNode α) (mem : DenseMemory α) (d : Nat) :
    Except Failure (DenseMemory α) :=
  if e.useAssign then e.assign mem d
  else elementwiseAssign (fun _ value => value) e.subscript mem d

/-- Modelled from the spec: the construction `const ResultType tmp( rhs )` of the result
vector from the node, whose class is not part of the sources at hand: a new dense vector of
length `rhs.size()` at an address `t` of its own, whose storage holds `fresh` before it is
written, to which the node is assigned. -/
def tmp [Add α] (e : DVecDVecAddNode α) (mem : DenseMemory α) (t : Nat) (fresh : Nat → α) :
    Except Failure (DenseMemory α) :=
  e.assignTo (Function.update mem t { size := e.size mem, data := fresh }) t

/-- The friend `multAssign( DenseVector& lhs, const DVecDVecAddExpr& rhs )`, enabled when
`useAssign` holds, for the dense vector `lhs` stored at address `d`; the temporary lives at
address `t`. -/
def multAssign [Add α] [Mul α] (e : DVecDVecAddNode α) (mem : DenseMemory α) (d t : Nat)
    (fresh : Nat → α) : Except Failure (DenseMemory α) :=
  if (mem d).size ≠ e.size mem then .error (.internalAssert "Invalid vector sizes") else
  match e.tmp mem t fresh with
  | .ok mem1 =>
      elementwiseAssign (fun old value => old * value) (fun mem i => .ok ((mem t).data i))
        mem1 d
  | .error f => .error f

end DVecDVecAddNode

/-- Modelled from the spec: the block accessor `get( index )` of a stored dense vector, whose
class is not part of the sources at hand; lane `l` holds the element `index + l`. -/
def DenseVector.get {α : Type} (v : DenseVector α) (w index : Nat) : Block w α :=
  fun l => v.data (index + l.val)

/-- The member `get( index )` of the addition node, for blocks of `w = IT::size` lanes. -/
def DVecDVecAddExpr.get {α : Type} [Add α] (e : DVecDVecAddExpr α) (w index : Nat) :
    Except Failure (Block w α) :=
  if ¬ index < e.lhs.size then .error (.internalAssert "Invalid vector access index")
  else if index % w ≠ 0 then .error (.internalAssert "Invalid vector access index")
  else
    let xmm1 := e.lhs.get w index
    let xmm2 := e.rhs.get w index
    .ok (xmm1 + xmm2)

/-! ## Evaluation of the matrix operand of `TDMatSVecMultExpr` -/

/-- The compile-time facts about the matrix operand type `MT` and the element types `MET` and
`VET` that the switch `evaluate` and the type `LT` read. -/
structure MatrixOperandTraits where
  /-- The trait `IsComputation<MT>::value`. -/
  isComputation : Bool
  /-- The flag `MT::vectorizable`. -/
  vectorizable : Bool
  /-- The trait `IsSame<VET,MET>::value`. -/
  sameElementVETMET : Bool
  /-- The trait `IsBlasCompatible<VET>::value`. -/
  blasCompatibleVET : Bool
  /-- Whether the composite type `MCT`, which is `MT::CompositeType`, is the result type
  `const MRT` of the operand and not a reference to the operand. -/
  compositeIsResult : Bool
  deriving DecidableEq

/-- The types the evaluated matrix operand `A` of the assignment functions can have. -/
inductive EvaluatedType where
  /-- The type `const MRT`: a matrix of the result type, constructed from the operand. -/
  | result
  /-- The type `MCT`: the composite type of the operand. -/
  | composite
  deriving DecidableEq

namespace TDMatSVecMultExpr

/-- The switch `evaluate`. -/
def evaluate (t : MatrixOperandTraits) : Bool :=
  t.isComputation && !t.vectorizable && t.sameElementVETMET && t.blasCompatibleVET

/-- The type `LT`, which is `SelectType< evaluate, const MRT, MCT >::Type`. -/
def LT (t : MatrixOperandTraits) : EvaluatedType :=
  if evaluate t then .result else .composite

/-- Whether the declaration `LT A( rhs.mat_ )` of the assignment functions constructs a matrix
of the result type from the operand: it does when `LT` is `const MRT`, and when `LT` is `MCT`
and that composite type is the result type. -/
def materialises (t : MatrixOperandTraits) : Bool :=
  match LT t with
  | .result => true
  | .composite => t.compositeIsResult

/-- The member `canAlias( alias )`, given the members `isAliased( alias )` of the matrix operand
`mat_` and of the vector operand `vec_`. -/
def canAlias (matIsAliased vecIsAliased : Nat → Bool) (ptr : Nat) : Bool :=
  matIsAliased ptr || vecIsAliased ptr

/-- The member `isAliased( alias )`, given the members `isAliased( alias )` of the matrix
operand `mat_` and of the vector operand `vec_`. -/
def isAliased (matIsAliased vecIsAliased : Nat → Bool) (ptr : Nat) : Bool :=
  matIsAliased ptr || vecIsAliased ptr

end TDMatSVecMultExpr

/-- Modelled from the spec: the traits of a stored dense matrix used as the matrix operand,
whose class is not part of the sources at hand: it is no computation, and its composite type is
a reference to the container. -/
def storedMatrixTraits (vectorizable sameElementVETMET blasCompatibleVET : Bool) :
    MatrixOperandTraits :=
  { isComputation := false
    vectorizable := vectorizable
    sameElementVETMET := sameElementVETMET
    blasCompatibleVET := blasCompatibleVET
    compositeIsResult := false }

/-! ## Block starts of the loops of the vectorized assignment kernel -/

/-- The block starts `i` at which the loop `for( size_t i=0UL; (i+IT::size) <= M; i+=IT::size )`
runs its body, for blocks of `w = IT::size` lanes: the loop with which the vectorized
assignment kernel initialises `y`, run with a body that marks its index. -/
def initialisedBlocks (w M : Nat) : Except Failure (Nat → Bool) :=
  forBlocksLE w M (fun i marked => Function.update marked i true) (M + 1) 0 (fun _ => false)

/-- The block starts `i` at which the loop `for( size_t i=0UL; i<M; i+=IT::size )` runs its
body, for blocks of `w = IT::size` lanes: the loop with which the vectorized kernels
accumulate into `y`, run with a body that marks its index. -/
def accumulatedBlocks (w M : Nat) : Except Failure (Nat → Bool) :=
  forBlocksLT w M (fun i marked => Function.update marked i true) (M + 1) 0 (fun _ => false)

/-! ## Expressions built from addition nodes -/

/-- An expression built from addition nodes over stored dense vectors, as the alias queries
see it. -/
inductive AddTree where
  /-- A stored dense vector, held by reference, at the given address. -/
  | leaf (address : Nat)
  /-- An addition node `DVecDVecAddExpr<VT1,VT2>` over two sub-expressions; the flag is the
  trait `RequiresEvaluation` of the type of this node, which the parent node reads. -/
  | node (requiresEvaluation : Bool) (lhs rhs : AddTree)

namespace AddTree

/-- The trait `IsComputation`: an addition node derives from `Computation`, a stored vector
does not. -/
def isComputation : AddTree → Bool
  | leaf _ => false
  | node _ _ _ => true

/-- The trait `RequiresEvaluation`: the flag of an addition node; a stored vector needs no
evaluation. -/
def requiresEvaluation : AddTree → Bool
  | leaf _ => false
  | node flag _ _ => flag

/-- The member `isAliased( alias )`: of `DVecDVecAddExpr` for a node, and, modelled from the
spec, of a stored vector for a leaf, which is aliased with its own address only. -/
def isAliased : AddTree → Nat → Bool
  | leaf address, ptr => decide (ptr = address)
  | node _ lhs rhs, ptr => lhs.isAliased ptr || rhs.isAliased ptr

/-- The member `canAlias( alias )`: of `DVecDVecAddExpr` for a node, and, modelled from the
spec, of a stored vector for a leaf, which can alias its own address only. -/
def canAlias : AddTree → Nat → Bool
  | leaf address, ptr => decide (ptr = address)
  | node _ lhs rhs, ptr =>
      (lhs.isComputation &&
          (if lhs.requiresEvaluation then lhs.isAliased ptr else lhs.canAlias ptr)) ||
        (rhs.isComputation &&
          (if rhs.requiresEvaluation then rhs.isAliased ptr else rhs.canAlias ptr))

/-- The sub-expressions of an expression, the expression itself included. -/
def subtrees : AddTree → List AddTree
  | leaf address => [leaf address]
  | node flag lhs rhs => node flag lhs rhs :: (lhs.subtrees ++ rhs.subtrees)

end AddTree

/-! ## The groups of stored elements read by the unrolled kernels -/

/-- Specification side: `n` groups of four consecutive elements taken from the front of a
list. -/
def groupsOfFour {β : Type} : Nat → List β → List (List β)
  | 0, _ => []
  | n + 1, l => l.take 4 :: groupsOfFour n (l.drop 4)

/-- Specification side: the groups in which an assignment kernel is to read the `k` stored
elements: a first group of four if `k >= 4` and of one otherwise, then `k/4 - 1` further groups
of four if `k >= 4` and none otherwise, then the remaining elements one at a time. -/
def assignGroups {β : Type} (l : List β) : List (List β) :=
  if 4 ≤ l.length then
    l.take 4 :: (groupsOfFour (l.length / 4 - 1) (l.drop 4)
      ++ (l.drop (4 * (l.length / 4))).map (fun e => [e]))
  else l.take 1 :: (l.drop 1).map (fun e => [e])

/-- Specification side: the groups in which an add-assignment or subtract-assignment kernel is
to read the `k` stored elements: `k/4` groups of four, then the remaining `k mod 4` elements
one at a time. -/
def accumulateGroups {β : Type} (l : List β) : List (List β) :=
  groupsOfFour (l.length / 4) l ++ (l.drop (4 * (l.length / 4))).map (fun e => [e])

/-- The sum, from left to right, of the products `A(i,j) * v` over the elements `(j, v)` of a
group that starts with `first`. -/
def groupSum {α : Type} [Add α] [Mul α] (A : DenseMatrix α) (i : Nat) (first : SparseElement α)
    (rest : List (SparseElement α)) : α :=
  rest.foldl (fun s e => s + A.elem i e.index * e.value) (A.elem i first.index * first.value)

/-- Specification side: reading one group of stored elements into the rows below `M` of `y`:
`y[i]` becomes `combine( y[i], s )` for the sum `s` of the products of the group, where
`combine` keeps `s`, adds it or subtracts it; an empty group reads nothing. -/
def readGroup {α : Type} [Add α] [Mul α] (combine : α → α → α) (A : DenseMatrix α)
    (M : Nat) (y : Nat → α) : List (SparseElement α) → (Nat → α)
  | [] => y
  | first :: rest => fun i => if i < M then combine (y i) (groupSum A i first rest) else y i

/-! ## Concrete inputs -/

/-- The matrix `[[1,2],[3,4]]` of the concrete scenario, without padding. -/
def scenarioMatrix : DenseMatrix Int :=
  { rows := 2, columns := 2, spacing := 2,
    elem := fun i j =>
      match i, j with
      | 0, 0 => 1
      | 0, 1 => 2
      | 1, 0 => 3
      | 1, 1 => 4
      | _, _ => 0 }

/-- The sparse vector of length 2 of the concrete scenario, whose only stored element is
`(1, 5)`. -/
def scenarioVector : SparseVector Int :=
  { size := 2, elements := [{ index := 1, value := 5 }] }

/-- The sparse vector of length 2 without stored elements. -/
def scenarioZeroVector : SparseVector Int :=
  { size := 2, elements := [] }

/-- A destination of length 2 holding `7` everywhere. -/
def scenarioTarget : DenseVector Int :=
  { size := 2, data := fun _ => 7 }

/-- A second dense vector of length 2, holding `10` and `20`. -/
def scenarioOperand : DenseVector Int :=
  { size := 2, data := fun i => if i = 0 then 10 else 20 }

/-- A matrix with 2 rows and 5 columns, `A(i,j) = i + j`, its columns padded to length 4. -/
def wideMatrix : DenseMatrix Int :=
  { rows := 2, columns := 5, spacing := 4, elem := fun i j => (i : Int) + (j : Int) }

/-- A sparse vector of length 5 with five stored elements: one group of four and a remainder
of one. -/
def wideVector : SparseVector Int :=
  { size := 5,
    elements := [{ index := 0, value := 1 }, { index := 1, value := 2 },
      { index := 2, value := 3 }, { index := 3, value := 4 }, { index := 4, value := 5 }] }

/-- The dense vectors stored for the concrete scenario: the destination holding `7` everywhere
at address `0`, and the vector holding `10` and `20` at every other address. -/
def scenarioMemory : DenseMemory Int :=
  fun a => if a = 0 then scenarioTarget else scenarioOperand

/-- The product `A*x` of the concrete scenario as an operand of an addition node, evaluated
with the default kernel. -/
def scenarioProduct : DenseOperand Int :=
  TDMatSVecMultExpr.toOperand Kernel.default 2 (fun _ => 0)
    { mat := scenarioMatrix, vec := scenarioVector }

/-- The sparse vectors stored for the concrete scenario: the vector of the scenario, at every
address. -/
def scenarioSparseMemory : SparseMemory Int :=
  fun _ => scenarioVector

/-- Element types that differ and are not resizable: a vectorizable destination and a
vectorizable matrix, where the element type of the destination is neither that of the matrix
nor that of the sparse vector. -/
def mismatchTraits : KernelTraits :=
  { t1Vectorizable := true
    t2Vectorizable := true
    sameElementT1T2 := false
    sameElementT1T3 := false
    intrinsicAddition := true
    intrinsicMultiplication := true
    resizableT1Element := false
    resizableVET := false }

/-- A matrix operand that is a computation whose composite type is its result type, with an
element type that is not the element type of the sparse vector. -/
def evaluatedOperandTraits : MatrixOperandTraits :=
  { isComputation := true
    vectorizable := false
    sameElementVETMET := false
    blasCompatibleVET := true
    compositeIsResult := true }

/-- The sum `(a + b) + a` of the stored vectors `a` at address `0` and `b` at address `1`,
whose inner node requires an evaluation. -/
def scenarioTree : AddTree :=
  .node false (.node true (.leaf 0) (.leaf 1)) (.leaf 0)

/-- The matrix `wideMatrix` with every element outside its 2 rows and 5 columns replaced by
`99`. -/
def wideMatrixOutside : DenseMatrix Int :=
  { rows := 2, columns := 5, spacing := 4,
    elem := fun i j => if i < 2 ∧ j < 5 then (i : Int) + (j : Int) else 99 }

/-! # Theorems -/

section

variable {α : Type}

/-! ## Loops -/

theorem groupEnd_eq (k : Nat) (hk : k < sizeRange) : groupEnd k = k - k % 4 := by
  unfold groupEnd sizeRange
  apply Nat.eq_of_testBit_eq
  intro i
  have h1 : (2:Nat) ^ 64 - 4 = 2 ^ 2 * (2 ^ 62 - 1) := by norm_num
  have h2 : k - k % 4 = 2 ^ 2 * (k / 4) := by omega
  rw [Nat.testBit_and, h1, h2, Nat.testBit_mul_pow_two, Nat.testBit_mul_pow_two,
    Nat.testBit_two_pow_sub_one]
  by_cases hi : 2 ≤ i
  · simp only [hi, decide_True, Bool.true_and]
    have h3 : (k / 4).testBit (i - 2) = k.testBit i := by
      have : k / 4 = k >>> 2 := by rw [Nat.shiftRight_eq_div_pow]
      rw [this, Nat.testBit_shiftRight]
      congr 1
      omega
    rw [h3]
    by_cases hi2 : i - 2 < 62
    · simp [hi2]
    · simp only [hi2, decide_False, Bool.and_false]
      symm
      apply Nat.testBit_lt_two_pow
      calc k < 2 ^ 64 := hk
        _ ≤ 2 ^ i := Nat.pow_le_pow_right (by norm_num) (by omega)
  · simp [hi]

theorem forRows_update (M : Nat) (f : Nat → α → α) (y : Nat → α) :
    forRows M (fun i y => Function.update y i (f i (y i))) y
      = fun k => if k < M then f k (y k) else y k := by
  unfold forRows
  induction M with
  | zero => funext k; simp
  | succ M ih =>
    rw [List.range_succ, List.foldl_append, ih]
    funext k
    simp only [List.foldl_cons, List.foldl_nil, Function.update_apply]
    by_cases h1 : k = M
    · subst h1; simp
    · have : k < M + 1 ↔ k < M := by omega
      simp [h1, this]

theorem forRemaining_ok (S : SparseElement α → (Nat → α) → (Nat → α))
    (element : List (SparseElement α)) (y : Nat → α) :
    forRemaining (fun e y => .ok (S e y)) element y
      = .ok (element.foldl (fun y e => S e y) y) := by
  induction element generalizing y with
  | nil => rfl
  | cons e rest ih => simp only [forRemaining, List.foldl_cons]; exact ih _

theorem forGroupsOfFour_ok (jend : Nat) (S : SparseElement α → (Nat → α) → (Nat → α))
    (G : SparseElement α → SparseElement α → SparseElement α → SparseElement α →
      (Nat → α) → (Nat → α))
    (hG : ∀ e1 e2 e3 e4 y, G e1 e2 e3 e4 y = S e4 (S e3 (S e2 (S e1 y))))
    (n : Nat) :
    ∀ (j : Nat) (element : List (SparseElement α)) (y : Nat → α),
      element.length ≤ n → jend ≤ j + element.length →
      j + element.length + 4 < sizeRange →
      ∃ element1 y1,
        forGroupsOfFour jend (fun e1 e2 e3 e4 y => .ok (G e1 e2 e3 e4 y)) j element y
          = .ok (element1, y1) ∧
        element1.foldl (fun y e => S e y) y1 = element.foldl (fun y e => S e y) y := by
  induction n with
  | zero =>
    intro j element y hn hj hlt
    have : element = [] := List.length_eq_zero.mp (by omega)
    subst this
    refine ⟨[], y, ?_, rfl⟩
    simp only [List.length_nil, Nat.add_zero] at hj hlt
    have : ¬ ((j + 4) % sizeRange ≤ jend) := by
      rw [Nat.mod_eq_of_lt (by omega)]; omega
    simp [forGroupsOfFour, this]
  | succ n ih =>
    intro j element y hn hj hlt
    match element, hn, hj, hlt with
    | e1 :: e2 :: e3 :: e4 :: rest, hn, hj, hlt =>
      simp only [List.length_cons] at hn hj hlt
      by_cases hc : (j + 4) % sizeRange ≤ jend
      · have hmod : (j + 4) % sizeRange = j + 4 := Nat.mod_eq_of_lt (by omega)
        obtain ⟨element1, y1, h1, h2⟩ := ih (j + 4) rest (G e1 e2 e3 e4 y) (by omega)
          (by omega) (by omega)
        refine ⟨element1, y1, ?_, ?_⟩
        · simp only [forGroupsOfFour, hc, if_true]
          rw [hmod]; exact h1
        · rw [h2, hG]; rfl
      · exact ⟨_, y, by simp [forGroupsOfFour, hc], rfl⟩
    | [], hn, hj, hlt =>
      simp only [List.length_nil, Nat.add_zero] at hj hlt
      have : ¬ ((j + 4) % sizeRange ≤ jend) := by
        rw [Nat.mod_eq_of_lt (by omega)]; omega
      exact ⟨[], y, by simp [forGroupsOfFour, this], rfl⟩
    | [e1], hn, hj, hlt =>
      simp only [List.length_cons, List.length_nil] at hj hlt
      have : ¬ ((j + 4) % sizeRange ≤ jend) := by
        rw [Nat.mod_eq_of_lt (by omega)]; omega
      exact ⟨[e1], y, by simp [forGroupsOfFour, this], rfl⟩
    | [e1, e2], hn, hj, hlt =>
      simp only [List.length_cons, List.length_nil] at hj hlt
      have : ¬ ((j + 4) % sizeRange ≤ jend) := by
        rw [Nat.mod_eq_of_lt (by omega)]; omega
      exact ⟨[e1, e2], y, by simp [forGroupsOfFour, this], rfl⟩
    | [e1, e2, e3], hn, hj, hlt =>
      simp only [List.length_cons, List.length_nil] at hj hlt
      have : ¬ ((j + 4) % sizeRange ≤ jend) := by
        rw [Nat.mod_eq_of_lt (by omega)]; omega
      exact ⟨[e1, e2, e3], y, by simp [forGroupsOfFour, this], rfl⟩

theorem store_lanewise (w : Nat) (h : Nat → α → α) (y : Nat → α) (i : Nat) :
    store w y i (fun l => h (i + l.val) (y (i + l.val)))
      = fun k => if i ≤ k ∧ k < i + w then h k (y k) else y k := by
  funext k
  unfold store
  by_cases hk : i ≤ k ∧ k < i + w
  · have : i + (k - i) = k := by omega
    simp only [hk, and_self, dite_true, if_true, this]
  · simp only [hk, dite_false, if_false]

theorem forBlocksLT_ok (w M : Nat) (hw : 0 < w) (hM : w ∣ M) (hlt : M + w < sizeRange)
    (h : Nat → α → α) (body : Nat → (Nat → α) → (Nat → α))
    (hbody : ∀ i y, body i y = store w y i (fun l => h (i + l.val) (y (i + l.val)))) :
    ∀ (bound i : Nat) (y : Nat → α), w ∣ i → i ≤ M → M - i < bound →
      forBlocksLT w M body bound i y
        = .ok (fun k => if i ≤ k ∧ k < M then h k (y k) else y k) := by
  intro bound
  induction bound with
  | zero => intro i y _ _ hb; omega
  | succ bound ih =>
    intro i y hi hle hb
    by_cases hc : i < M
    · have hsub : w ≤ M - i := Nat.le_of_dvd (by omega) (Nat.dvd_sub' hM hi)
      have hmod : (i + w) % sizeRange = i + w := Nat.mod_eq_of_lt (by omega)
      simp only [forBlocksLT, hc, if_true, hmod]
      rw [ih (i + w) (body i y) (Nat.dvd_add hi (dvd_refl w)) (by omega) (by omega)]
      congr 1
      funext k
      rw [hbody, store_lanewise]
      beta_reduce
      split_ifs <;> first | rfl | omega
    · have hiM : i = M := by omega
      simp only [forBlocksLT, hc, if_false]
      congr 1
      funext k
      split_ifs <;> first | rfl | omega

theorem forBlocksLE_ok (w M : Nat) (hw : 0 < w) (hM : w ∣ M) (hlt : M + w < sizeRange)
    (h : Nat → α → α) (body : Nat → (Nat → α) → (Nat → α))
    (hbody : ∀ i y, body i y = store w y i (fun l => h (i + l.val) (y (i + l.val)))) :
    ∀ (bound i : Nat) (y : Nat → α), w ∣ i → i ≤ M → M - i < bound →
      forBlocksLE w M body bound i y
        = .ok (fun k => if i ≤ k ∧ k < M then h k (y k) else y k) := by
  intro bound
  induction bound with
  | zero => intro i y _ _ hb; omega
  | succ bound ih =>
    intro i y hi hle hb
    have hmod : (i + w) % sizeRange = i + w := Nat.mod_eq_of_lt (by omega)
    by_cases hc : i < M
    · have hsub : w ≤ M - i := Nat.le_of_dvd (by omega) (Nat.dvd_sub' hM hi)
      have hc2 : i + w ≤ M := by omega
      simp only [forBlocksLE, hmod, hc2, if_true]
      rw [ih (i + w) (body i y) (Nat.dvd_add hi (dvd_refl w)) (by omega) (by omega)]
      congr 1
      funext k
      rw [hbody, store_lanewise]
      beta_reduce
      split_ifs <;> first | rfl | omega
    · have hc2 : ¬ (i + w ≤ M) := by omega
      simp only [forBlocksLE, hmod, hc2, if_false]
      congr 1
      funext k
      split_ifs <;> first | rfl | omega

/-! ## What the kernels leave in the destination -/

theorem forRows_assign (M : Nat) (c : Nat → α) (y : Nat → α) :
    forRows M (fun i y => Function.update y i (c i)) y
      = fun k => if k < M then c k else y k :=
  forRows_update M (fun i _ => c i) y

theorem forRows_add [Add α] (M : Nat) (c : Nat → α) (y : Nat → α) :
    forRows M (fun i y => Function.update y i (y i + c i)) y
      = fun k => if k < M then y k + c k else y k :=
  forRows_update M (fun i v => v + c i) y

theorem forRows_sub [Sub α] (M : Nat) (c : Nat → α) (y : Nat → α) :
    forRows M (fun i y => Function.update y i (y i - c i)) y
      = fun k => if k < M then y k - c k else y k :=
  forRows_update M (fun i v => v - c i) y

theorem foldl_pointwise (M : Nat) (h : SparseElement α → Nat → α → α)
    (element : List (SparseElement α)) (y : Nat → α) :
    element.foldl (fun y e => fun k => if k < M then h e k (y k) else y k) y
      = fun k => if k < M then element.foldl (fun acc e => h e k acc) (y k) else y k := by
  induction element generalizing y with
  | nil => funext k; simp
  | cons e rest ih =>
    rw [List.foldl_cons, ih]
    funext k
    by_cases hk : k < M <;> simp [hk]

theorem rowSum_eq_foldl [Zero α] [Add α] [Mul α] (A : DenseMatrix α) (x : SparseVector α)
    (i : Nat) :
    rowSum A x i = x.elements.foldl (fun acc e => acc + A.elem i e.index * e.value) 0 := by
  unfold rowSum
  rw [List.foldl_map]

theorem foldl_add_init [AddMonoid α] (p : SparseElement α → α)
    (element : List (SparseElement α)) (a : α) :
    element.foldl (fun acc e => acc + p e) a = a + element.foldl (fun acc e => acc + p e) 0 := by
  induction element generalizing a with
  | nil => simp
  | cons e rest ih =>
    rw [List.foldl_cons, List.foldl_cons, ih, ih (0 + p e), zero_add, add_assoc]

theorem foldl_sub_init [AddCommGroup α] (p : SparseElement α → α)
    (element : List (SparseElement α)) (a : α) :
    element.foldl (fun acc e => acc - p e) a = a - element.foldl (fun acc e => acc + p e) 0 := by
  induction element generalizing a with
  | nil => simp
  | cons e rest ih =>
    rw [List.foldl_cons, List.foldl_cons, ih, foldl_add_init p rest (0 + p e), zero_add,
      sub_sub]

/-- What the default assignment kernel leaves in `y`. -/
theorem selectAssignKernelDefault_eq [Add α] [Mul α] (y : DenseVector α) (A : DenseMatrix α)
    (x : SparseVector α) (e1 : SparseElement α) (rest : List (SparseElement α))
    (hx : x.elements = e1 :: rest) :
    TDMatSVecMultExpr.selectAssignKernelDefault y A x = .ok { y with
      data := fun k =>
        if k < A.rows then
          rest.foldl (fun acc e => acc + A.elem k e.index * e.value)
            (A.elem k e1.index * e1.value)
        else y.data k }  := by
  have hnz : ¬ (x.nonZeros = 0) := by simp [SparseVector.nonZeros, hx]
  unfold TDMatSVecMultExpr.selectAssignKernelDefault
  simp only [hnz, if_false, hx, forRemaining_ok, forRows_assign, forRows_add]
  rw [foldl_pointwise A.rows (fun e k v => v + A.elem k e.index * e.value)]
  congr 2
  funext k
  by_cases hk : k < A.rows <;> simp [hk]

theorem selectAddAssignKernelDefault_eq [Add α] [Mul α] (y : DenseVector α) (A : DenseMatrix α)
    (x : SparseVector α) (hx : x.elements ≠ []) :
    TDMatSVecMultExpr.selectAddAssignKernelDefault y A x = .ok { y with
      data := fun k =>
        if k < A.rows then
          x.elements.foldl (fun acc e => acc + A.elem k e.index * e.value) (y.data k)
        else y.data k } := by
  have hnz : ¬ (x.nonZeros = 0) := by simpa [SparseVector.nonZeros] using hx
  unfold TDMatSVecMultExpr.selectAddAssignKernelDefault
  simp only [hnz, if_false, forRemaining_ok, forRows_add]
  rw [foldl_pointwise A.rows (fun e k v => v + A.elem k e.index * e.value)]

theorem selectSubAssignKernelDefault_eq [Sub α] [Mul α] (y : DenseVector α) (A : DenseMatrix α)
    (x : SparseVector α) (hx : x.elements ≠ []) :
    TDMatSVecMultExpr.selectSubAssignKernelDefault y A x = .ok { y with
      data := fun k =>
        if k < A.rows then
          x.elements.foldl (fun acc e => acc - A.elem k e.index * e.value) (y.data k)
        else y.data k } := by
  have hnz : ¬ (x.nonZeros = 0) := by simpa [SparseVector.nonZeros] using hx
  unfold TDMatSVecMultExpr.selectSubAssignKernelDefault
  simp only [hnz, if_false, forRemaining_ok, forRows_sub]
  rw [foldl_pointwise A.rows (fun e k v => v - A.elem k e.index * e.value)]

theorem length_ge_four (l : List (SparseElement α)) (h : 4 ≤ l.length) :
    ∃ e1 e2 e3 e4 rest, l = e1 :: e2 :: e3 :: e4 :: rest := by
  match l, h with
  | e1 :: e2 :: e3 :: e4 :: rest, _ => exact ⟨e1, e2, e3, e4, rest, rfl⟩
  | [], h => simp at h
  | [_], h => simp at h
  | [_, _], h => simp at h
  | [_, _, _], h => simp at h

/-- What the optimized assignment kernel leaves in `y`. -/
theorem selectAssignKernelOptimized_eq [AddSemigroup α] [Mul α] (y : DenseVector α)
    (A : DenseMatrix α) (x : SparseVector α) (e1 : SparseElement α)
    (rest : List (SparseElement α)) (hx : x.elements = e1 :: rest)
    (hlt : x.nonZeros + 4 < sizeRange) :
    TDMatSVecMultExpr.selectAssignKernelOptimized y A x = .ok { y with
      data := fun k =>
        if k < A.rows then
          rest.foldl (fun acc e => acc + A.elem k e.index * e.value)
            (A.elem k e1.index * e1.value)
        else y.data k } := by
  have hlen : x.nonZeros = rest.length + 1 := by simp [SparseVector.nonZeros, hx]
  have hnz : ¬ (x.nonZeros = 0) := by omega
  have hend := groupEnd_eq x.nonZeros (by omega)
  have hG : ∀ (e1 e2 e3 e4 : SparseElement α) (y : Nat → α),
      (fun k => if k < A.rows then y k + (A.elem k e1.index * e1.value
        + A.elem k e2.index * e2.value + A.elem k e3.index * e3.value
        + A.elem k e4.index * e4.value) else y k)
      = (fun e y k => if k < A.rows then y k + A.elem k e.index * e.value else y k) e4
        ((fun e y k => if k < A.rows then y k + A.elem k e.index * e.value else y k) e3
        ((fun e y k => if k < A.rows then y k + A.elem k e.index * e.value else y k) e2
        ((fun e y k => if k < A.rows then y k + A.elem k e.index * e.value else y k) e1 y))) := by
    intro e1 e2 e3 e4 y
    funext k
    by_cases hk : k < A.rows <;> simp [hk, add_assoc]
  unfold TDMatSVecMultExpr.selectAssignKernelOptimized
  simp only [hnz, if_false, hend, ne_eq, not_true_eq_false, forRows_assign, forRows_add]
  by_cases h4 : 4 ≤ x.nonZeros
  · have hgt : x.nonZeros - x.nonZeros % 4 > 3 := by omega
    obtain ⟨e1', e2, e3, e4, rest', hx'⟩ := length_ge_four x.elements h4
    obtain ⟨he, hr⟩ := List.cons.inj (hx.symm.trans hx')
    subst he
    have hlen' : x.nonZeros = rest'.length + 4 := by rw [hlen, hr]; simp
    obtain ⟨element1, y1, h1, h2⟩ := forGroupsOfFour_ok (x.nonZeros - x.nonZeros % 4)
      (fun e y k => if k < A.rows then y k + A.elem k e.index * e.value else y k)
      _ hG rest'.length 4 rest'
      (fun k => if k < A.rows then A.elem k e1.index * e1.value
        + A.elem k e2.index * e2.value + A.elem k e3.index * e3.value
        + A.elem k e4.index * e4.value else y.data k)
      (le_refl _) (by omega) (by omega)
    simp only [hgt, if_true, hx', h1, forRemaining_ok, h2]
    rw [foldl_pointwise A.rows (fun e k v => v + A.elem k e.index * e.value), hr]
    congr 2
    funext k
    by_cases hk : k < A.rows <;> simp [hk]
  · have hgt : ¬ (x.nonZeros - x.nonZeros % 4 > 3) := by omega
    obtain ⟨element1, y1, h1, h2⟩ := forGroupsOfFour_ok (x.nonZeros - x.nonZeros % 4)
      (fun e y k => if k < A.rows then y k + A.elem k e.index * e.value else y k)
      _ hG rest.length 1 rest
      (fun k => if k < A.rows then A.elem k e1.index * e1.value else y.data k)
      (le_refl _) (by omega) (by omega)
    simp only [hgt, if_false, hx, h1, forRemaining_ok, h2]
    rw [foldl_pointwise A.rows (fun e k v => v + A.elem k e.index * e.value)]
    congr 2
    funext k
    by_cases hk : k < A.rows <;> simp [hk]

theorem forBlocksLT_zero (w M : Nat) (hw : 0 < w) (hM : w ∣ M) (hlt : M + w < sizeRange)
    (h : Nat → α → α) (body : Nat → (Nat → α) → (Nat → α))
    (hbody : ∀ i y, body i y = store w y i (fun l => h (i + l.val) (y (i + l.val))))
    (y : Nat → α) :
    forBlocksLT w M body (M + 1) 0 y = .ok (fun k => if k < M then h k (y k) else y k) := by
  rw [forBlocksLT_ok w M hw hM hlt h body hbody (M + 1) 0 y (dvd_zero w) (Nat.zero_le M)
    (by omega)]
  simp

theorem forBlocksLE_zero (w M : Nat) (hw : 0 < w) (hM : w ∣ M) (hlt : M + w < sizeRange)
    (h : Nat → α → α) (body : Nat → (Nat → α) → (Nat → α))
    (hbody : ∀ i y, body i y = store w y i (fun l => h (i + l.val) (y (i + l.val))))
    (y : Nat → α) :
    forBlocksLE w M body (M + 1) 0 y = .ok (fun k => if k < M then h k (y k) else y k) := by
  rw [forBlocksLE_ok w M hw hM hlt h body hbody (M + 1) 0 y (dvd_zero w) (Nat.zero_le M)
    (by omega)]
  simp

/-- What the vectorized assignment kernel leaves in `y`. -/
theorem selectAssignKernelVectorized_eq [AddSemigroup α] [Mul α] (w : Nat) (y : DenseVector α)
    (A : DenseMatrix α) (x : SparseVector α) (e1 : SparseElement α)
    (rest : List (SparseElement α)) (hx : x.elements = e1 :: rest)
    (hlt : x.nonZeros + 4 < sizeRange) (hw : 0 < w) (hM : w ∣ A.spacing)
    (hMlt : A.spacing + w < sizeRange) :
    TDMatSVecMultExpr.selectAssignKernelVectorized w y A x = .ok { y with
      data := fun k =>
        if k < A.spacing then
          rest.foldl (fun acc e => acc + A.elem k e.index * e.value)
            (A.elem k e1.index * e1.value)
        else y.data k } := by
  have hlen : x.nonZeros = rest.length + 1 := by simp [SparseVector.nonZeros, hx]
  have hnz : ¬ (x.nonZeros = 0) := by omega
  have hend := groupEnd_eq x.nonZeros (by omega)
  have hB4 : ∀ (e1 e2 e3 e4 : SparseElement α) (y : Nat → α),
      forBlocksLE w A.spacing (fun i y => store w y i
        (A.get w i e1.index * set w e1.value + A.get w i e2.index * set w e2.value
          + A.get w i e3.index * set w e3.value + A.get w i e4.index * set w e4.value))
        (A.spacing + 1) 0 y
      = .ok (fun k => if k < A.spacing then A.elem k e1.index * e1.value
          + A.elem k e2.index * e2.value + A.elem k e3.index * e3.value
          + A.elem k e4.index * e4.value else y k) := fun e1 e2 e3 e4 y =>
    forBlocksLE_zero w A.spacing hw hM hMlt (fun k _ => A.elem k e1.index * e1.value
          + A.elem k e2.index * e2.value + A.elem k e3.index * e3.value
          + A.elem k e4.index * e4.value) _ (fun _ _ => rfl) y
  have hB1 : ∀ (e1 : SparseElement α) (y : Nat → α),
      forBlocksLE w A.spacing (fun i y => store w y i (A.get w i e1.index * set w e1.value))
        (A.spacing + 1) 0 y
      = .ok (fun k => if k < A.spacing then A.elem k e1.index * e1.value else y k) :=
    fun e1 y => forBlocksLE_zero w A.spacing hw hM hMlt
      (fun k _ => A.elem k e1.index * e1.value) _ (fun _ _ => rfl) y
  have hA4 : ∀ (e1 e2 e3 e4 : SparseElement α) (y : Nat → α),
      forBlocksLT w A.spacing (fun i y => store w y i
        (load w y i + A.get w i e1.index * set w e1.value + A.get w i e2.index * set w e2.value
          + A.get w i e3.index * set w e3.value + A.get w i e4.index * set w e4.value))
        (A.spacing + 1) 0 y
      = .ok (fun k => if k < A.spacing then y k + A.elem k e1.index * e1.value
          + A.elem k e2.index * e2.value + A.elem k e3.index * e3.value
          + A.elem k e4.index * e4.value else y k) := fun e1 e2 e3 e4 y =>
    forBlocksLT_zero w A.spacing hw hM hMlt (fun k v => v + A.elem k e1.index * e1.value
          + A.elem k e2.index * e2.value + A.elem k e3.index * e3.value
          + A.elem k e4.index * e4.value) _ (fun _ _ => rfl) y
  have hA1 : ∀ (e1 : SparseElement α) (y : Nat → α),
      forBlocksLT w A.spacing (fun i y => store w y i
        (load w y i + A.get w i e1.index * set w e1.value)) (A.spacing + 1) 0 y
      = .ok (fun k => if k < A.spacing then y k + A.elem k e1.index * e1.value else y k) :=
    fun e1 y => forBlocksLT_zero w A.spacing hw hM hMlt
      (fun k v => v + A.elem k e1.index * e1.value) _ (fun _ _ => rfl) y
  have hG : ∀ (e1 e2 e3 e4 : SparseElement α) (y : Nat → α),
      (fun k => if k < A.spacing then y k + A.elem k e1.index * e1.value
        + A.elem k e2.index * e2.value + A.elem k e3.index * e3.value
        + A.elem k e4.index * e4.value else y k)
      = (fun e y k => if k < A.spacing then y k + A.elem k e.index * e.value else y k) e4
        ((fun e y k => if k < A.spacing then y k + A.elem k e.index * e.value else y k) e3
        ((fun e y k => if k < A.spacing then y k + A.elem k e.index * e.value else y k) e2
        ((fun e y k => if k < A.spacing then y k + A.elem k e.index * e.value else y k) e1
          y))) := by
    intro e1 e2 e3 e4 y
    funext k
    by_cases hk : k < A.spacing <;> simp [hk]
  unfold TDMatSVecMultExpr.selectAssignKernelVectorized
  simp only [hnz, if_false, hend, ne_eq, not_true_eq_false, hB4, hB1, hA4, hA1]
  by_cases h4 : 4 ≤ x.nonZeros
  · have hgt : x.nonZeros - x.nonZeros % 4 > 3 := by omega
    obtain ⟨e1', e2, e3, e4, rest', hx'⟩ := length_ge_four x.elements h4
    obtain ⟨he, hr⟩ := List.cons.inj (hx.symm.trans hx')
    subst he
    have hlen' : x.nonZeros = rest'.length + 4 := by rw [hlen, hr]; simp
    obtain ⟨element1, y1, h1, h2⟩ := forGroupsOfFour_ok (x.nonZeros - x.nonZeros % 4)
      (fun e y k => if k < A.spacing then y k + A.elem k e.index * e.value else y k)
      _ hG rest'.length 4 rest'
      (fun k => if k < A.spacing then A.elem k e1.index * e1.value
        + A.elem k e2.index * e2.value + A.elem k e3.index * e3.value
        + A.elem k e4.index * e4.value else y.data k)
      (le_refl _) (by omega) (by omega)
    simp only [hgt, if_true, hx', h1, forRemaining_ok, h2]
    rw [foldl_pointwise A.spacing (fun e k v => v + A.elem k e.index * e.value), hr]
    congr 2
    funext k
    by_cases hk : k < A.spacing <;> simp [hk]
  · have hgt : ¬ (x.nonZeros - x.nonZeros % 4 > 3) := by omega
    obtain ⟨element1, y1, h1, h2⟩ := forGroupsOfFour_ok (x.nonZeros - x.nonZeros % 4)
      (fun e y k => if k < A.spacing then y k + A.elem k e.index * e.value else y k)
      _ hG rest.length 1 rest
      (fun k => if k < A.spacing then A.elem k e1.index * e1.value else y.data k)
      (le_refl _) (by omega) (by omega)
    simp only [hgt, if_false, hx, h1, forRemaining_ok, h2]
    rw [foldl_pointwise A.spacing (fun e k v => v + A.elem k e.index * e.value)]
    congr 2
    funext k
    by_cases hk : k < A.spacing <;> simp [hk]

/-- What the optimized add-assignment kernel leaves in `y`. -/
theorem selectAddAssignKernelOptimized_eq [AddSemigroup α] [Mul α] (y : DenseVector α)
    (A : DenseMatrix α) (x : SparseVector α) (hx : x.elements ≠ [])
    (hlt : x.nonZeros + 4 < sizeRange) :
    TDMatSVecMultExpr.selectAddAssignKernelOptimized y A x = .ok { y with
      data := fun k =>
        if k < A.rows then
          x.elements.foldl (fun acc e => acc + A.elem k e.index * e.value) (y.data k)
        else y.data k } := by
  have hnz : ¬ (x.nonZeros = 0) := by simpa [SparseVector.nonZeros] using hx
  have hend := groupEnd_eq x.nonZeros (by omega)
  have hG : ∀ (e1 e2 e3 e4 : SparseElement α) (y : Nat → α),
      (fun k => if k < A.rows then y k + (A.elem k e1.index * e1.value
        + A.elem k e2.index * e2.value + A.elem k e3.index * e3.value
        + A.elem k e4.index * e4.value) else y k)
      = (fun e y k => if k < A.rows then y k + A.elem k e.index * e.value else y k) e4
        ((fun e y k => if k < A.rows then y k + A.elem k e.index * e.value else y k) e3
        ((fun e y k => if k < A.rows then y k + A.elem k e.index * e.value else y k) e2
        ((fun e y k => if k < A.rows then y k + A.elem k e.index * e.value else y k) e1
          y))) := by
    intro e1 e2 e3 e4 y
    funext k
    by_cases hk : k < A.rows
    · simp only [hk, if_true]
      simp only [add_assoc]
    · simp only [hk, if_false]
  obtain ⟨element1, y1, h1, h2⟩ := forGroupsOfFour_ok (x.nonZeros - x.nonZeros % 4)
    (fun e y k => if k < A.rows then y k + A.elem k e.index * e.value else y k)
    _ hG x.elements.length 0 x.elements y.data (le_refl _)
    (by simp only [SparseVector.nonZeros] at *; omega)
    (by simp only [SparseVector.nonZeros] at *; omega)
  unfold TDMatSVecMultExpr.selectAddAssignKernelOptimized
  simp only [hnz, if_false, hend, ne_eq, not_true_eq_false, forRows_add, forRows_sub, h1,
    forRemaining_ok, h2]
  rw [foldl_pointwise A.rows (fun e k v => v + A.elem k e.index * e.value)]

/-- What the optimized sub-assignment kernel leaves in `y`. -/
theorem selectSubAssignKernelOptimized_eq [AddCommGroup α] [Mul α] (y : DenseVector α)
    (A : DenseMatrix α) (x : SparseVector α) (hx : x.elements ≠ [])
    (hlt : x.nonZeros + 4 < sizeRange) :
    TDMatSVecMultExpr.selectSubAssignKernelOptimized y A x = .ok { y with
      data := fun k =>
        if k < A.rows then
          x.elements.foldl (fun acc e => acc - A.elem k e.index * e.value) (y.data k)
        else y.data k } := by
  have hnz : ¬ (x.nonZeros = 0) := by simpa [SparseVector.nonZeros] using hx
  have hend := groupEnd_eq x.nonZeros (by omega)
  have hG : ∀ (e1 e2 e3 e4 : SparseElement α) (y : Nat → α),
      (fun k => if k < A.rows then y k - (A.elem k e1.index * e1.value
        + A.elem k e2.index * e2.value + A.elem k e3.index * e3.value
        + A.elem k e4.index * e4.value) else y k)
      = (fun e y k => if k < A.rows then y k - A.elem k e.index * e.value else y k) e4
        ((fun e y k => if k < A.rows then y k - A.elem k e.index * e.value else y k) e3
        ((fun e y k => if k < A.rows then y k - A.elem k e.index * e.value else y k) e2
        ((fun e y k => if k < A.rows then y k - A.elem k e.index * e.value else y k) e1
          y))) := by
    intro e1 e2 e3 e4 y
    funext k
    by_cases hk : k < A.rows
    · simp only [hk, if_true]
      abel
    · simp only [hk, if_false]
  obtain ⟨element1, y1, h1, h2⟩ := forGroupsOfFour_ok (x.nonZeros - x.nonZeros % 4)
    (fun e y k => if k < A.rows then y k - A.elem k e.index * e.value else y k)
    _ hG x.elements.length 0 x.elements y.data (le_refl _)
    (by simp only [SparseVector.nonZeros] at *; omega)
    (by simp only [SparseVector.nonZeros] at *; omega)
  unfold TDMatSVecMultExpr.selectSubAssignKernelOptimized
  simp only [hnz, if_false, hend, ne_eq, not_true_eq_false, forRows_add, forRows_sub, h1,
    forRemaining_ok, h2]
  rw [foldl_pointwise A.rows (fun e k v => v - A.elem k e.index * e.value)]

/-- What the vectorized add-assignment kernel leaves in `y`. -/
theorem selectAddAssignKernelVectorized_eq [Add α] [Mul α] (w : Nat) (y : DenseVector α)
    (A : DenseMatrix α) (x : SparseVector α) (hx : x.elements ≠ [])
    (hlt : x.nonZeros + 4 < sizeRange) (hw : 0 < w) (hM : w ∣ A.spacing)
    (hMlt : A.spacing + w < sizeRange) :
    TDMatSVecMultExpr.selectAddAssignKernelVectorized w y A x = .ok { y with
      data := fun k =>
        if k < A.spacing then
          x.elements.foldl (fun acc e => acc + A.elem k e.index * e.value) (y.data k)
        else y.data k } := by
  have hnz : ¬ (x.nonZeros = 0) := by simpa [SparseVector.nonZeros] using hx
  have hend := groupEnd_eq x.nonZeros (by omega)
  have hA4 : ∀ (e1 e2 e3 e4 : SparseElement α) (y : Nat → α),
      forBlocksLT w A.spacing (fun i y => store w y i
        (load w y i + A.get w i e1.index * set w e1.value
          + A.get w i e2.index * set w e2.value + A.get w i e3.index * set w e3.value
          + A.get w i e4.index * set w e4.value))
        (A.spacing + 1) 0 y
      = .ok (fun k => if k < A.spacing then y k + A.elem k e1.index * e1.value
          + A.elem k e2.index * e2.value + A.elem k e3.index * e3.value
          + A.elem k e4.index * e4.value else y k) := fun e1 e2 e3 e4 y =>
    forBlocksLT_zero w A.spacing hw hM hMlt (fun k v => v + A.elem k e1.index * e1.value
          + A.elem k e2.index * e2.value + A.elem k e3.index * e3.value
          + A.elem k e4.index * e4.value) _ (fun _ _ => rfl) y
  have hA1 : ∀ (e1 : SparseElement α) (y : Nat → α),
      forBlocksLT w A.spacing (fun i y => store w y i
        (load w y i + A.get w i e1.index * set w e1.value)) (A.spacing + 1) 0 y
      = .ok (fun k => if k < A.spacing then y k + A.elem k e1.index * e1.value else y k) :=
    fun e1 y => forBlocksLT_zero w A.spacing hw hM hMlt
      (fun k v => v + A.elem k e1.index * e1.value) _ (fun _ _ => rfl) y
  have hG : ∀ (e1 e2 e3 e4 : SparseElement α) (y : Nat → α),
      (fun k => if k < A.spacing then y k + A.elem k e1.index * e1.value
        + A.elem k e2.index * e2.value + A.elem k e3.index * e3.value
        + A.elem k e4.index * e4.value else y k)
      = (fun e y k => if k < A.spacing then y k + A.elem k e.index * e.value else y k) e4
        ((fun e y k => if k < A.spacing then y k + A.elem k e.index * e.value else y k) e3
        ((fun e y k => if k < A.spacing then y k + A.elem k e.index * e.value else y k) e2
        ((fun e y k => if k < A.spacing then y k + A.elem k e.index * e.value else y k) e1
          y))) := by
    intro e1 e2 e3 e4 y
    funext k
    by_cases hk : k < A.spacing <;> simp [hk]
  obtain ⟨element1, y1, h1, h2⟩ := forGroupsOfFour_ok (x.nonZeros - x.nonZeros % 4)
    (fun e y k => if k < A.spacing then y k + A.elem k e.index * e.value else y k)
    _ hG x.elements.length 0 x.elements y.data (le_refl _)
    (by simp only [SparseVector.nonZeros] at *; omega)
    (by simp only [SparseVector.nonZeros] at *; omega)
  unfold TDMatSVecMultExpr.selectAddAssignKernelVectorized
  simp only [hnz, if_false, hend, ne_eq, not_true_eq_false, hA4, hA1, h1, forRemaining_ok, h2]
  rw [foldl_pointwise A.spacing (fun e k v => v + A.elem k e.index * e.value)]

/-- What the vectorized sub-assignment kernel leaves in `y`. -/
theorem selectSubAssignKernelVectorized_eq [Sub α] [Mul α] (w : Nat) (y : DenseVector α)
    (A : DenseMatrix α) (x : SparseVector α) (hx : x.elements ≠ [])
    (hlt : x.nonZeros + 4 < sizeRange) (hw : 0 < w) (hM : w ∣ A.spacing)
    (hMlt : A.spacing + w < sizeRange) :
    TDMatSVecMultExpr.selectSubAssignKernelVectorized w y A x = .ok { y with
      data := fun k =>
        if k < A.spacing then
          x.elements.foldl (fun acc e => acc - A.elem k e.index * e.value) (y.data k)
        else y.data k } := by
  have hnz : ¬ (x.nonZeros = 0) := by simpa [SparseVector.nonZeros] using hx
  have hend := groupEnd_eq x.nonZeros (by omega)
  have hA4 : ∀ (e1 e2 e3 e4 : SparseElement α) (y : Nat → α),
      forBlocksLT w A.spacing (fun i y => store w y i
        (load w y i - A.get w i e1.index * set w e1.value
          - A.get w i e2.index * set w e2.value - A.get w i e3.index * set w e3.value
          - A.get w i e4.index * set w e4.value))
        (A.spacing + 1) 0 y
      = .ok (fun k => if k < A.spacing then y k - A.elem k e1.index * e1.value
          - A.elem k e2.index * e2.value - A.elem k e3.index * e3.value
          - A.elem k e4.index * e4.value else y k) := fun e1 e2 e3 e4 y =>
    forBlocksLT_zero w A.spacing hw hM hMlt (fun k v => v - A.elem k e1.index * e1.value
          - A.elem k e2.index * e2.value - A.elem k e3.index * e3.value
          - A.elem k e4.index * e4.value) _ (fun _ _ => rfl) y
  have hA1 : ∀ (e1 : SparseElement α) (y : Nat → α),
      forBlocksLT w A.spacing (fun i y => store w y i
        (load w y i - A.get w i e1.index * set w e1.value)) (A.spacing + 1) 0 y
      = .ok (fun k => if k < A.spacing then y k - A.elem k e1.index * e1.value else y k) :=
    fun e1 y => forBlocksLT_zero w A.spacing hw hM hMlt
      (fun k v => v - A.elem k e1.index * e1.value) _ (fun _ _ => rfl) y
  have hG : ∀ (e1 e2 e3 e4 : SparseElement α) (y : Nat → α),
      (fun k => if k < A.spacing then y k - A.elem k e1.index * e1.value
        - A.elem k e2.index * e2.value - A.elem k e3.index * e3.value
        - A.elem k e4.index * e4.value else y k)
      = (fun e y k => if k < A.spacing then y k - A.elem k e.index * e.value else y k) e4
        ((fun e y k => if k < A.spacing then y k - A.elem k e.index * e.value else y k) e3
        ((fun e y k => if k < A.spacing then y k - A.elem k e.index * e.value else y k) e2
        ((fun e y k => if k < A.spacing then y k - A.elem k e.index * e.value else y k) e1
          y))) := by
    intro e1 e2 e3 e4 y
    funext k
    by_cases hk : k < A.spacing <;> simp [hk]
  obtain ⟨element1, y1, h1, h2⟩ := forGroupsOfFour_ok (x.nonZeros - x.nonZeros % 4)
    (fun e y k => if k < A.spacing then y k - A.elem k e.index * e.value else y k)
    _ hG x.elements.length 0 x.elements y.data (le_refl _)
    (by simp only [SparseVector.nonZeros] at *; omega)
    (by simp only [SparseVector.nonZeros] at *; omega)
  unfold TDMatSVecMultExpr.selectSubAssignKernelVectorized
  simp only [hnz, if_false, hend, ne_eq, not_true_eq_false, hA4, hA1, h1, forRemaining_ok, h2]
  rw [foldl_pointwise A.spacing (fun e k v => v - A.elem k e.index * e.value)]

/-! ## The expression nodes and their operators -/

/-- Claim C1. For a dense matrix `A` with `m` rows and `n` columns and a sparse vector `x` of
length `n`, `operator*` returns the node `A*x`; its `size()` is `m`, and for every `i < m` its
`operator[]` returns the sum, in iteration order, over the stored elements `(j, v)` of `x` of
`A(i,j) * v`, which is the zero element when `x` has no stored elements. -/
theorem multExpr_size_and_subscript [Semiring α] (A : DenseMatrix α) (x : SparseVector α)
    (m n : Nat) (hm : A.rows = m) (hn : A.columns = n) (hx : x.size = n) :
    ∃ node, operatorMul A x = .ok node ∧ node.size = m ∧
      (∀ i, i < m → node.subscript i = .ok (rowSum A x i)) ∧
      (x.elements = [] → ∀ i, i < m → node.subscript i = .ok 0) := by
  refine ⟨{ mat := A, vec := x }, ?_, hm, ?_, ?_⟩
  · simp [operatorMul, TDMatSVecMultExpr.ctor, hn, hx]
  · intro i hi
    have hi' : i < A.rows := by omega
    rw [rowSum_eq_foldl]
    unfold TDMatSVecMultExpr.subscript
    simp only [hi', if_true]
    cases hel : x.elements with
    | nil => simp [resetElement]
    | cons e rest => simp only [List.foldl_cons, zero_add]
  · intro hnil i hi
    have hi' : i < A.rows := by omega
    unfold TDMatSVecMultExpr.subscript
    simp only [hi', if_true, hnil, resetElement]

theorem multExpr_size_and_subscript_witness :
    scenarioMatrix.rows = 2 ∧ scenarioMatrix.columns = 2 ∧ scenarioVector.size = 2 ∧
    ∃ node, operatorMul scenarioMatrix scenarioVector = .ok node ∧ node.size = 2 ∧
      (∀ i, i < 2 → node.subscript i = .ok (rowSum scenarioMatrix scenarioVector i)) ∧
      (scenarioVector.elements = [] → ∀ i, i < 2 → node.subscript i = .ok 0) :=
  ⟨rfl, rfl, rfl, multExpr_size_and_subscript scenarioMatrix scenarioVector 2 2 rfl rfl rfl⟩

/-- Claim C2. For dense vectors `a` and `b` of equal length `n`, `operator+` returns the node
`a+b`; its `size()` is `n` and for every `i < n` its `operator[]` returns `a[i] + b[i]`. -/
theorem addExpr_size_and_subscript [Add α] (a b : DenseVector α) (n : Nat) (ha : a.size = n)
    (hb : b.size = n) :
    ∃ node, operatorAdd a b = .ok node ∧ node.size = n ∧
      ∀ i, i < n → node.subscript i = .ok (a.data i + b.data i) := by
  refine ⟨{ lhs := a, rhs := b }, ?_, ha, ?_⟩
  · simp [operatorAdd, DVecDVecAddExpr.ctor, ha, hb]
  · intro i hi
    have hi' : i < a.size := by omega
    simp [DVecDVecAddExpr.subscript, hi']

theorem addExpr_size_and_subscript_witness :
    scenarioTarget.size = 2 ∧ scenarioOperand.size = 2 ∧
    ∃ node, operatorAdd scenarioTarget scenarioOperand = .ok node ∧ node.size = 2 ∧
      ∀ i, i < 2 → node.subscript i = .ok (scenarioTarget.data i + scenarioOperand.data i) :=
  ⟨rfl, rfl, addExpr_size_and_subscript scenarioTarget scenarioOperand 2 rfl rfl⟩

/-- Claim C3. `operator+` on two dense vectors fails with the size-mismatch error exactly when
their lengths differ, in which case no node is returned; when the lengths are equal it returns
the node whose operands are the two given vectors, and nothing is computed. The operator is a
function of its two operands that returns either the error or the node: it has no container
to write to. -/
theorem operatorAdd_error_iff_sizes_differ (a b : DenseVector α) :
    (operatorAdd a b = .error (.invalidArgument "Vector sizes do not match")
        ↔ a.size ≠ b.size) ∧
    ((∃ f, operatorAdd a b = .error f) ↔ a.size ≠ b.size) ∧
    operatorAdd a b =
      if a.size = b.size then .ok { lhs := a, rhs := b }
      else .error (.invalidArgument "Vector sizes do not match") := by
  by_cases h : a.size = b.size <;> simp [operatorAdd, DVecDVecAddExpr.ctor, h]

/-- Claim C4. `operator*` on a dense matrix and a sparse vector fails with the size-mismatch
error exactly when `mat.columns() != vec.size()`; otherwise it returns the node holding these
two operands, and every node it returns satisfies the shape invariant asserted by the node
constructor, `mat_.columns() == vec_.size()`. -/
theorem operatorMul_error_iff_sizes_differ (A : DenseMatrix α) (x : SparseVector α) :
    (operatorMul A x = .error (.invalidArgument "Matrix and vector sizes do not match")
        ↔ A.columns ≠ x.size) ∧
    ((∃ f, operatorMul A x = .error f) ↔ A.columns ≠ x.size) ∧
    (operatorMul A x =
      if A.columns = x.size then .ok { mat := A, vec := x }
      else .error (.invalidArgument "Matrix and vector sizes do not match")) ∧
    (∀ node, operatorMul A x = .ok node →
      node.mat.columns = node.vec.size ∧
        TDMatSVecMultExpr.ctor node.mat node.vec = .ok node) := by
  by_cases h : A.columns = x.size
  · have hok : operatorMul A x = .ok { mat := A, vec := x } := by
      simp [operatorMul, TDMatSVecMultExpr.ctor, h]
    refine ⟨by simp [hok, h], by simp [hok, h], by simp [hok, h], ?_⟩
    intro node hnode
    rw [hok] at hnode
    injection hnode with hnode
    subst hnode
    exact ⟨h, by simp [TDMatSVecMultExpr.ctor, h]⟩
  · simp [operatorMul, TDMatSVecMultExpr.ctor, h]

/-! ## Assignment of the multiplication node to a dense vector -/

theorem foldl_from_first [AddMonoid α] [Mul α] (A : DenseMatrix α) (x : SparseVector α)
    (e1 : SparseElement α) (rest : List (SparseElement α)) (hx : x.elements = e1 :: rest)
    (i : Nat) :
    rest.foldl (fun acc e => acc + A.elem i e.index * e.value) (A.elem i e1.index * e1.value)
      = rowSum A x i := by
  rw [rowSum_eq_foldl, hx, List.foldl_cons, zero_add]

/-- Claim C5. Assign-to-dense of `A*x` with the default kernel: for every matrix `A`, every
sparse `x` with at least one stored element and every destination `y` of length `A.rows()`,
the call returns, the destination keeps its size, and `y[i]` is the sum over the stored
elements `(j, v)` of `x` of `A(i,j) * v` for every `i < A.rows()`, whatever `y` held before. -/
theorem assign_default_rowSum [Semiring α] (w : Nat) (y : DenseVector α) (A : DenseMatrix α)
    (x : SparseVector α) (hx : x.elements ≠ []) (hy : y.size = A.rows) :
    ∃ y1, TDMatSVecMultExpr.assign Kernel.default w y { mat := A, vec := x } = .ok y1 ∧
      y1.size = y.size ∧ ∀ i, i < A.rows → y1.data i = rowSum A x i := by
  obtain ⟨e1, rest, hel⟩ := List.exists_cons_of_ne_nil hx
  have hnz : ¬ (x.nonZeros = 0) := by simp [SparseVector.nonZeros, hel]
  have hcall : TDMatSVecMultExpr.assign Kernel.default w y { mat := A, vec := x }
      = TDMatSVecMultExpr.selectAssignKernelDefault y A x := by
    unfold TDMatSVecMultExpr.assign
    simp only [TDMatSVecMultExpr.size, hy, ne_eq, not_true_eq_false, if_false, hnz,
      TDMatSVecMultExpr.selectAssignKernel]
  refine ⟨_, hcall.trans (selectAssignKernelDefault_eq y A x e1 rest hel), rfl, ?_⟩
  intro i hi
  simp only [hi, if_true]
  exact foldl_from_first A x e1 rest hel i

theorem assign_default_rowSum_witness :
    wideVector.elements ≠ [] ∧ scenarioTarget.size = wideMatrix.rows ∧
    ∃ y1, TDMatSVecMultExpr.assign Kernel.default 2 scenarioTarget
        { mat := wideMatrix, vec := wideVector } = .ok y1 ∧
      y1.size = scenarioTarget.size ∧
      ∀ i, i < wideMatrix.rows → y1.data i = rowSum wideMatrix wideVector i :=
  ⟨by simp [wideVector], rfl,
    assign_default_rowSum 2 scenarioTarget wideMatrix wideVector (by simp [wideVector]) rfl⟩

/-- Claim C6. Over exact arithmetic, for every matrix `A`, every sparse `x` with at least one
stored element (fewer than `2^64 - 4` of them, as counted by a `size_t`) and every initial
destination `y`, the optimized assign kernel and the default assign kernel both return and
leave the same destination, element for element; so do the two assignments that call them. -/
theorem assign_optimized_eq_default [Semiring α] (y : DenseVector α) (A : DenseMatrix α)
    (x : SparseVector α) (hx : x.elements ≠ []) (hlt : x.nonZeros + 4 < sizeRange) :
    (∃ y1, TDMatSVecMultExpr.selectAssignKernelOptimized y A x = .ok y1 ∧
      TDMatSVecMultExpr.selectAssignKernelDefault y A x = .ok y1) ∧
    ∀ w, TDMatSVecMultExpr.assign Kernel.optimized w y { mat := A, vec := x }
      = TDMatSVecMultExpr.assign Kernel.default w y { mat := A, vec := x } := by
  obtain ⟨e1, rest, hel⟩ := List.exists_cons_of_ne_nil hx
  have h1 := selectAssignKernelOptimized_eq y A x e1 rest hel hlt
  have h2 := selectAssignKernelDefault_eq y A x e1 rest hel
  refine ⟨⟨_, h1, h2⟩, ?_⟩
  intro w
  unfold TDMatSVecMultExpr.assign
  simp only [TDMatSVecMultExpr.selectAssignKernel, h1, h2]

theorem assign_optimized_eq_default_witness :
    wideVector.elements ≠ [] ∧ wideVector.nonZeros + 4 < sizeRange ∧
    (∃ y1, TDMatSVecMultExpr.selectAssignKernelOptimized scenarioTarget wideMatrix wideVector
        = .ok y1 ∧
      TDMatSVecMultExpr.selectAssignKernelDefault scenarioTarget wideMatrix wideVector
        = .ok y1) ∧
    ∀ w, TDMatSVecMultExpr.assign Kernel.optimized w scenarioTarget
        { mat := wideMatrix, vec := wideVector }
      = TDMatSVecMultExpr.assign Kernel.default w scenarioTarget
        { mat := wideMatrix, vec := wideVector } :=
  ⟨by simp [wideVector], by decide,
    assign_optimized_eq_default scenarioTarget wideMatrix wideVector (by simp [wideVector])
      (by decide)⟩

/-- Claim C7. In the lane-wise block model with blocks of `w >= 1` lanes, `A.spacing()` a
multiple of `w` that is at least `A.rows()` (and `A.spacing() + w` representable in a
`size_t`), for every `A`, every `x` with at least one stored element and every initial `y`,
the vectorized assign kernel and the default assign kernel both return, and they leave the
same `y[i]` for every `i < A.rows()`, over exact arithmetic. -/
theorem assign_vectorized_eq_default [Semiring α] (w : Nat) (y : DenseVector α)
    (A : DenseMatrix α) (x : SparseVector α) (hx : x.elements ≠ [])
    (hlt : x.nonZeros + 4 < sizeRange) (hw : 0 < w) (hM : w ∣ A.spacing)
    (hrows : A.rows ≤ A.spacing) (hMlt : A.spacing + w < sizeRange) :
    ∃ yv yd, TDMatSVecMultExpr.selectAssignKernelVectorized w y A x = .ok yv ∧
      TDMatSVecMultExpr.selectAssignKernelDefault y A x = .ok yd ∧
      yv.size = yd.size ∧ ∀ i, i < A.rows → yv.data i = yd.data i := by
  obtain ⟨e1, rest, hel⟩ := List.exists_cons_of_ne_nil hx
  refine ⟨_, _, selectAssignKernelVectorized_eq w y A x e1 rest hel hlt hw hM hMlt,
    selectAssignKernelDefault_eq y A x e1 rest hel, rfl, ?_⟩
  intro i hi
  have hi' : i < A.spacing := by omega
  simp only [hi, hi', if_true]

theorem assign_vectorized_eq_default_witness :
    wideVector.elements ≠ [] ∧ wideVector.nonZeros + 4 < sizeRange ∧ 0 < 2 ∧
    2 ∣ wideMatrix.spacing ∧ wideMatrix.rows ≤ wideMatrix.spacing ∧
    wideMatrix.spacing + 2 < sizeRange ∧
    ∃ yv yd, TDMatSVecMultExpr.selectAssignKernelVectorized 2 scenarioTarget wideMatrix
        wideVector = .ok yv ∧
      TDMatSVecMultExpr.selectAssignKernelDefault scenarioTarget wideMatrix wideVector
        = .ok yd ∧
      yv.size = yd.size ∧ ∀ i, i < wideMatrix.rows → yv.data i = yd.data i :=
  ⟨by simp [wideVector], by decide, by decide, by decide, by decide, by decide,
    assign_vectorized_eq_default 2 scenarioTarget wideMatrix wideVector (by simp [wideVector])
      (by decide) (by decide) (by decide) (by decide) (by decide)⟩

/-- Claim C8. Assign-to-dense of `A*x` when the sparse operand has no stored elements: for
every kernel and every destination `y` of length `A.rows()` the call returns `reset( y )`,
every element `y[i]`, `i < y.size()`, of which is the zero element whatever `y` held before;
no kernel runs and no element of `A` is read, so the result is the same for every matrix with
that number of rows. -/
theorem assign_without_elements_resets [Semiring α] (k : Kernel) (w : Nat) (y : DenseVector α)
    (A : DenseMatrix α) (x : SparseVector α) (hx : x.elements = []) (hy : y.size = A.rows) :
    TDMatSVecMultExpr.assign k w y { mat := A, vec := x } = .ok (reset y) ∧
    (reset y).size = y.size ∧ (∀ i, i < y.size → (reset y).data i = 0) ∧
    ∀ B : DenseMatrix α, B.rows = A.rows →
      TDMatSVecMultExpr.assign k w y { mat := B, vec := x }
        = TDMatSVecMultExpr.assign k w y { mat := A, vec := x } := by
  have hnz : x.nonZeros = 0 := by simp [SparseVector.nonZeros, hx]
  have hA : ∀ B : DenseMatrix α, B.rows = A.rows →
      TDMatSVecMultExpr.assign k w y { mat := B, vec := x } = .ok (reset y) := by
    intro B hB
    unfold TDMatSVecMultExpr.assign
    simp only [TDMatSVecMultExpr.size, hy, hB, ne_eq, not_true_eq_false, if_false, hnz,
      if_true]
  refine ⟨hA A rfl, rfl, ?_, ?_⟩
  · intro i hi
    simp only [reset, hi, if_true]
  · intro B hB
    rw [hA B hB, hA A rfl]

theorem assign_without_elements_resets_witness :
    scenarioZeroVector.elements = [] ∧ scenarioTarget.size = scenarioMatrix.rows ∧
    (TDMatSVecMultExpr.assign Kernel.vectorized 2 scenarioTarget
        { mat := scenarioMatrix, vec := scenarioZeroVector } = .ok (reset scenarioTarget) ∧
    (reset scenarioTarget).size = scenarioTarget.size ∧
    (∀ i, i < scenarioTarget.size → (reset scenarioTarget).data i = 0) ∧
    ∀ B : DenseMatrix Int, B.rows = scenarioMatrix.rows →
      TDMatSVecMultExpr.assign Kernel.vectorized 2 scenarioTarget
          { mat := B, vec := scenarioZeroVector }
        = TDMatSVecMultExpr.assign Kernel.vectorized 2 scenarioTarget
          { mat := scenarioMatrix, vec := scenarioZeroVector }) :=
  ⟨rfl, rfl, assign_without_elements_resets Kernel.vectorized 2 scenarioTarget scenarioMatrix
    scenarioZeroVector rfl rfl⟩

theorem addAssign_calls_kernel [Add α] [Mul α] (k : Kernel) (w : Nat) (y : DenseVector α)
    (A : DenseMatrix α) (x : SparseVector α) (hx : x.elements ≠ []) (hy : y.size = A.rows) :
    TDMatSVecMultExpr.addAssign k w y { mat := A, vec := x }
      = TDMatSVecMultExpr.selectAddAssignKernel k w y A x := by
  have hnz : ¬ (x.nonZeros = 0) := by simpa [SparseVector.nonZeros] using hx
  unfold TDMatSVecMultExpr.addAssign
  simp only [TDMatSVecMultExpr.size, hy, ne_eq, not_true_eq_false, if_false, hnz]

/-- Claim C9. Add-assign-to-dense of `A*x`: for every `A`, `x` and destination `y` of
length `A.rows()`, with whichever kernel is selected, the call returns and afterwards
`y[i] = y0[i] + sum over the stored elements (j, v) of x of A(i,j) * v` for every
`i < A.rows()`, where `y0` is the destination before the call; when `x` has no stored elements
the destination is returned as it was, without a reset. The unrolled kernels count the
elements in a `size_t`, and the vectorized kernel is run in the lane-wise block model with
`A.spacing()` a multiple of the block width that is at least `A.rows()`. -/
theorem addAssign_rowSum [Semiring α] (k : Kernel) (w : Nat) (y : DenseVector α)
    (A : DenseMatrix α) (x : SparseVector α) (hy : y.size = A.rows)
    (hlt : k ≠ Kernel.default → x.nonZeros + 4 < sizeRange)
    (hvec : k = Kernel.vectorized →
      0 < w ∧ w ∣ A.spacing ∧ A.rows ≤ A.spacing ∧ A.spacing + w < sizeRange) :
    ∃ y1, TDMatSVecMultExpr.addAssign k w y { mat := A, vec := x } = .ok y1 ∧
      y1.size = y.size ∧ (∀ i, i < A.rows → y1.data i = y.data i + rowSum A x i) ∧
      (x.elements = [] → y1 = y) := by
  by_cases hx : x.elements = []
  · have hnz : x.nonZeros = 0 := by simp [SparseVector.nonZeros, hx]
    refine ⟨y, ?_, rfl, ?_, fun _ => rfl⟩
    · unfold TDMatSVecMultExpr.addAssign
      simp only [TDMatSVecMultExpr.size, hy, ne_eq, not_true_eq_false, if_false, hnz, if_true]
    · intro i _
      simp [rowSum, hx]
  · have hsum : ∀ i, x.elements.foldl (fun acc e => acc + A.elem i e.index * e.value)
        (y.data i) = y.data i + rowSum A x i := by
      intro i
      rw [rowSum_eq_foldl]
      exact foldl_add_init (fun e => A.elem i e.index * e.value) x.elements (y.data i)
    have hcall := addAssign_calls_kernel k w y A x hx hy
    cases k with
    | default =>
      refine ⟨_, hcall.trans (selectAddAssignKernelDefault_eq y A x hx), rfl, ?_,
        fun h => absurd h hx⟩
      intro i hi
      simp only [hi, if_true]
      exact hsum i
    | optimized =>
      refine ⟨_, hcall.trans (selectAddAssignKernelOptimized_eq y A x hx
        (hlt (by decide))), rfl, ?_, fun h => absurd h hx⟩
      intro i hi
      simp only [hi, if_true]
      exact hsum i
    | vectorized =>
      obtain ⟨hw, hM, hrows, hMlt⟩ := hvec rfl
      refine ⟨_, hcall.trans (selectAddAssignKernelVectorized_eq w y A x hx
        (hlt (by decide)) hw hM hMlt), rfl, ?_, fun h => absurd h hx⟩
      intro i hi
      have hi' : i < A.spacing := by omega
      simp only [hi', if_true]
      exact hsum i

theorem addAssign_rowSum_witness :
    scenarioTarget.size = wideMatrix.rows ∧ wideVector.nonZeros + 4 < sizeRange ∧
    (0 < 2 ∧ 2 ∣ wideMatrix.spacing ∧ wideMatrix.rows ≤ wideMatrix.spacing ∧
      wideMatrix.spacing + 2 < sizeRange) ∧
    ∃ y1, TDMatSVecMultExpr.addAssign Kernel.vectorized 2 scenarioTarget
        { mat := wideMatrix, vec := wideVector } = .ok y1 ∧
      y1.size = scenarioTarget.size ∧
      (∀ i, i < wideMatrix.rows →
        y1.data i = scenarioTarget.data i + rowSum wideMatrix wideVector i) ∧
      (wideVector.elements = [] → y1 = scenarioTarget) :=
  ⟨rfl, by decide, by decide,
    addAssign_rowSum Kernel.vectorized 2 scenarioTarget wideMatrix wideVector rfl
      (fun _ => by decide) (fun _ => by decide)⟩

theorem subAssign_calls_kernel [Add α] [Sub α] [Mul α] (k : Kernel) (w : Nat)
    (y : DenseVector α) (A : DenseMatrix α) (x : SparseVector α) (hx : x.elements ≠ [])
    (hy : y.size = A.rows) :
    TDMatSVecMultExpr.subAssign k w y { mat := A, vec := x }
      = TDMatSVecMultExpr.selectSubAssignKernel k w y A x := by
  have hnz : ¬ (x.nonZeros = 0) := by simpa [SparseVector.nonZeros] using hx
  unfold TDMatSVecMultExpr.subAssign
  simp only [TDMatSVecMultExpr.size, hy, ne_eq, not_true_eq_false, if_false, hnz]

/-- Claim C10. Subtract-assign-to-dense of `A*x`: for every `A`, `x` and destination `y` of
length `A.rows()`, with whichever kernel is selected, the call returns and afterwards
`y[i] = y0[i] - sum over the stored elements (j, v) of x of A(i,j) * v` for every
`i < A.rows()`, where `y0` is the destination before the call; when `x` has no stored elements
the destination is returned as it was. The unrolled kernels count the elements in a
`size_t`, and the vectorized kernel is run in the lane-wise block model with `A.spacing()` a
multiple of the block width that is at least `A.rows()`. -/
theorem subAssign_rowSum [Ring α] (k : Kernel) (w : Nat) (y : DenseVector α)
    (A : DenseMatrix α) (x : SparseVector α) (hy : y.size = A.rows)
    (hlt : k ≠ Kernel.default → x.nonZeros + 4 < sizeRange)
    (hvec : k = Kernel.vectorized →
      0 < w ∧ w ∣ A.spacing ∧ A.rows ≤ A.spacing ∧ A.spacing + w < sizeRange) :
    ∃ y1, TDMatSVecMultExpr.subAssign k w y { mat := A, vec := x } = .ok y1 ∧
      y1.size = y.size ∧ (∀ i, i < A.rows → y1.data i = y.data i - rowSum A x i) ∧
      (x.elements = [] → y1 = y) := by
  by_cases hx : x.elements = []
  · have hnz : x.nonZeros = 0 := by simp [SparseVector.nonZeros, hx]
    refine ⟨y, ?_, rfl, ?_, fun _ => rfl⟩
    · unfold TDMatSVecMultExpr.subAssign
      simp only [TDMatSVecMultExpr.size, hy, ne_eq, not_true_eq_false, if_false, hnz, if_true]
    · intro i _
      simp [rowSum, hx]
  · have hsum : ∀ i, x.elements.foldl (fun acc e => acc - A.elem i e.index * e.value)
        (y.data i) = y.data i - rowSum A x i := by
      intro i
      rw [rowSum_eq_foldl]
      exact foldl_sub_init (fun e => A.elem i e.index * e.value) x.elements (y.data i)
    have hcall := subAssign_calls_kernel k w y A x hx hy
    cases k with
    | default =>
      refine ⟨_, hcall.trans (selectSubAssignKernelDefault_eq y A x hx), rfl, ?_,
        fun h => absurd h hx⟩
      intro i hi
      simp only [hi, if_true]
      exact hsum i
    | optimized =>
      refine ⟨_, hcall.trans (selectSubAssignKernelOptimized_eq y A x hx
        (hlt (by decide))), rfl, ?_, fun h => absurd h hx⟩
      intro i hi
      simp only [hi, if_true]
      exact hsum i
    | vectorized =>
      obtain ⟨hw, hM, hrows, hMlt⟩ := hvec rfl
      refine ⟨_, hcall.trans (selectSubAssignKernelVectorized_eq w y A x hx
        (hlt (by decide)) hw hM hMlt), rfl, ?_, fun h => absurd h hx⟩
      intro i hi
      have hi' : i < A.spacing := by omega
      simp only [hi', if_true]
      exact hsum i

theorem subAssign_rowSum_witness :
    scenarioTarget.size = wideMatrix.rows ∧ wideVector.nonZeros + 4 < sizeRange ∧
    (0 < 2 ∧ 2 ∣ wideMatrix.spacing ∧ wideMatrix.rows ≤ wideMatrix.spacing ∧
      wideMatrix.spacing + 2 < sizeRange) ∧
    ∃ y1, TDMatSVecMultExpr.subAssign Kernel.vectorized 2 scenarioTarget
        { mat := wideMatrix, vec := wideVector } = .ok y1 ∧
      y1.size = scenarioTarget.size ∧
      (∀ i, i < wideMatrix.rows →
        y1.data i = scenarioTarget.data i - rowSum wideMatrix wideVector i) ∧
      (wideVector.elements = [] → y1 = scenarioTarget) :=
  ⟨rfl, by decide, by decide,
    subAssign_rowSum Kernel.vectorized 2 scenarioTarget wideMatrix wideVector rfl
      (fun _ => by decide) (fun _ => by decide)⟩

/-! ## Kernel equivalence for add-assignment and subtract-assignment -/

/-- Claim C11. Over exact arithmetic, for every matrix `A`, every sparse `x` with at least one
stored element (fewer than `2^64 - 4` of them, as counted by a `size_t`) and every initial
destination `y`, the optimized add-assign kernel, which adds the sum of each group of four
products and then the remaining products one at a time, and the default add-assign kernel,
which adds one product at a time, both return and leave the same destination, element for
element; so do the two add-assignments that call them. -/
theorem addAssign_optimized_eq_default [Semiring α] (y : DenseVector α) (A : DenseMatrix α)
    (x : SparseVector α) (hx : x.elements ≠ []) (hlt : x.nonZeros + 4 < sizeRange) :
    (∃ y1, TDMatSVecMultExpr.selectAddAssignKernelOptimized y A x = .ok y1 ∧
      TDMatSVecMultExpr.selectAddAssignKernelDefault y A x = .ok y1) ∧
    ∀ w, TDMatSVecMultExpr.addAssign Kernel.optimized w y { mat := A, vec := x }
      = TDMatSVecMultExpr.addAssign Kernel.default w y { mat := A, vec := x } := by
  have h1 := selectAddAssignKernelOptimized_eq y A x hx hlt
  have h2 := selectAddAssignKernelDefault_eq y A x hx
  refine ⟨⟨_, h1, h2⟩, ?_⟩
  intro w
  unfold TDMatSVecMultExpr.addAssign
  simp only [TDMatSVecMultExpr.selectAddAssignKernel, h1, h2]

theorem addAssign_optimized_eq_default_witness :
    wideVector.elements ≠ [] ∧ wideVector.nonZeros + 4 < sizeRange ∧
    (∃ y1, TDMatSVecMultExpr.selectAddAssignKernelOptimized scenarioTarget wideMatrix
        wideVector = .ok y1 ∧
      TDMatSVecMultExpr.selectAddAssignKernelDefault scenarioTarget wideMatrix wideVector
        = .ok y1) ∧
    ∀ w, TDMatSVecMultExpr.addAssign Kernel.optimized w scenarioTarget
        { mat := wideMatrix, vec := wideVector }
      = TDMatSVecMultExpr.addAssign Kernel.default w scenarioTarget
        { mat := wideMatrix, vec := wideVector } :=
  ⟨by simp [wideVector], by decide,
    addAssign_optimized_eq_default scenarioTarget wideMatrix wideVector
      (by simp [wideVector]) (by decide)⟩

/-- Claim C12. Over exact arithmetic, for every matrix `A`, every sparse `x` with at least one
stored element (fewer than `2^64 - 4` of them, as counted by a `size_t`) and every initial
destination `y`, the optimized subtract-assign kernel, which subtracts the sum of each group
of four products (`y[i] -= p1 + p2 + p3 + p4`), and the default subtract-assign kernel, which
subtracts the products one at a time, both return and leave the same destination, element
for element; so do the two subtract-assignments that call them. -/
theorem subAssign_optimized_eq_default [Ring α] (y : DenseVector α) (A : DenseMatrix α)
    (x : SparseVector α) (hx : x.elements ≠ []) (hlt : x.nonZeros + 4 < sizeRange) :
    (∃ y1, TDMatSVecMultExpr.selectSubAssignKernelOptimized y A x = .ok y1 ∧
      TDMatSVecMultExpr.selectSubAssignKernelDefault y A x = .ok y1) ∧
    ∀ w, TDMatSVecMultExpr.subAssign Kernel.optimized w y { mat := A, vec := x }
      = TDMatSVecMultExpr.subAssign Kernel.default w y { mat := A, vec := x } := by
  have h1 := selectSubAssignKernelOptimized_eq y A x hx hlt
  have h2 := selectSubAssignKernelDefault_eq y A x hx
  refine ⟨⟨_, h1, h2⟩, ?_⟩
  intro w
  unfold TDMatSVecMultExpr.subAssign
  simp only [TDMatSVecMultExpr.selectSubAssignKernel, h1, h2]

theorem subAssign_optimized_eq_default_witness :
    wideVector.elements ≠ [] ∧ wideVector.nonZeros + 4 < sizeRange ∧
    (∃ y1, TDMatSVecMultExpr.selectSubAssignKernelOptimized scenarioTarget wideMatrix
        wideVector = .ok y1 ∧
      TDMatSVecMultExpr.selectSubAssignKernelDefault scenarioTarget wideMatrix wideVector
        = .ok y1) ∧
    ∀ w, TDMatSVecMultExpr.subAssign Kernel.optimized w scenarioTarget
        { mat := wideMatrix, vec := wideVector }
      = TDMatSVecMultExpr.subAssign Kernel.default w scenarioTarget
        { mat := wideMatrix, vec := wideVector } :=
  ⟨by simp [wideVector], by decide,
    subAssign_optimized_eq_default scenarioTarget wideMatrix wideVector
      (by simp [wideVector]) (by decide)⟩

/-- Claim C13. In the lane-wise block model with blocks of `w >= 1` lanes, `A.spacing()` a
multiple of `w` that is at least `A.rows()` (and `A.spacing() + w` representable in a
`size_t`), for every `A`, every `x` with at least one stored element and every initial `y`,
the vectorized add-assign kernel and the default add-assign kernel both return, and they leave
the same `y[i]` for every `i < A.rows()`, over exact arithmetic. -/
theorem addAssign_vectorized_eq_default [Semiring α] (w : Nat) (y : DenseVector α)
    (A : DenseMatrix α) (x : SparseVector α) (hx : x.elements ≠ [])
    (hlt : x.nonZeros + 4 < sizeRange) (hw : 0 < w) (hM : w ∣ A.spacing)
    (hrows : A.rows ≤ A.spacing) (hMlt : A.spacing + w < sizeRange) :
    ∃ yv yd, TDMatSVecMultExpr.selectAddAssignKernelVectorized w y A x = .ok yv ∧
      TDMatSVecMultExpr.selectAddAssignKernelDefault y A x = .ok yd ∧
      yv.size = yd.size ∧ ∀ i, i < A.rows → yv.data i = yd.data i := by
  refine ⟨_, _, selectAddAssignKernelVectorized_eq w y A x hx hlt hw hM hMlt,
    selectAddAssignKernelDefault_eq y A x hx, rfl, ?_⟩
  intro i hi
  have hi' : i < A.spacing := by omega
  simp only [hi, hi', if_true]

theorem addAssign_vectorized_eq_default_witness :
    wideVector.elements ≠ [] ∧ wideVector.nonZeros + 4 < sizeRange ∧ 0 < 2 ∧
    2 ∣ wideMatrix.spacing ∧ wideMatrix.rows ≤ wideMatrix.spacing ∧
    wideMatrix.spacing + 2 < sizeRange ∧
    ∃ yv yd, TDMatSVecMultExpr.selectAddAssignKernelVectorized 2 scenarioTarget wideMatrix
        wideVector = .ok yv ∧
      TDMatSVecMultExpr.selectAddAssignKernelDefault scenarioTarget wideMatrix wideVector
        = .ok yd ∧
      yv.size = yd.size ∧ ∀ i, i < wideMatrix.rows → yv.data i = yd.data i :=
  ⟨by simp [wideVector], by decide, by decide, by decide, by decide, by decide,
    addAssign_vectorized_eq_default 2 scenarioTarget wideMatrix wideVector
      (by simp [wideVector]) (by decide) (by decide) (by decide) (by decide) (by decide)⟩

/-- Claim C14. In the lane-wise block model with blocks of `w >= 1` lanes, `A.spacing()` a
multiple of `w` that is at least `A.rows()` (and `A.spacing() + w` representable in a
`size_t`), for every `A`, every `x` with at least one stored element and every initial `y`,
the vectorized subtract-assign kernel (`load( y ) - p1 - p2 - p3 - p4` per group) and the
default subtract-assign kernel both return, and they leave the same `y[i]` for every
`i < A.rows()`, over exact arithmetic. -/
theorem subAssign_vectorized_eq_default [Ring α] (w : Nat) (y : DenseVector α)
    (A : DenseMatrix α) (x : SparseVector α) (hx : x.elements ≠ [])
    (hlt : x.nonZeros + 4 < sizeRange) (hw : 0 < w) (hM : w ∣ A.spacing)
    (hrows : A.rows ≤ A.spacing) (hMlt : A.spacing + w < sizeRange) :
    ∃ yv yd, TDMatSVecMultExpr.selectSubAssignKernelVectorized w y A x = .ok yv ∧
      TDMatSVecMultExpr.selectSubAssignKernelDefault y A x = .ok yd ∧
      yv.size = yd.size ∧ ∀ i, i < A.rows → yv.data i = yd.data i := by
  refine ⟨_, _, selectSubAssignKernelVectorized_eq w y A x hx hlt hw hM hMlt,
    selectSubAssignKernelDefault_eq y A x hx, rfl, ?_⟩
  intro i hi
  have hi' : i < A.spacing := by omega
  simp only [hi, hi', if_true]

theorem subAssign_vectorized_eq_default_witness :
    wideVector.elements ≠ [] ∧ wideVector.nonZeros + 4 < sizeRange ∧ 0 < 2 ∧
    2 ∣ wideMatrix.spacing ∧ wideMatrix.rows ≤ wideMatrix.spacing ∧
    wideMatrix.spacing + 2 < sizeRange ∧
    ∃ yv yd, TDMatSVecMultExpr.selectSubAssignKernelVectorized 2 scenarioTarget wideMatrix
        wideVector = .ok yv ∧
      TDMatSVecMultExpr.selectSubAssignKernelDefault scenarioTarget wideMatrix wideVector
        = .ok yd ∧
      yv.size = yd.size ∧ ∀ i, i < wideMatrix.rows → yv.data i = yd.data i :=
  ⟨by simp [wideVector], by decide, by decide, by decide, by decide, by decide,
    subAssign_vectorized_eq_default 2 scenarioTarget wideMatrix wideVector
      (by simp [wideVector]) (by decide) (by decide) (by decide) (by decide) (by decide)⟩

theorem accumulate_then_subtract_restores [Ring α] (M : Nat) (A : DenseMatrix α)
    (element : List (SparseElement α)) (y : DenseVector α) :
    ({ size := y.size,
       data := fun k =>
        if k < M then
          element.foldl (fun acc e => acc - A.elem k e.index * e.value)
            (if k < M then
              element.foldl (fun acc e => acc + A.elem k e.index * e.value) (y.data k)
            else y.data k)
        else
          if k < M then
            element.foldl (fun acc e => acc + A.elem k e.index * e.value) (y.data k)
          else y.data k } : DenseVector α) = y := by
  cases y with
  | mk size data =>
    congr 1
    funext k
    by_cases hk : k < M
    · simp only [hk, if_true]
      rw [foldl_sub_init (fun e => A.elem k e.index * e.value),
        foldl_add_init (fun e => A.elem k e.index * e.value), add_sub_cancel_right]
    · simp only [hk, if_false]

/-- Claim C15. Over exact arithmetic, for every `A`, every `x` (also one without stored
elements), every dense `y` of length `A.rows()` and each kernel tier, `y += A*x` followed by
`y -= A*x` returns the destination as it was before the two calls, every element restored.
The unrolled kernels count the elements in a `size_t`, and the vectorized kernel is run in the
lane-wise block model with `A.spacing()` a multiple of the block width. -/
theorem addAssign_then_subAssign_restores [Ring α] (k : Kernel) (w : Nat) (y : DenseVector α)
    (A : DenseMatrix α) (x : SparseVector α) (hy : y.size = A.rows)
    (hlt : k ≠ Kernel.default → x.nonZeros + 4 < sizeRange)
    (hvec : k = Kernel.vectorized → 0 < w ∧ w ∣ A.spacing ∧ A.spacing + w < sizeRange) :
    ∃ y1, TDMatSVecMultExpr.addAssign k w y { mat := A, vec := x } = .ok y1 ∧
      TDMatSVecMultExpr.subAssign k w y1 { mat := A, vec := x } = .ok y := by
  by_cases hx : x.elements = []
  · have hnz : x.nonZeros = 0 := by simp [SparseVector.nonZeros, hx]
    refine ⟨y, ?_, ?_⟩
    · unfold TDMatSVecMultExpr.addAssign
      simp only [TDMatSVecMultExpr.size, hy, ne_eq, not_true_eq_false, if_false, hnz, if_true]
    · unfold TDMatSVecMultExpr.subAssign
      simp only [TDMatSVecMultExpr.size, hy, ne_eq, not_true_eq_false, if_false, hnz, if_true]
  · have hadd := addAssign_calls_kernel k w y A x hx hy
    cases k with
    | default =>
      have h1 := selectAddAssignKernelDefault_eq y A x hx
      refine ⟨_, hadd.trans h1, ?_⟩
      refine (subAssign_calls_kernel Kernel.default w _ A x hx ?_).trans ?_
      · exact hy
      exact (selectSubAssignKernelDefault_eq _ A x hx).trans
        (congrArg Except.ok (accumulate_then_subtract_restores A.rows A x.elements y))
    | optimized =>
      have h1 := selectAddAssignKernelOptimized_eq y A x hx (hlt (by decide))
      refine ⟨_, hadd.trans h1, ?_⟩
      refine (subAssign_calls_kernel Kernel.optimized w _ A x hx ?_).trans ?_
      · exact hy
      exact (selectSubAssignKernelOptimized_eq _ A x hx (hlt (by decide))).trans
        (congrArg Except.ok (accumulate_then_subtract_restores A.rows A x.elements y))
    | vectorized =>
      obtain ⟨hw, hM, hMlt⟩ := hvec rfl
      have h1 := selectAddAssignKernelVectorized_eq w y A x hx (hlt (by decide)) hw hM hMlt
      refine ⟨_, hadd.trans h1, ?_⟩
      refine (subAssign_calls_kernel Kernel.vectorized w _ A x hx ?_).trans ?_
      · exact hy
      exact (selectSubAssignKernelVectorized_eq w _ A x hx (hlt (by decide)) hw hM hMlt).trans
        (congrArg Except.ok (accumulate_then_subtract_restores A.spacing A x.elements y))

theorem addAssign_then_subAssign_restores_witness :
    scenarioTarget.size = wideMatrix.rows ∧ wideVector.nonZeros + 4 < sizeRange ∧
    (0 < 2 ∧ 2 ∣ wideMatrix.spacing ∧ wideMatrix.spacing + 2 < sizeRange) ∧
    ∃ y1, TDMatSVecMultExpr.addAssign Kernel.vectorized 2 scenarioTarget
        { mat := wideMatrix, vec := wideVector } = .ok y1 ∧
      TDMatSVecMultExpr.subAssign Kernel.vectorized 2 y1
        { mat := wideMatrix, vec := wideVector } = .ok scenarioTarget :=
  ⟨rfl, by decide, by decide,
    addAssign_then_subAssign_restores Kernel.vectorized 2 scenarioTarget wideMatrix wideVector
      rfl (fun _ => by decide) (fun _ => by decide)⟩

/-! ## The concrete scenario -/

theorem assign_calls_kernel [Zero α] [Add α] [Mul α] (k : Kernel) (w : Nat)
    (y : DenseVector α) (A : DenseMatrix α) (x : SparseVector α) (hx : x.elements ≠ [])
    (hy : y.size = A.rows) :
    TDMatSVecMultExpr.assign k w y { mat := A, vec := x }
      = TDMatSVecMultExpr.selectAssignKernel k w y A x := by
  have hnz : ¬ (x.nonZeros = 0) := by simpa [SparseVector.nonZeros] using hx
  unfold TDMatSVecMultExpr.assign
  simp only [TDMatSVecMultExpr.size, hy, ne_eq, not_true_eq_false, if_false, hnz]

/-- Claim C16. For `A = [[1,2],[3,4]]` and the sparse vector `x` of length 2 whose only stored
element is `(1, 5)`, `operator*` returns the node `A*x`, element access on it gives `10` and
`20`, and assign-to-dense of it into any destination of length 2 gives `[10, 20]`, with each
kernel (the vectorized one with a block width dividing the column length 2); for the sparse
vector of length 2 without stored elements, element access and assign-to-dense both give
`[0, 0]`. -/
theorem scenario_product (k : Kernel) (w : Nat) (y : DenseVector Int) (hy : y.size = 2)
    (hw : k = Kernel.vectorized → 0 < w ∧ w ∣ 2) :
    (∃ node, operatorMul scenarioMatrix scenarioVector = .ok node ∧
      node.subscript 0 = .ok 10 ∧ node.subscript 1 = .ok 20 ∧
      ∃ y1, TDMatSVecMultExpr.assign k w y node = .ok y1 ∧ y1.size = 2 ∧
        y1.data 0 = 10 ∧ y1.data 1 = 20) ∧
    (∃ node, operatorMul scenarioMatrix scenarioZeroVector = .ok node ∧
      node.subscript 0 = .ok 0 ∧ node.subscript 1 = .ok 0 ∧
      ∃ y0, TDMatSVecMultExpr.assign k w y node = .ok y0 ∧ y0.size = 2 ∧
        y0.data 0 = 0 ∧ y0.data 1 = 0) := by
  have hel : scenarioVector.elements = { index := 1, value := 5 } :: [] := rfl
  have hne : scenarioVector.elements ≠ [] := by simp [scenarioVector]
  have hrows : y.size = scenarioMatrix.rows := hy
  constructor
  · refine ⟨{ mat := scenarioMatrix, vec := scenarioVector }, rfl, rfl, rfl, ?_⟩
    rw [assign_calls_kernel k w y scenarioMatrix scenarioVector hne hrows]
    cases k with
    | default =>
      exact ⟨_, selectAssignKernelDefault_eq y scenarioMatrix scenarioVector _ _ hel, hy,
        rfl, rfl⟩
    | optimized =>
      exact ⟨_, selectAssignKernelOptimized_eq y scenarioMatrix scenarioVector _ _ hel
        (by decide), hy, rfl, rfl⟩
    | vectorized =>
      obtain ⟨hpos, hdvd⟩ := hw rfl
      have hle : w ≤ 2 := Nat.le_of_dvd (by decide) hdvd
      exact ⟨_, selectAssignKernelVectorized_eq w y scenarioMatrix scenarioVector _ _ hel
        (by decide) hpos hdvd (by simp only [scenarioMatrix, sizeRange]; omega), hy, rfl, rfl⟩
  · refine ⟨{ mat := scenarioMatrix, vec := scenarioZeroVector }, rfl, rfl, rfl, reset y, ?_,
      hy, ?_, ?_⟩
    · unfold TDMatSVecMultExpr.assign
      simp [TDMatSVecMultExpr.size, hrows, SparseVector.nonZeros, scenarioZeroVector]
    · simp [reset, hy]
    · simp [reset, hy]

theorem scenario_product_witness :
    scenarioTarget.size = 2 ∧ (0 < 2 ∧ 2 ∣ 2) ∧
    (∃ node, operatorMul scenarioMatrix scenarioVector = .ok node ∧
      node.subscript 0 = .ok 10 ∧ node.subscript 1 = .ok 20 ∧
      ∃ y1, TDMatSVecMultExpr.assign Kernel.vectorized 2 scenarioTarget node = .ok y1 ∧
        y1.size = 2 ∧ y1.data 0 = 10 ∧ y1.data 1 = 20) ∧
    (∃ node, operatorMul scenarioMatrix scenarioZeroVector = .ok node ∧
      node.subscript 0 = .ok 0 ∧ node.subscript 1 = .ok 0 ∧
      ∃ y0, TDMatSVecMultExpr.assign Kernel.vectorized 2 scenarioTarget node = .ok y0 ∧
        y0.size = 2 ∧ y0.data 0 = 0 ∧ y0.data 1 = 0) :=
  ⟨rfl, by decide, scenario_product Kernel.vectorized 2 scenarioTarget rfl
    (fun _ => by decide)⟩

/-! ## Element loops over the memory -/

theorem forElements_succ (n : Nat)
    (body : Nat → DenseMemory α → Except Failure (DenseMemory α)) (mem : DenseMemory α) :
    forElements (n + 1) body mem
      = match forElements n body mem with
        | .ok mem1 => body n mem1
        | .error f => .error f := by
  unfold forElements
  rw [List.range_succ, List.foldlM_append]
  cases h : List.foldlM (fun mem i => body i mem) mem (List.range n) with
  | error f => rfl
  | ok mem1 =>
    show (List.foldlM (fun mem i => body i mem) mem1 [n]) = body n mem1
    rw [List.foldlM_cons]
    cases body n mem1 <;> rfl

/-- What the element loop of a default assignment leaves in memory, when the value read at
index `i` depends on the elements stored at index `i` only. -/
theorem elementwiseAssign_eq (combine : α → α → α)
    (subscript : DenseMemory α → Nat → Except Failure α) (mem : DenseMemory α) (d : Nat)
    (value : Nat → α)
    (hlocal : ∀ i, i < (mem d).size → ∀ mem1 : DenseMemory α,
      (∀ a, (mem1 a).data i = (mem a).data i) → subscript mem1 i = .ok (value i)) :
    elementwiseAssign combine subscript mem d
      = .ok (Function.update mem d { mem d with
          data := fun k =>
            if k < (mem d).size then combine ((mem d).data k) (value k)
            else (mem d).data k }) := by
  unfold elementwiseAssign
  suffices h : ∀ n, n ≤ (mem d).size →
      forElements n
        (fun i mem =>
          match subscript mem i with
          | .ok value => .ok (mem.write d i (combine ((mem d).data i) value))
          | .error f => .error f) mem
      = .ok (Function.update mem d { mem d with
          data := fun k =>
            if k < n then combine ((mem d).data k) (value k) else (mem d).data k }) from
    h (mem d).size (le_refl _)
  intro n
  induction n with
  | zero =>
    intro _
    unfold forElements
    simp only [List.range_zero, List.foldlM_nil, Nat.not_lt_zero, if_false]
    show Except.ok mem = Except.ok _
    congr 1
    funext a
    by_cases ha : a = d
    · subst ha; simp
    · simp [Function.update_noteq ha]
  | succ n ih =>
    intro hn
    rw [forElements_succ, ih (by omega)]
    have hread := hlocal n (by omega)
      (Function.update mem d { mem d with
          data := fun k =>
            if k < n then combine ((mem d).data k) (value k) else (mem d).data k })
      (by
        intro a
        by_cases ha : a = d
        · subst ha; simp
        · simp [Function.update_noteq ha])
    simp only [hread]
    congr 1
    unfold DenseMemory.write
    funext a
    by_cases ha : a = d
    · subst ha
      simp only [Function.update_same]
      congr 1
      funext k
      by_cases hk : k = n
      · subst hk; simp
      · have : k < n + 1 ↔ k < n := by omega
        simp [Function.update_noteq hk, this]
    · simp [Function.update_noteq ha]

/-! ## Operands of an addition node -/

/-! ### The multiplication node for every kernel -/

theorem subscript_value [Semiring α] (e : TDMatSVecMultExpr α) (i : Nat) (hi : i < e.mat.rows) :
    e.subscript i = .ok (rowSum e.mat e.vec i) := by
  rw [rowSum_eq_foldl]
  unfold TDMatSVecMultExpr.subscript
  simp only [hi, if_true]
  cases hel : e.vec.elements with
  | nil => simp [resetElement]
  | cons el rest => simp only [List.foldl_cons, zero_add]

theorem assign_values [Semiring α] (k : Kernel) (w : Nat) (y : DenseVector α)
    (A : DenseMatrix α) (x : SparseVector α) (hy : y.size = A.rows)
    (hfit : KernelFits k w A x) :
    ∃ y1, TDMatSVecMultExpr.assign k w y { mat := A, vec := x } = .ok y1 ∧
      y1.size = y.size ∧ ∀ i, i < A.rows → y1.data i = rowSum A x i := by
  obtain ⟨hlt, hvec⟩ := hfit
  by_cases hx : x.elements = []
  · have hnz : x.nonZeros = 0 := by simp [SparseVector.nonZeros, hx]
    refine ⟨reset y, ?_, rfl, ?_⟩
    · unfold TDMatSVecMultExpr.assign
      simp only [TDMatSVecMultExpr.size, hy, ne_eq, not_true_eq_false, if_false, hnz, if_true]
    · intro i hi
      have hi' : i < y.size := by omega
      simp [reset, hi', rowSum, hx]
  · obtain ⟨e1, rest, hel⟩ := List.exists_cons_of_ne_nil hx
    have hcall := assign_calls_kernel k w y A x hx hy
    cases k with
    | default =>
      refine ⟨_, hcall.trans (selectAssignKernelDefault_eq y A x e1 rest hel), rfl, ?_⟩
      intro i hi
      simp only [hi, if_true]
      exact foldl_from_first A x e1 rest hel i
    | optimized =>
      refine ⟨_, hcall.trans (selectAssignKernelOptimized_eq y A x e1 rest hel
        (hlt (by decide))), rfl, ?_⟩
      intro i hi
      simp only [hi, if_true]
      exact foldl_from_first A x e1 rest hel i
    | vectorized =>
      obtain ⟨hw, hM, hrows, hMlt⟩ := hvec rfl
      refine ⟨_, hcall.trans (selectAssignKernelVectorized_eq w y A x e1 rest hel
        (hlt (by decide)) hw hM hMlt), rfl, ?_⟩
      intro i hi
      have hi' : i < A.spacing := by omega
      simp only [hi', if_true]
      exact foldl_from_first A x e1 rest hel i

theorem addAssign_values [Semiring α] (k : Kernel) (w : Nat) (y : DenseVector α)
    (A : DenseMatrix α) (x : SparseVector α) (hy : y.size = A.rows)
    (hfit : KernelFits k w A x) :
    ∃ y1, TDMatSVecMultExpr.addAssign k w y { mat := A, vec := x } = .ok y1 ∧
      y1.size = y.size ∧ ∀ i, i < A.rows → y1.data i = y.data i + rowSum A x i := by
  obtain ⟨hlt, hvec⟩ := hfit
  by_cases hx : x.elements = []
  · have hnz : x.nonZeros = 0 := by simp [SparseVector.nonZeros, hx]
    refine ⟨y, ?_, rfl, ?_⟩
    · unfold TDMatSVecMultExpr.addAssign
      simp only [TDMatSVecMultExpr.size, hy, ne_eq, not_true_eq_false, if_false, hnz, if_true]
    · intro i _
      simp [rowSum, hx]
  · have hsum : ∀ i, x.elements.foldl (fun acc e => acc + A.elem i e.index * e.value)
        (y.data i) = y.data i + rowSum A x i := by
      intro i
      rw [rowSum_eq_foldl]
      exact foldl_add_init (fun e => A.elem i e.index * e.value) x.elements (y.data i)
    have hcall := addAssign_calls_kernel k w y A x hx hy
    cases k with
    | default =>
      refine ⟨_, hcall.trans (selectAddAssignKernelDefault_eq y A x hx), rfl, ?_⟩
      intro i hi
      simp only [hi, if_true]
      exact hsum i
    | optimized =>
      refine ⟨_, hcall.trans (selectAddAssignKernelOptimized_eq y A x hx
        (hlt (by decide))), rfl, ?_⟩
      intro i hi
      simp only [hi, if_true]
      exact hsum i
    | vectorized =>
      obtain ⟨hw, hM, hrows, hMlt⟩ := hvec rfl
      refine ⟨_, hcall.trans (selectAddAssignKernelVectorized_eq w y A x hx
        (hlt (by decide)) hw hM hMlt), rfl, ?_⟩
      intro i hi
      have hi' : i < A.spacing := by omega
      simp only [hi', if_true]
      exact hsum i

/-! ### Operands meet their contracts -/

theorem stored_avoids [Add α] [Sub α] [Mul α] (a d : Nat) (had : a ≠ d) :
    (DenseOperand.stored a : DenseOperand α).Avoids d := by
  intro mem mem1 hframe
  have h := hframe a had
  refine ⟨by simp [DenseOperand.stored, h], ?_⟩
  funext i
  simp [DenseOperand.stored, h]

theorem stored_assignCopies [Add α] [Sub α] [Mul α] (a : Nat) (mem : DenseMemory α) (d : Nat) :
    (DenseOperand.stored a : DenseOperand α).AssignCopies mem d := by
  intro _
  have h := elementwiseAssign_eq (fun _ value => value)
    (fun mem i => .ok ((mem a).data i)) mem d (fun i => (mem a).data i)
    (fun i _ mem1 h => by simp only [h a])
  refine ⟨_, h, ?_, ?_, ?_⟩
  · intro b hb
    exact Function.update_noteq hb _ _
  · simp
  · intro i hi
    exact ⟨_, rfl, by simp [hi]⟩

theorem stored_addAssignAdds [Add α] [Sub α] [Mul α] (a : Nat) (mem : DenseMemory α)
    (d : Nat) : (DenseOperand.stored a : DenseOperand α).AddAssignAdds mem d := by
  intro _
  have h := elementwiseAssign_eq (fun old value => old + value)
    (fun mem i => .ok ((mem a).data i)) mem d (fun i => (mem a).data i)
    (fun i _ mem1 h => by simp only [h a])
  refine ⟨_, h, ?_, ?_, ?_⟩
  · intro b hb
    exact Function.update_noteq hb _ _
  · simp
  · intro i hi
    exact ⟨_, rfl, by simp [hi]⟩

theorem product_avoids [Zero α] [Add α] [Sub α] [Mul α] (k : Kernel) (w : Nat)
    (fresh : Nat → α) (e : TDMatSVecMultExpr α) (d : Nat) :
    (e.toOperand k w fresh).Avoids d :=
  fun _ _ _ => ⟨rfl, rfl⟩

theorem product_assignCopies [Ring α] (k : Kernel) (w : Nat) (fresh : Nat → α)
    (e : TDMatSVecMultExpr α) (hfit : KernelFits k w e.mat e.vec) (mem : DenseMemory α)
    (d : Nat) : (e.toOperand k w fresh).AssignCopies mem d := by
  intro hsize
  obtain ⟨y1, h1, h2, h3⟩ := assign_values k w (mem d) e.mat e.vec hsize hfit
  refine ⟨Function.update mem d y1, ?_, ?_, ?_, ?_⟩
  · simp only [TDMatSVecMultExpr.toOperand, h1]
  · intro b hb
    exact Function.update_noteq hb _ _
  · simpa using h2
  · intro i hi
    have hi' : i < e.mat.rows := by
      have : (mem d).size = e.mat.rows := hsize
      omega
    exact ⟨_, subscript_value e i hi', by simpa using h3 i hi'⟩

theorem product_addAssignAdds [Ring α] (k : Kernel) (w : Nat) (fresh : Nat → α)
    (e : TDMatSVecMultExpr α) (hfit : KernelFits k w e.mat e.vec) (mem : DenseMemory α)
    (d : Nat) : (e.toOperand k w fresh).AddAssignAdds mem d := by
  intro hsize
  obtain ⟨y1, h1, h2, h3⟩ := addAssign_values k w (mem d) e.mat e.vec hsize hfit
  refine ⟨Function.update mem d y1, ?_, ?_, ?_, ?_⟩
  · simp only [TDMatSVecMultExpr.toOperand, h1]
  · intro b hb
    exact Function.update_noteq hb _ _
  · simpa using h2
  · intro i hi
    have hi' : i < e.mat.rows := by
      have : (mem d).size = e.mat.rows := hsize
      omega
    exact ⟨_, subscript_value e i hi', by simpa using h3 i hi'⟩

/-- Element access of an addition node with two stored operands is element access of the node
holding the two stored vectors. -/
theorem subscript_stored [Add α] [Sub α] [Mul α] (a b : Nat) (mem : DenseMemory α) (i : Nat) :
    (DVecDVecAddNode.mk (DenseOperand.stored a) (DenseOperand.stored b)).subscript mem i
      = DVecDVecAddExpr.subscript { lhs := mem a, rhs := mem b } i := by
  unfold DVecDVecAddNode.subscript DVecDVecAddExpr.subscript
  rfl

/-! ## Assignment of the multiplication node to a sparse vector -/

theorem find_filterMap_nonzero [Zero α] [DecidableEq α] (t : Nat → α) (i : Nat)
    (l : List Nat) :
    (l.filterMap (fun j =>
        if t j = 0 then none else some ({ index := j, value := t j } : SparseElement α))).find?
      (fun element => element.index == i)
      = if i ∈ l ∧ t i ≠ 0 then some { index := i, value := t i } else none := by
  induction l with
  | nil => simp
  | cons j l ih =>
    by_cases hj : t j = 0
    · rw [List.filterMap_cons_none (by simp [hj]), ih]
      by_cases hij : i = j
      · subst hij; simp [hj]
      · simp [hij]
    · rw [List.filterMap_cons_some (by simp [hj]; rfl), List.find?_cons]
      by_cases hij : j = i
      · subst hij; simp [hj]
      · have hij' : i ≠ j := fun h => hij h.symm
        have hb : (j == i) = false := by simp [hij]
        simp only [hb, ih, List.mem_cons, hij', false_or]

/-- The sparse vector that receives a dense vector holds its values. -/
theorem assignDenseToSparse_value [Zero α] [DecidableEq α] (lhs : SparseVector α)
    (rhs : DenseVector α) (i : Nat) (hi : i < lhs.size) :
    (assignDenseToSparse lhs rhs).value i = rhs.data i := by
  unfold SparseVector.value assignDenseToSparse
  simp only [find_filterMap_nonzero rhs.data i, List.mem_range, hi, true_and]
  by_cases h : rhs.data i = 0
  · simp [h]
  · simp [h]

/-- Claim C17. Assign of `A*x` into a sparse destination first evaluates the whole product
into a new dense temporary and then assigns the temporary to the destination. For a square
`A` whose vector operand is the stored sparse vector `x` at address `d`, assigning `A*x` into
that same stored vector returns, with each kernel; the vector at `d` is then the one obtained
by computing `A*x0` from the original `x0` into a separate temporary `t` and assigning `t` to
`x0`, it keeps its size and holds the value `sum over the stored elements (j, v) of x0 of
A(i,j) * v` at every `i`, and no other stored vector has changed. -/
theorem assignToSparse_into_operand [Ring α] [DecidableEq α] (k : Kernel) (w : Nat)
    (fresh : Nat → α) (mem : SparseMemory α) (d : Nat) (A : DenseMatrix α)
    (hsquare : A.rows = A.columns) (hshape : A.columns = (mem d).size)
    (hfit : KernelFits k w A (mem d)) :
    ∃ t mem1,
      TDMatSVecMultExpr.assign k w { size := A.rows, data := fresh }
        { mat := A, vec := mem d } = .ok t ∧
      TDMatSVecMultStored.assignToSparse k w fresh mem d { mat := A, vec := d } = .ok mem1 ∧
      mem1 d = assignDenseToSparse (mem d) t ∧
      (∀ a, a ≠ d → mem1 a = mem a) ∧
      (mem1 d).size = (mem d).size ∧
      ∀ i, i < (mem d).size → (mem1 d).value i = rowSum A (mem d) i := by
  obtain ⟨t, ht, _, hval⟩ := assign_values k w { size := A.rows, data := fresh } A (mem d)
    rfl hfit
  refine ⟨t, Function.update mem d (assignDenseToSparse (mem d) t), ht, ?_, ?_, ?_, ?_, ?_⟩
  · unfold TDMatSVecMultStored.assignToSparse TDMatSVecMultExpr.tmp
    have hs : (mem d).size = A.rows := by omega
    simp only [TDMatSVecMultStored.load, TDMatSVecMultExpr.size, hs, ne_eq,
      not_true_eq_false, if_false, ht]
  · simp
  · intro a ha
    exact Function.update_noteq ha _ _
  · simp [assignDenseToSparse]
  · intro i hi
    rw [Function.update_same, assignDenseToSparse_value _ _ i hi]
    exact hval i (by omega)

theorem scenarioVector_fits :
    KernelFits Kernel.optimized 2 scenarioMatrix (scenarioSparseMemory 0) :=
  ⟨fun _ => by decide, fun h => by cases h⟩

theorem assignToSparse_into_operand_witness :
    scenarioMatrix.rows = scenarioMatrix.columns ∧
    scenarioMatrix.columns = (scenarioSparseMemory 0).size ∧
    KernelFits Kernel.optimized 2 scenarioMatrix (scenarioSparseMemory 0) ∧
    ∃ t mem1,
      TDMatSVecMultExpr.assign Kernel.optimized 2
        { size := scenarioMatrix.rows, data := fun _ => (7 : Int) }
        { mat := scenarioMatrix, vec := scenarioSparseMemory 0 } = .ok t ∧
      TDMatSVecMultStored.assignToSparse Kernel.optimized 2 (fun _ => (7 : Int))
        scenarioSparseMemory 0 { mat := scenarioMatrix, vec := 0 } = .ok mem1 ∧
      mem1 0 = assignDenseToSparse (scenarioSparseMemory 0) t ∧
      (∀ a, a ≠ 0 → mem1 a = scenarioSparseMemory a) ∧
      (mem1 0).size = (scenarioSparseMemory 0).size ∧
      ∀ i, i < (scenarioSparseMemory 0).size →
        (mem1 0).value i = rowSum scenarioMatrix (scenarioSparseMemory 0) i :=
  ⟨rfl, rfl, scenarioVector_fits,
    assignToSparse_into_operand Kernel.optimized 2 (fun _ => (7 : Int)) scenarioSparseMemory 0
      scenarioMatrix rfl rfl scenarioVector_fits⟩

/-! ## Assignment of the addition node to a dense vector -/

theorem scenarioProduct_fits :
    KernelFits Kernel.default 2 scenarioMatrix scenarioVector :=
  ⟨fun h => absurd rfl h, fun h => by cases h⟩

/-- Claim C18. In-place addition `a = a + b` on the assign path: when the destination `d` is
the left operand of the node, held by reference, and the left operand is no computation, the
friend `assign` is the single call `addAssign( d, b )` of the right operand, without a copy
and without a temporary; given that this call adds the values of `b` element by element,
afterwards `d[i] = a0[i] + b[i]` for every `i`, where `a0` is what `d` held before and `b[i]`
the value of the right operand before the call, and no other stored vector has changed. -/
theorem assign_in_place_left [Add α] (e : DVecDVecAddNode α) (mem : DenseMemory α) (d : Nat)
    (hsize : (mem d).size = e.size mem) (hshape : e.rhs.size mem = e.lhs.size mem)
    (hcomp : e.lhs.isComputation = false) (haddr : e.lhs.address = some d)
    (hadd : e.rhs.AddAssignAdds mem d) :
    e.assign mem d = e.rhs.addAssignTo mem d ∧
    ∃ mem1, e.assign mem d = .ok mem1 ∧ (∀ a, a ≠ d → mem1 a = mem a) ∧
      (mem1 d).size = (mem d).size ∧
      ∀ i, i < (mem d).size →
        ∃ b, e.rhs.subscript mem i = .ok b ∧ (mem1 d).data i = (mem d).data i + b := by
  have hcall : e.assign mem d = e.rhs.addAssignTo mem d := by
    unfold DVecDVecAddNode.assign
    simp [hsize, hcomp, haddr, storedIsAliased]
  obtain ⟨mem1, h1, h2, h3, h4⟩ := hadd (by rw [hshape]; exact hsize)
  exact ⟨hcall, mem1, hcall.trans h1, h2, h3, h4⟩

theorem assign_in_place_left_witness :
    (scenarioMemory 0).size
      = (DVecDVecAddNode.mk (DenseOperand.stored 0) scenarioProduct).size scenarioMemory ∧
    scenarioProduct.size scenarioMemory
      = (DenseOperand.stored 0 : DenseOperand Int).size scenarioMemory ∧
    (DenseOperand.stored 0 : DenseOperand Int).isComputation = false ∧
    (DenseOperand.stored 0 : DenseOperand Int).address = some 0 ∧
    scenarioProduct.AddAssignAdds scenarioMemory 0 ∧
    (DVecDVecAddNode.mk (DenseOperand.stored 0) scenarioProduct).useAssign = true ∧
    ((DVecDVecAddNode.mk (DenseOperand.stored 0) scenarioProduct).assign scenarioMemory 0
      = scenarioProduct.addAssignTo scenarioMemory 0 ∧
    ∃ mem1, (DVecDVecAddNode.mk (DenseOperand.stored 0) scenarioProduct).assign
        scenarioMemory 0 = .ok mem1 ∧
      (∀ a, a ≠ 0 → mem1 a = scenarioMemory a) ∧
      (mem1 0).size = (scenarioMemory 0).size ∧
      ∀ i, i < (scenarioMemory 0).size →
        ∃ b, scenarioProduct.subscript scenarioMemory i = .ok b ∧
          (mem1 0).data i = (scenarioMemory 0).data i + b) :=
  ⟨rfl, rfl, rfl, rfl, product_addAssignAdds _ _ _ _ scenarioProduct_fits _ _, rfl,
    assign_in_place_left (DVecDVecAddNode.mk (DenseOperand.stored 0) scenarioProduct)
      scenarioMemory 0 rfl rfl rfl rfl
      (product_addAssignAdds _ _ _ _ scenarioProduct_fits _ _)⟩

/-- Claim C19. In-place addition `a = b + a` on the assign path: when the destination `d` is
not a left operand that is no computation, but is the right operand of the node, held by
reference, and the right operand is no computation, the friend `assign` is the single call
`addAssign( d, b )` of the left operand; given that this call adds the values of `b` element
by element, afterwards `d[i] = b[i] + a0[i]` for every `i`, where `a0` is what `d` held
before, and no other stored vector has changed. -/
theorem assign_in_place_right [AddCommMagma α] (e : DVecDVecAddNode α) (mem : DenseMemory α)
    (d : Nat) (hsize : (mem d).size = e.size mem)
    (hleft : ¬ (e.lhs.isComputation = false ∧ e.lhs.address = some d))
    (hcomp : e.rhs.isComputation = false) (haddr : e.rhs.address = some d)
    (hadd : e.lhs.AddAssignAdds mem d) :
    e.assign mem d = e.lhs.addAssignTo mem d ∧
    ∃ mem1, e.assign mem d = .ok mem1 ∧ (∀ a, a ≠ d → mem1 a = mem a) ∧
      (mem1 d).size = (mem d).size ∧
      ∀ i, i < (mem d).size →
        ∃ b, e.lhs.subscript mem i = .ok b ∧ (mem1 d).data i = b + (mem d).data i := by
  have hcall : e.assign mem d = e.lhs.addAssignTo mem d := by
    unfold DVecDVecAddNode.assign
    have hl : (!e.lhs.isComputation && storedIsAliased d e.lhs.address) = false := by
      cases hc : e.lhs.isComputation with
      | true => simp
      | false =>
        have : e.lhs.address ≠ some d := fun h => hleft ⟨hc, h⟩
        simp [storedIsAliased, this]
    simp only [hsize, ne_eq, not_true_eq_false, if_false, hl, Bool.false_eq_true]
    simp [hcomp, haddr, storedIsAliased]
  obtain ⟨mem1, h1, h2, h3, h4⟩ := hadd hsize
  refine ⟨hcall, mem1, hcall.trans h1, h2, h3, ?_⟩
  intro i hi
  obtain ⟨b, hb, hv⟩ := h4 i hi
  exact ⟨b, hb, by rw [hv, add_comm]⟩

theorem assign_in_place_right_witness :
    (scenarioMemory 0).size
      = (DVecDVecAddNode.mk scenarioProduct (DenseOperand.stored 0)).size scenarioMemory ∧
    ¬ (scenarioProduct.isComputation = false ∧ scenarioProduct.address = some 0) ∧
    (DenseOperand.stored 0 : DenseOperand Int).isComputation = false ∧
    (DenseOperand.stored 0 : DenseOperand Int).address = some 0 ∧
    scenarioProduct.AddAssignAdds scenarioMemory 0 ∧
    (DVecDVecAddNode.mk scenarioProduct (DenseOperand.stored 0)).useAssign = true ∧
    ((DVecDVecAddNode.mk scenarioProduct (DenseOperand.stored 0)).assign scenarioMemory 0
      = scenarioProduct.addAssignTo scenarioMemory 0 ∧
    ∃ mem1, (DVecDVecAddNode.mk scenarioProduct (DenseOperand.stored 0)).assign
        scenarioMemory 0 = .ok mem1 ∧
      (∀ a, a ≠ 0 → mem1 a = scenarioMemory a) ∧
      (mem1 0).size = (scenarioMemory 0).size ∧
      ∀ i, i < (scenarioMemory 0).size →
        ∃ b, scenarioProduct.subscript scenarioMemory i = .ok b ∧
          (mem1 0).data i = b + (scenarioMemory 0).data i) :=
  ⟨rfl, by decide, rfl, rfl, product_addAssignAdds _ _ _ _ scenarioProduct_fits _ _, rfl,
    assign_in_place_right (DVecDVecAddNode.mk scenarioProduct (DenseOperand.stored 0))
      scenarioMemory 0 rfl (by decide) rfl rfl
      (product_addAssignAdds _ _ _ _ scenarioProduct_fits _ _)⟩

/-- Claim C20. Assign-into-dense of the addition node `l + r` when the destination `d`
aliases neither operand: `d` is not an operand held by reference that is no computation, and
the values of the operands do not depend on `d`. The left operand is copy-assigned into `d`
and then the right operand is add-assigned; given that these two calls copy and add the
operand values element by element, the call returns and afterwards `d[i] = l[i] + r[i]`, the
value of the element access `(l + r)[i]`, for every `i < size`, whatever `d` held before; no
other stored vector has changed. -/
theorem assign_without_alias [Add α] (e : DVecDVecAddNode α) (mem : DenseMemory α) (d : Nat)
    (hsize : (mem d).size = e.size mem) (hshape : e.rhs.size mem = e.lhs.size mem)
    (hleft : ¬ (e.lhs.isComputation = false ∧ e.lhs.address = some d))
    (hright : ¬ (e.rhs.isComputation = false ∧ e.rhs.address = some d))
    (hlAvoids : e.lhs.Avoids d) (hrAvoids : e.rhs.Avoids d)
    (hassign : ∀ mem0, (∀ a, a ≠ d → mem0 a = mem a) → e.lhs.AssignCopies mem0 d)
    (hadd : ∀ mem1, (∀ a, a ≠ d → mem1 a = mem a) → e.rhs.AddAssignAdds mem1 d) :
    ∀ mem0 : DenseMemory α, (∀ a, a ≠ d → mem0 a = mem a) →
      (mem0 d).size = (mem d).size →
      ∃ mem1 mem2, e.lhs.assignTo mem0 d = .ok mem1 ∧ e.rhs.addAssignTo mem1 d = .ok mem2 ∧
        e.assign mem0 d = .ok mem2 ∧ (∀ a, a ≠ d → mem2 a = mem a) ∧
        (mem2 d).size = (mem d).size ∧
        ∀ i, i < (mem d).size → ∃ l r, e.lhs.subscript mem i = .ok l ∧
          e.rhs.subscript mem i = .ok r ∧ e.subscript mem i = .ok (l + r) ∧
          (mem2 d).data i = l + r := by
  intro mem0 hframe0 hsize0
  have hsize' : (mem d).size = e.lhs.size mem := hsize
  obtain ⟨hl0, hls0⟩ := hlAvoids mem mem0 hframe0
  obtain ⟨mem1, h1, hframe1, hsize1, hval1⟩ := hassign mem0 hframe0 (by omega)
  have hframe1' : ∀ a, a ≠ d → mem1 a = mem a := fun a ha =>
    (hframe1 a ha).trans (hframe0 a ha)
  obtain ⟨hr1, hrs1⟩ := hrAvoids mem mem1 hframe1'
  obtain ⟨mem2, h2, hframe2, hsize2, hval2⟩ := hadd mem1 hframe1' (by omega)
  have hl : (!e.lhs.isComputation && storedIsAliased d e.lhs.address) = false := by
    cases hc : e.lhs.isComputation with
    | true => simp
    | false =>
      have : e.lhs.address ≠ some d := fun h => hleft ⟨hc, h⟩
      simp [storedIsAliased, this]
  have hr : (!e.rhs.isComputation && storedIsAliased d e.rhs.address) = false := by
    cases hc : e.rhs.isComputation with
    | true => simp
    | false =>
      have : e.rhs.address ≠ some d := fun h => hright ⟨hc, h⟩
      simp [storedIsAliased, this]
  have hcall : e.assign mem0 d = .ok mem2 := by
    unfold DVecDVecAddNode.assign
    have hs : (mem0 d).size = e.size mem0 := by
      show (mem0 d).size = e.lhs.size mem0
      omega
    simp only [hs, ne_eq, not_true_eq_false, if_false, hl, hr, Bool.false_eq_true, h1, h2]
  refine ⟨mem1, mem2, h1, h2, hcall, fun a ha => (hframe2 a ha).trans (hframe1' a ha),
    by omega, ?_⟩
  intro i hi
  obtain ⟨l, hlv, hl1⟩ := hval1 i (by omega)
  obtain ⟨r, hrv, hr2⟩ := hval2 i (by omega)
  rw [hls0] at hlv
  rw [hrs1] at hrv
  refine ⟨l, r, hlv, hrv, ?_, by rw [hr2, hl1]⟩
  unfold DVecDVecAddNode.subscript
  have hi' : i < e.lhs.size mem := by omega
  simp only [hi', if_true, hlv, hrv]

theorem assign_without_alias_witness :
    (scenarioMemory 0).size
      = (DVecDVecAddNode.mk (DenseOperand.stored 1) scenarioProduct).size scenarioMemory ∧
    scenarioProduct.size scenarioMemory
      = (DenseOperand.stored 1 : DenseOperand Int).size scenarioMemory ∧
    ¬ ((DenseOperand.stored 1 : DenseOperand Int).isComputation = false ∧
      (DenseOperand.stored 1 : DenseOperand Int).address = some 0) ∧
    ¬ (scenarioProduct.isComputation = false ∧ scenarioProduct.address = some 0) ∧
    (DenseOperand.stored 1 : DenseOperand Int).Avoids 0 ∧ scenarioProduct.Avoids 0 ∧
    (∀ mem0, (∀ a, a ≠ 0 → mem0 a = scenarioMemory a) →
      (DenseOperand.stored 1 : DenseOperand Int).AssignCopies mem0 0) ∧
    (∀ mem1, (∀ a, a ≠ 0 → mem1 a = scenarioMemory a) →
      scenarioProduct.AddAssignAdds mem1 0) ∧
    (DVecDVecAddNode.mk (DenseOperand.stored 1) scenarioProduct).useAssign = true ∧
    ∀ mem0 : DenseMemory Int, (∀ a, a ≠ 0 → mem0 a = scenarioMemory a) →
      (mem0 0).size = (scenarioMemory 0).size →
      ∃ mem1 mem2, (DenseOperand.stored 1 : DenseOperand Int).assignTo mem0 0 = .ok mem1 ∧
        scenarioProduct.addAssignTo mem1 0 = .ok mem2 ∧
        (DVecDVecAddNode.mk (DenseOperand.stored 1) scenarioProduct).assign mem0 0
          = .ok mem2 ∧
        (∀ a, a ≠ 0 → mem2 a = scenarioMemory a) ∧
        (mem2 0).size = (scenarioMemory 0).size ∧
        ∀ i, i < (scenarioMemory 0).size → ∃ l r,
          (DenseOperand.stored 1 : DenseOperand Int).subscript scenarioMemory i = .ok l ∧
          scenarioProduct.subscript scenarioMemory i = .ok r ∧
          (DVecDVecAddNode.mk (DenseOperand.stored 1) scenarioProduct).subscript
            scenarioMemory i = .ok (l + r) ∧
          (mem2 0).data i = l + r :=
  ⟨rfl, rfl, by decide, by decide, stored_avoids 1 0 (by decide),
    product_avoids _ _ _ _ 0, fun mem0 _ => stored_assignCopies 1 mem0 0,
    fun mem1 _ => product_addAssignAdds _ _ _ _ scenarioProduct_fits mem1 0, rfl,
    assign_without_alias (DVecDVecAddNode.mk (DenseOperand.stored 1) scenarioProduct)
      scenarioMemory 0 rfl rfl (by decide) (by decide) (stored_avoids 1 0 (by decide))
      (product_avoids _ _ _ _ 0) (fun mem0 _ => stored_assignCopies 1 mem0 0)
      (fun mem1 _ => product_addAssignAdds _ _ _ _ scenarioProduct_fits mem1 0)⟩

/-! ## Alias queries and evaluation strategy of the addition node -/

/-- Claim C25. For every address `ptr`, `isAliased( ptr )` of an addition node is true exactly
when `isAliased( ptr )` of its left operand or of its right operand is true, whether or not
the operand is a computation: a node with a stored vector at `ptr` as its left or as its
right operand is aliased with `ptr`. -/
theorem addNode_isAliased_iff [Add α] [Sub α] [Mul α] (e : DVecDVecAddNode α) (ptr : Nat) :
    (e.isAliased ptr = true ↔ e.lhs.isAliased ptr = true ∨ e.rhs.isAliased ptr = true) ∧
    (DenseOperand.stored ptr : DenseOperand α).isComputation = false ∧
    (∀ o : DenseOperand α,
      (DVecDVecAddNode.mk (DenseOperand.stored ptr) o).isAliased ptr = true ∧
      (DVecDVecAddNode.mk o (DenseOperand.stored ptr)).isAliased ptr = true) := by
  refine ⟨by simp [DVecDVecAddNode.isAliased], rfl, fun o => ⟨?_, ?_⟩⟩
  · simp [DVecDVecAddNode.isAliased, DenseOperand.stored]
  · simp [DVecDVecAddNode.isAliased, DenseOperand.stored]

/-- Claim C26. For every address `ptr`, `canAlias( ptr )` of an addition node is true exactly
when one of its operands is a computation and reports `ptr`, through its `isAliased` if the
operand requires an evaluation and through its `canAlias` otherwise; when neither operand is a
computation, `canAlias( ptr )` is false for every `ptr`, also for a node of two stored vectors
one of which is stored at `ptr`. -/
theorem addNode_canAlias_iff [Add α] [Sub α] [Mul α] (e : DVecDVecAddNode α) (ptr : Nat) :
    (e.canAlias ptr = true ↔
      (e.lhs.isComputation = true ∧
        (if e.lhs.requiresEvaluation = true then e.lhs.isAliased ptr = true
          else e.lhs.canAlias ptr = true)) ∨
      (e.rhs.isComputation = true ∧
        (if e.rhs.requiresEvaluation = true then e.rhs.isAliased ptr = true
          else e.rhs.canAlias ptr = true))) ∧
    (e.lhs.isComputation = false → e.rhs.isComputation = false →
      ∀ p, e.canAlias p = false) ∧
    (∀ a : Nat,
      (DVecDVecAddNode.mk (DenseOperand.stored ptr : DenseOperand α)
        (DenseOperand.stored a)).canAlias ptr = false ∧
      (DVecDVecAddNode.mk (DenseOperand.stored a : DenseOperand α)
        (DenseOperand.stored ptr)).canAlias ptr = false) := by
  refine ⟨?_, ?_, fun a => ⟨rfl, rfl⟩⟩
  · unfold DVecDVecAddNode.canAlias
    cases e.lhs.requiresEvaluation <;> cases e.rhs.requiresEvaluation <;> simp
  · intro hl hr p
    simp [DVecDVecAddNode.canAlias, hl, hr]

/-- Claim C27. The switch `useAssign` of an addition node is true exactly when the left
operand requires an evaluation, or the right operand requires an evaluation, or the return
type of the subscript operator of one of the operands is a temporary, which is when
`returnExpr` is false; for two operands that neither require an evaluation nor return
temporaries the friends of the assign family are disabled, and assigning the node reads it
element by element through its subscript operator. -/
theorem addNode_useAssign_iff [Add α] (e : DVecDVecAddNode α) :
    (e.useAssign = true ↔
      e.lhs.requiresEvaluation = true ∨ e.rhs.requiresEvaluation = true ∨
        e.returnExpr = false) ∧
    (e.returnExpr = false ↔
      e.lhs.returnsTemporary = true ∨ e.rhs.returnsTemporary = true) ∧
    (e.lhs.requiresEvaluation = false → e.rhs.requiresEvaluation = false →
      e.lhs.returnsTemporary = false → e.rhs.returnsTemporary = false →
      e.useAssign = false ∧
      ∀ mem d, e.assignTo mem d
        = elementwiseAssign (fun _ value => value) e.subscript mem d) := by
  refine ⟨?_, ?_, ?_⟩
  · unfold DVecDVecAddNode.useAssign
    cases e.lhs.requiresEvaluation <;> cases e.rhs.requiresEvaluation <;>
      cases e.returnExpr <;> simp
  · unfold DVecDVecAddNode.returnExpr
    cases e.lhs.returnsTemporary <;> cases e.rhs.returnsTemporary <;> simp
  · intro h1 h2 h3 h4
    have hu : e.useAssign = false := by
      simp [DVecDVecAddNode.useAssign, DVecDVecAddNode.returnExpr, h1, h2, h3, h4]
    refine ⟨hu, fun mem d => ?_⟩
    simp [DVecDVecAddNode.assignTo, hu]

/-! ## Overload resolution of the kernels -/

/-- Claim C29. The vectorized kernel is the one overload resolution selects exactly when
`UseVectorizedKernel` holds, that is, when the type `T1` of the destination vector and the
type `T2` of the evaluated matrix are both vectorizable, the element type of `T1` is the
element type of `T2` and the element type of the sparse vector `T3`, and this element type
supports the block addition and the block multiplication. -/
theorem vectorized_selected_iff (t : KernelTraits) :
    (selectKernel t = some Kernel.vectorized ↔ UseVectorizedKernel t = true) ∧
    (UseVectorizedKernel t = true ↔
      t.t1Vectorizable = true ∧ t.t2Vectorizable = true ∧ t.sameElementT1T2 = true ∧
        t.sameElementT1T3 = true ∧ t.intrinsicAddition = true ∧
        t.intrinsicMultiplication = true) := by
  rcases t with ⟨a, b, c, d, e, f, g, h⟩
  cases a <;> cases b <;> cases c <;> cases d <;> cases e <;> cases f <;> cases g <;>
    cases h <;> decide

/-- Claim C30. The optimized kernel is the one overload resolution selects exactly when
`UseOptimizedKernel` holds, that is, when the vectorized kernel is not applicable and neither
the element type of the destination vector `T1` nor the element type `VET` of the sparse
vector operand is resizable; the element type of the matrix is not tested. -/
theorem optimized_selected_iff (t : KernelTraits) :
    (selectKernel t = some Kernel.optimized ↔ UseOptimizedKernel t = true) ∧
    (UseOptimizedKernel t = true ↔
      UseVectorizedKernel t = false ∧ t.resizableT1Element = false ∧
        t.resizableVET = false) := by
  rcases t with ⟨a, b, c, d, e, f, g, h⟩
  cases a <;> cases b <;> cases c <;> cases d <;> cases e <;> cases f <;> cases g <;>
    cases h <;> decide

/-! ## Block accessor of the addition node -/

/-- Claim C28. For blocks of `w >= 1` lanes and every index that is a multiple of `w` and
smaller than `size()`, `get( index )` of the addition node returns the lane-wise sum of the
blocks of its two operands at that index: lane `k` holds `lhs[index+k] + rhs[index+k]`, which
is the value the subscript operator returns at `index + k` wherever that index is below
`size()`. At an index below `size()` that is not a multiple of `w` the call violates the
asserted precondition. -/
theorem addExpr_get_lanes [Add α] (e : DVecDVecAddExpr α) (w index : Nat) (_hw : 0 < w)
    (hindex : index < e.size) :
    (index % w = 0 →
      ∃ block, e.get w index = .ok block ∧ block = e.lhs.get w index + e.rhs.get w index ∧
        ∀ k : Fin w, block k = e.lhs.data (index + k.val) + e.rhs.data (index + k.val) ∧
          (index + k.val < e.size → e.subscript (index + k.val) = .ok (block k))) ∧
    (index % w ≠ 0 →
      e.get w index = .error (.internalAssert "Invalid vector access index")) := by
  have hi : index < e.lhs.size := hindex
  constructor
  · intro hmod
    refine ⟨_, ?_, rfl, ?_⟩
    · unfold DVecDVecAddExpr.get
      simp only [hi, not_true_eq_false, if_false, hmod, ne_eq]
    · intro k
      refine ⟨rfl, ?_⟩
      intro hk
      have hk' : index + k.val < e.lhs.size := hk
      unfold DVecDVecAddExpr.subscript
      simp only [hk', if_true]
      rfl
  · intro hmod
    unfold DVecDVecAddExpr.get
    simp [hi, hmod]

theorem addExpr_get_lanes_witness :
    0 < 2 ∧
    0 < (DVecDVecAddExpr.mk scenarioTarget scenarioOperand).size ∧
    (0 % 2 = 0 →
      ∃ block, (DVecDVecAddExpr.mk scenarioTarget scenarioOperand).get 2 0 = .ok block ∧
        block = scenarioTarget.get 2 0 + scenarioOperand.get 2 0 ∧
        ∀ k : Fin 2,
          block k = scenarioTarget.data (0 + k.val) + scenarioOperand.data (0 + k.val) ∧
          (0 + k.val < (DVecDVecAddExpr.mk scenarioTarget scenarioOperand).size →
            (DVecDVecAddExpr.mk scenarioTarget scenarioOperand).subscript (0 + k.val)
              = .ok (block k))) ∧
    (0 % 2 ≠ 0 →
      (DVecDVecAddExpr.mk scenarioTarget scenarioOperand).get 2 0
        = .error (.internalAssert "Invalid vector access index")) :=
  ⟨by decide, by decide,
    addExpr_get_lanes (DVecDVecAddExpr.mk scenarioTarget scenarioOperand) 2 0 (by decide)
      (by decide)⟩

/-! ## Add-assignment, subtract-assignment and multiply-assignment of the nodes -/

/-- Claim C21, evaluated where it fails: for `d += A*x + d` and `d -= A*x + d`, with the
destination `d = [7, 7]` stored at address `0` being the right operand of the node and
`A*x = [10, 20]` its left operand, the node is on the assign path and `canAlias( d )` is
false, the operands have the values `l0[0] = 10` and `r0[0] = 7` before the call, and the
friends leave `d[0] = 34` and `d[0] = 0`, whereas `d0[0] + (l0[0] + r0[0]) = 24` and
`d0[0] - (l0[0] + r0[0]) = -10`. -/
theorem addAssign_into_right_operand :
    (DVecDVecAddNode.mk scenarioProduct (DenseOperand.stored 0)).useAssign = true ∧
    (DVecDVecAddNode.mk scenarioProduct (DenseOperand.stored 0)).canAlias 0 = false ∧
    (scenarioMemory 0).data 0 = 7 ∧
    scenarioProduct.subscript scenarioMemory 0 = .ok 10 ∧
    (DenseOperand.stored 0 : DenseOperand Int).subscript scenarioMemory 0 = .ok 7 ∧
    (∃ mem1, (DVecDVecAddNode.mk scenarioProduct (DenseOperand.stored 0)).addAssign
        scenarioMemory 0 = .ok mem1 ∧ (mem1 0).data 0 = 34 ∧
      (mem1 0).data 0 ≠ (scenarioMemory 0).data 0 + (10 + 7)) ∧
    (∃ mem1, (DVecDVecAddNode.mk scenarioProduct (DenseOperand.stored 0)).subAssign
        scenarioMemory 0 = .ok mem1 ∧ (mem1 0).data 0 = 0 ∧
      (mem1 0).data 0 ≠ (scenarioMemory 0).data 0 - (10 + 7)) :=
  ⟨rfl, rfl, rfl, rfl, rfl, ⟨_, rfl, by decide, by decide⟩,
    ⟨_, rfl, by decide, by decide⟩⟩

/-- Claim C22. Add-into-dense of the addition node `l + r` when the destination `d` aliases
neither operand (it is enough that the values of the right operand do not depend on `d`): `l`
and then `r` are add-assigned into `d`; given that these two calls add the operand values
element by element, the call returns and afterwards `d[i] = d0[i] + l[i] + r[i]` for every
`i < size`, which is `d0[i]` plus the value of the element access `(l + r)[i]`; no other
stored vector has changed. -/
theorem addAssign_without_alias [AddSemigroup α] (e : DVecDVecAddNode α)
    (mem : DenseMemory α) (d : Nat)
    (hsize : (mem d).size = e.size mem) (hshape : e.rhs.size mem = e.lhs.size mem)
    (hrAvoids : e.rhs.Avoids d) (hl : e.lhs.AddAssignAdds mem d)
    (hr : ∀ mem1, (∀ a, a ≠ d → mem1 a = mem a) → e.rhs.AddAssignAdds mem1 d) :
    ∃ mem1 mem2, e.lhs.addAssignTo mem d = .ok mem1 ∧ e.rhs.addAssignTo mem1 d = .ok mem2 ∧
      e.addAssign mem d = .ok mem2 ∧ (∀ a, a ≠ d → mem2 a = mem a) ∧
      (mem2 d).size = (mem d).size ∧
      ∀ i, i < (mem d).size → ∃ l r, e.lhs.subscript mem i = .ok l ∧
        e.rhs.subscript mem i = .ok r ∧ e.subscript mem i = .ok (l + r) ∧
        (mem2 d).data i = (mem d).data i + l + r ∧
        (mem2 d).data i = (mem d).data i + (l + r) := by
  have hsize' : (mem d).size = e.lhs.size mem := hsize
  obtain ⟨mem1, h1, hframe1, hsize1, hval1⟩ := hl hsize'
  obtain ⟨hr1, hrs1⟩ := hrAvoids mem mem1 hframe1
  obtain ⟨mem2, h2, hframe2, hsize2, hval2⟩ := hr mem1 hframe1 (by omega)
  have hcall : e.addAssign mem d = .ok mem2 := by
    unfold DVecDVecAddNode.addAssign
    simp only [hsize, ne_eq, not_true_eq_false, if_false, h1, h2]
  refine ⟨mem1, mem2, h1, h2, hcall, fun a ha => (hframe2 a ha).trans (hframe1 a ha),
    by omega, ?_⟩
  intro i hi
  obtain ⟨l, hlv, hl1⟩ := hval1 i hi
  obtain ⟨r, hrv, hr2⟩ := hval2 i (by omega)
  rw [hrs1] at hrv
  have hres : (mem2 d).data i = (mem d).data i + l + r := by rw [hr2, hl1]
  refine ⟨l, r, hlv, hrv, ?_, hres, by rw [hres, add_assoc]⟩
  unfold DVecDVecAddNode.subscript
  have hi' : i < e.lhs.size mem := by omega
  simp only [hi', if_true, hlv, hrv]

theorem addAssign_without_alias_witness :
    (scenarioMemory 0).size
      = (DVecDVecAddNode.mk (DenseOperand.stored 1) scenarioProduct).size scenarioMemory ∧
    scenarioProduct.size scenarioMemory
      = (DenseOperand.stored 1 : DenseOperand Int).size scenarioMemory ∧
    scenarioProduct.Avoids 0 ∧
    (DenseOperand.stored 1 : DenseOperand Int).AddAssignAdds scenarioMemory 0 ∧
    (∀ mem1, (∀ a, a ≠ 0 → mem1 a = scenarioMemory a) →
      scenarioProduct.AddAssignAdds mem1 0) ∧
    (DVecDVecAddNode.mk (DenseOperand.stored 1) scenarioProduct).useAssign = true ∧
    ∃ mem1 mem2, (DenseOperand.stored 1 : DenseOperand Int).addAssignTo scenarioMemory 0
        = .ok mem1 ∧
      scenarioProduct.addAssignTo mem1 0 = .ok mem2 ∧
      (DVecDVecAddNode.mk (DenseOperand.stored 1) scenarioProduct).addAssign scenarioMemory 0
        = .ok mem2 ∧
      (∀ a, a ≠ 0 → mem2 a = scenarioMemory a) ∧
      (mem2 0).size = (scenarioMemory 0).size ∧
      ∀ i, i < (scenarioMemory 0).size → ∃ l r,
        (DenseOperand.stored 1 : DenseOperand Int).subscript scenarioMemory i = .ok l ∧
        scenarioProduct.subscript scenarioMemory i = .ok r ∧
        (DVecDVecAddNode.mk (DenseOperand.stored 1) scenarioProduct).subscript
          scenarioMemory i = .ok (l + r) ∧
        (mem2 0).data i = (scenarioMemory 0).data i + l + r ∧
        (mem2 0).data i = (scenarioMemory 0).data i + (l + r) :=
  ⟨rfl, rfl, product_avoids _ _ _ _ 0, stored_addAssignAdds 1 scenarioMemory 0,
    fun mem1 _ => product_addAssignAdds _ _ _ _ scenarioProduct_fits mem1 0, rfl,
    addAssign_without_alias (DVecDVecAddNode.mk (DenseOperand.stored 1) scenarioProduct)
      scenarioMemory 0 rfl rfl (product_avoids _ _ _ _ 0)
      (stored_addAssignAdds 1 scenarioMemory 0)
      (fun mem1 _ => product_addAssignAdds _ _ _ _ scenarioProduct_fits mem1 0)⟩

/-- Claim C23. Multiply-assign-to-dense of `A*x`, for a destination `y` of length `A.rows()`
and each kernel: the product is first evaluated into a temporary `t`, with
`t[i] = sum over the stored elements (j, v) of x of A(i,j) * v` for every `i < A.rows()`, the
zero element when `x` has no stored elements, and then multiplied element by element into the
destination, so that afterwards `y[i] = y0[i] * t[i]` for every `i < A.rows()`; no other
stored vector has changed. -/
theorem multAssign_product [Semiring α] (k : Kernel) (w : Nat) (fresh : Nat → α)
    (mem : DenseMemory α) (d : Nat) (e : TDMatSVecMultExpr α)
    (hsize : (mem d).size = e.mat.rows) (hfit : KernelFits k w e.mat e.vec) :
    ∃ t mem1, e.tmp k w fresh = .ok t ∧ t.size = e.mat.rows ∧
      (∀ i, i < e.mat.rows → t.data i = rowSum e.mat e.vec i) ∧
      (e.vec.elements = [] → ∀ i, i < e.mat.rows → t.data i = 0) ∧
      TDMatSVecMultExpr.multAssign k w fresh mem d e = .ok mem1 ∧
      (∀ a, a ≠ d → mem1 a = mem a) ∧ (mem1 d).size = (mem d).size ∧
      ∀ i, i < e.mat.rows → (mem1 d).data i = (mem d).data i * t.data i := by
  obtain ⟨t, ht, hts, hval⟩ := assign_values k w { size := e.size, data := fresh } e.mat e.vec
    rfl hfit
  have htmp : e.tmp k w fresh = .ok t := ht
  have hloop : elementwiseAssign (fun old value => old * value)
      (fun _ i => .ok (t.data i)) mem d
      = .ok (Function.update mem d { mem d with
          data := fun k =>
            if k < (mem d).size then (mem d).data k * t.data k else (mem d).data k }) :=
    elementwiseAssign_eq (fun old value => old * value)
      (fun _ i => .ok (t.data i)) mem d (fun i => t.data i) (fun _ _ _ _ => rfl)
  refine ⟨t, Function.update mem d { mem d with
      data := fun k =>
        if k < (mem d).size then (mem d).data k * t.data k else (mem d).data k },
    htmp, hts, hval, ?_, ?_, ?_, ?_, ?_⟩
  · intro hx i hi
    rw [hval i hi]
    simp [rowSum, hx]
  · unfold TDMatSVecMultExpr.multAssign
    have hs : (mem d).size = e.size := hsize
    simp only [hs, ne_eq, not_true_eq_false, if_false, htmp]
    rw [← hs]
    exact hloop
  · intro a ha
    exact Function.update_noteq ha _ _
  · simp
  · intro i hi
    have hi' : i < (mem d).size := by omega
    simp [hi']

theorem multAssign_product_witness :
    (scenarioMemory 0).size = scenarioMatrix.rows ∧
    KernelFits Kernel.default 2 scenarioMatrix scenarioVector ∧
    ∃ t mem1, TDMatSVecMultExpr.tmp Kernel.default 2 (fun _ => (3 : Int))
        { mat := scenarioMatrix, vec := scenarioVector } = .ok t ∧
      t.size = scenarioMatrix.rows ∧
      (∀ i, i < scenarioMatrix.rows → t.data i = rowSum scenarioMatrix scenarioVector i) ∧
      (scenarioVector.elements = [] → ∀ i, i < scenarioMatrix.rows → t.data i = 0) ∧
      TDMatSVecMultExpr.multAssign Kernel.default 2 (fun _ => (3 : Int)) scenarioMemory 0
        { mat := scenarioMatrix, vec := scenarioVector } = .ok mem1 ∧
      (∀ a, a ≠ 0 → mem1 a = scenarioMemory a) ∧
      (mem1 0).size = (scenarioMemory 0).size ∧
      ∀ i, i < scenarioMatrix.rows → (mem1 0).data i = (scenarioMemory 0).data i * t.data i :=
  ⟨rfl, scenarioProduct_fits,
    multAssign_product Kernel.default 2 (fun _ => (3 : Int)) scenarioMemory 0
      { mat := scenarioMatrix, vec := scenarioVector } rfl scenarioProduct_fits⟩

/-- The friend `assign` into a destination that neither operand is stored at and that the
values of the operands do not depend on: what it leaves in the memory, given the contracts of
the two calls it makes. -/
theorem assign_of_contracts [Add α] (e : DVecDVecAddNode α) (mem : DenseMemory α) (d : Nat)
    (hsize : (mem d).size = e.size mem) (hshape : e.rhs.size mem = e.lhs.size mem)
    (hleft : ¬ (e.lhs.isComputation = false ∧ e.lhs.address = some d))
    (hright : ¬ (e.rhs.isComputation = false ∧ e.rhs.address = some d))
    (hrAvoids : e.rhs.Avoids d) (hassign : e.lhs.AssignCopies mem d)
    (hadd : ∀ mem1, (∀ a, a ≠ d → mem1 a = mem a) → e.rhs.AddAssignAdds mem1 d) :
    ∃ mem2, e.assign mem d = .ok mem2 ∧ (∀ a, a ≠ d → mem2 a = mem a) ∧
      (mem2 d).size = (mem d).size ∧
      ∀ i, i < (mem d).size → ∃ l r, e.lhs.subscript mem i = .ok l ∧
        e.rhs.subscript mem i = .ok r ∧ (mem2 d).data i = l + r := by
  have hsize' : (mem d).size = e.lhs.size mem := hsize
  obtain ⟨mem1, h1, hframe1, hsize1, hval1⟩ := hassign hsize'
  obtain ⟨hr1, hrs1⟩ := hrAvoids mem mem1 hframe1
  obtain ⟨mem2, h2, hframe2, hsize2, hval2⟩ := hadd mem1 hframe1 (by omega)
  have hl : (!e.lhs.isComputation && storedIsAliased d e.lhs.address) = false := by
    cases hc : e.lhs.isComputation with
    | true => simp
    | false =>
      have : e.lhs.address ≠ some d := fun h => hleft ⟨hc, h⟩
      simp [storedIsAliased, this]
  have hr : (!e.rhs.isComputation && storedIsAliased d e.rhs.address) = false := by
    cases hc : e.rhs.isComputation with
    | true => simp
    | false =>
      have : e.rhs.address ≠ some d := fun h => hright ⟨hc, h⟩
      simp [storedIsAliased, this]
  have hcall : e.assign mem d = .ok mem2 := by
    unfold DVecDVecAddNode.assign
    simp only [hsize, ne_eq, not_true_eq_false, if_false, hl, hr, Bool.false_eq_true, h1, h2]
  refine ⟨mem2, hcall, fun a ha => (hframe2 a ha).trans (hframe1 a ha), by omega, ?_⟩
  intro i hi
  obtain ⟨l, hlv, hl1⟩ := hval1 i hi
  obtain ⟨r, hrv, hr2⟩ := hval2 i (by omega)
  rw [hrs1] at hrv
  exact ⟨l, r, hlv, hrv, by rw [hr2, hl1]⟩

/-- Claim C24. Multiply-into-dense of the addition node `l + r`, on the assign path: the sum
is first evaluated into a temporary, a new vector at an address `t` that is neither the
destination nor an operand, while every other stored vector, the destination included, stays
as it is; the temporary is then multiplied element by element into the destination. Given
that the calls that fill the temporary copy and add the operand values element by element,
for every destination `d`, also when `d` is the storage of `l` or of `r`, the call returns and
afterwards `d[i] = d0[i] * (l0[i] + r0[i])` for every `i`, with `l0`, `r0` and `d0` the values
before the call. -/
theorem multAssign_sum_by_temporary [Add α] [Mul α] (e : DVecDVecAddNode α)
    (mem : DenseMemory α) (d t : Nat) (fresh : Nat → α) (huse : e.useAssign = true)
    (hsize : (mem d).size = e.size mem) (hshape : e.rhs.size mem = e.lhs.size mem)
    (htd : t ≠ d) (hlt : e.lhs.address ≠ some t) (hrt : e.rhs.address ≠ some t)
    (hlAvoids : e.lhs.Avoids t) (hrAvoids : e.rhs.Avoids t)
    (hassign : ∀ mem0, (∀ a, a ≠ t → mem0 a = mem a) → e.lhs.AssignCopies mem0 t)
    (hadd : ∀ mem1, (∀ a, a ≠ t → mem1 a = mem a) → e.rhs.AddAssignAdds mem1 t) :
    ∃ mem1 mem2, e.tmp mem t fresh = .ok mem1 ∧ (∀ a, a ≠ t → mem1 a = mem a) ∧
      e.multAssign mem d t fresh = .ok mem2 ∧
      (∀ a, a ≠ d → a ≠ t → mem2 a = mem a) ∧ (mem2 d).size = (mem d).size ∧
      ∀ i, i < (mem d).size → ∃ l r, e.lhs.subscript mem i = .ok l ∧
        e.rhs.subscript mem i = .ok r ∧ (mem1 t).data i = l + r ∧
        (mem2 d).data i = (mem d).data i * (l + r) := by
  have hframe0 : ∀ a, a ≠ t →
      (Function.update mem t { size := e.size mem, data := fresh } : DenseMemory α) a
        = mem a :=
    fun a ha => Function.update_noteq ha _ _
  obtain ⟨hl0, hls0⟩ := hlAvoids mem _ hframe0
  obtain ⟨hr0, hrs0⟩ := hrAvoids mem _ hframe0
  have hsize0 : ((Function.update mem t { size := e.size mem, data := fresh } :
      DenseMemory α) t).size
      = e.size (Function.update mem t { size := e.size mem, data := fresh }) := by
    rw [Function.update_same]
    exact hl0.symm
  obtain ⟨mem1, h1, hframe1, hsize1, hval1⟩ := assign_of_contracts e
    (Function.update mem t { size := e.size mem, data := fresh }) t hsize0
    (by rw [hr0, hl0]; exact hshape) (fun h => hlt h.2) (fun h => hrt h.2)
    (fun m m1 h => hrAvoids m m1 h) (hassign _ hframe0)
    (fun m1 h => hadd m1 (fun a ha => (h a ha).trans (hframe0 a ha)))
  have hframe1' : ∀ a, a ≠ t → mem1 a = mem a :=
    fun a ha => (hframe1 a ha).trans (hframe0 a ha)
  have htmp : e.tmp mem t fresh = .ok mem1 := by
    unfold DVecDVecAddNode.tmp DVecDVecAddNode.assignTo
    simp only [huse, if_true]
    exact h1
  have hd1 : mem1 d = mem d := hframe1' d (fun h => htd h.symm)
  have hloop : elementwiseAssign (fun old value => old * value)
      (fun mem i => .ok ((mem t).data i)) mem1 d
      = .ok (Function.update mem1 d { mem1 d with
          data := fun k =>
            if k < (mem1 d).size then (mem1 d).data k * (mem1 t).data k
            else (mem1 d).data k }) :=
    elementwiseAssign_eq (fun old value => old * value)
      (fun mem i => .ok ((mem t).data i)) mem1 d (fun i => (mem1 t).data i)
      (fun i _ m h => by simp only [h t])
  refine ⟨mem1, Function.update mem1 d { mem1 d with
      data := fun k =>
        if k < (mem1 d).size then (mem1 d).data k * (mem1 t).data k
        else (mem1 d).data k },
    htmp, hframe1', ?_, ?_, ?_, ?_⟩
  · unfold DVecDVecAddNode.multAssign
    simp only [hsize, ne_eq, not_true_eq_false, if_false, htmp]
    exact hloop
  · intro a had hat
    rw [Function.update_noteq had]
    exact hframe1' a hat
  · rw [Function.update_same]
    simp [hd1]
  · intro i hi
    have hi1 : i < ((Function.update mem t { size := e.size mem, data := fresh } :
        DenseMemory α) t).size := by
      rw [Function.update_same]
      show i < e.size mem
      omega
    obtain ⟨l, r, hlv, hrv, hsum⟩ := hval1 i hi1
    rw [hls0] at hlv
    rw [hrs0] at hrv
    refine ⟨l, r, hlv, hrv, hsum, ?_⟩
    rw [Function.update_same]
    simp only [hd1, hi, if_true, hsum]

theorem multAssign_sum_by_temporary_witness :
    (DVecDVecAddNode.mk (DenseOperand.stored 0) scenarioProduct).useAssign = true ∧
    (scenarioMemory 0).size
      = (DVecDVecAddNode.mk (DenseOperand.stored 0) scenarioProduct).size scenarioMemory ∧
    scenarioProduct.size scenarioMemory
      = (DenseOperand.stored 0 : DenseOperand Int).size scenarioMemory ∧
    5 ≠ 0 ∧ (DenseOperand.stored 0 : DenseOperand Int).address ≠ some 5 ∧
    scenarioProduct.address ≠ some 5 ∧
    (DenseOperand.stored 0 : DenseOperand Int).Avoids 5 ∧ scenarioProduct.Avoids 5 ∧
    (∀ mem0, (∀ a, a ≠ 5 → mem0 a = scenarioMemory a) →
      (DenseOperand.stored 0 : DenseOperand Int).AssignCopies mem0 5) ∧
    (∀ mem1, (∀ a, a ≠ 5 → mem1 a = scenarioMemory a) →
      scenarioProduct.AddAssignAdds mem1 5) ∧
    ∃ mem1 mem2, (DVecDVecAddNode.mk (DenseOperand.stored 0) scenarioProduct).tmp
        scenarioMemory 5 (fun _ => 3) = .ok mem1 ∧
      (∀ a, a ≠ 5 → mem1 a = scenarioMemory a) ∧
      (DVecDVecAddNode.mk (DenseOperand.stored 0) scenarioProduct).multAssign
        scenarioMemory 0 5 (fun _ => 3) = .ok mem2 ∧
      (∀ a, a ≠ 0 → a ≠ 5 → mem2 a = scenarioMemory a) ∧
      (mem2 0).size = (scenarioMemory 0).size ∧
      ∀ i, i < (scenarioMemory 0).size → ∃ l r,
        (DenseOperand.stored 0 : DenseOperand Int).subscript scenarioMemory i = .ok l ∧
        scenarioProduct.subscript scenarioMemory i = .ok r ∧ (mem1 5).data i = l + r ∧
        (mem2 0).data i = (scenarioMemory 0).data i * (l + r) :=
  ⟨rfl, rfl, rfl, by decide, by decide, by decide, stored_avoids 0 5 (by decide),
    product_avoids _ _ _ _ 5, fun mem0 _ => stored_assignCopies 0 mem0 5,
    fun mem1 _ => product_addAssignAdds _ _ _ _ scenarioProduct_fits mem1 5,
    multAssign_sum_by_temporary (DVecDVecAddNode.mk (DenseOperand.stored 0) scenarioProduct)
      scenarioMemory 0 5 (fun _ => 3) rfl rfl rfl (by decide) (by decide) (by decide)
      (stored_avoids 0 5 (by decide)) (product_avoids _ _ _ _ 5)
      (fun mem0 _ => stored_assignCopies 0 mem0 5)
      (fun mem1 _ => product_addAssignAdds _ _ _ _ scenarioProduct_fits mem1 5)⟩

/-! ## Selection of the default kernel and totality of the dispatch -/

/-- Claim C31, the claim refuted. For element types that differ and are not resizable, a case
of type mismatch in which the vectorized kernel is not applicable, overload resolution selects
the optimized kernel and not the default kernel. -/
theorem mismatch_selects_optimized :
    mismatchTraits.sameElementT1T2 = false ∧ mismatchTraits.sameElementT1T3 = false ∧
    UseVectorizedKernel mismatchTraits = false ∧
    UseDefaultKernel mismatchTraits = false ∧
    selectKernel mismatchTraits = some Kernel.optimized ∧
    selectKernel mismatchTraits ≠ some Kernel.default := by
  decide

/-- Claim C31, amended. The default kernel is the one overload resolution selects exactly when
`UseDefaultKernel` holds, that is, when the vectorized kernel is not applicable and the element
type of the destination vector `T1` or the element type `VET` of the sparse vector operand is
resizable. Element types that do not match make the vectorized kernel inapplicable, but select
the default kernel only together with such a resizable element type, and the optimized kernel
otherwise. -/
theorem default_selected_iff (t : KernelTraits) :
    (selectKernel t = some Kernel.default ↔ UseDefaultKernel t = true) ∧
    (UseDefaultKernel t = true ↔
      UseVectorizedKernel t = false ∧
        (t.resizableT1Element = true ∨ t.resizableVET = true)) ∧
    ((t.sameElementT1T2 = false ∨ t.sameElementT1T3 = false) →
      UseVectorizedKernel t = false ∧
      (selectKernel t = some Kernel.default ↔
        (t.resizableT1Element = true ∨ t.resizableVET = true)) ∧
      (selectKernel t = some Kernel.optimized ↔
        (t.resizableT1Element = false ∧ t.resizableVET = false))) := by
  rcases t with ⟨a, b, c, d, e, f, g, h⟩
  cases a <;> cases b <;> cases c <;> cases d <;> cases e <;> cases f <;> cases g <;>
    cases h <;> decide

/-- Claim C32. Kernel dispatch is total and unambiguous: for every combination of the
capability flags exactly one of `UseVectorizedKernel`, `UseOptimizedKernel` and
`UseDefaultKernel` is true, so exactly one overload of each `select*Kernel` function is
enabled and every call resolves to that one kernel. -/
theorem kernel_dispatch_total (t : KernelTraits) :
    ((UseVectorizedKernel t = true ∧ UseOptimizedKernel t = false ∧
        UseDefaultKernel t = false) ∨
      (UseVectorizedKernel t = false ∧ UseOptimizedKernel t = true ∧
        UseDefaultKernel t = false) ∨
      (UseVectorizedKernel t = false ∧ UseOptimizedKernel t = false ∧
        UseDefaultKernel t = true)) ∧
    (∃ k, enabledKernels t = [k] ∧ selectKernel t = some k) ∧
    (selectKernel t = some Kernel.vectorized ↔ UseVectorizedKernel t = true) ∧
    (selectKernel t = some Kernel.optimized ↔ UseOptimizedKernel t = true) ∧
    (selectKernel t = some Kernel.default ↔ UseDefaultKernel t = true) := by
  rcases t with ⟨a, b, c, d, e, f, g, h⟩
  cases a <;> cases b <;> cases c <;> cases d <;> cases e <;> cases f <;> cases g <;>
    cases h <;> exact ⟨by decide, ⟨_, rfl, rfl⟩, by decide, by decide, by decide⟩

/-! ## Evaluation of the matrix operand -/

/-- Claim C33, the claim refuted. A matrix operand that is a computation whose composite type
is its result type, with an element type other than that of the sparse vector, does not meet
the four conditions: `evaluate` is off and `LT` is the composite type `MCT`; since `MCT` is the
result type, the operand is materialised all the same. -/
theorem materialised_without_evaluate :
    evaluatedOperandTraits.sameElementVETMET = false ∧
    TDMatSVecMultExpr.evaluate evaluatedOperandTraits = false ∧
    TDMatSVecMultExpr.LT evaluatedOperandTraits = EvaluatedType.composite ∧
    TDMatSVecMultExpr.materialises evaluatedOperandTraits = true := by
  decide

/-- Claim C33, amended. The switch `evaluate` is on exactly when the matrix operand is a
computation, is not vectorizable, its element type is the element type of the sparse vector,
and that element type is BLAS compatible; the evaluated operand `A` has the type `const MRT`
by this switch exactly then, and the composite type `MCT` of the operand otherwise. The
operand is therefore materialised into its result type before the kernel runs exactly when
the four conditions hold or its composite type is already its result type. A matrix operand
that is a stored container, which is no computation and whose composite type is a reference,
is never materialised. -/
theorem evaluate_iff (t : MatrixOperandTraits) :
    (TDMatSVecMultExpr.evaluate t = true ↔
      t.isComputation = true ∧ t.vectorizable = false ∧ t.sameElementVETMET = true ∧
        t.blasCompatibleVET = true) ∧
    (TDMatSVecMultExpr.LT t = EvaluatedType.result ↔ TDMatSVecMultExpr.evaluate t = true) ∧
    (TDMatSVecMultExpr.LT t = EvaluatedType.composite ↔
      TDMatSVecMultExpr.evaluate t = false) ∧
    (TDMatSVecMultExpr.materialises t = true ↔
      TDMatSVecMultExpr.evaluate t = true ∨ t.compositeIsResult = true) ∧
    (t.compositeIsResult = false →
      (TDMatSVecMultExpr.materialises t = true ↔
        t.isComputation = true ∧ t.vectorizable = false ∧ t.sameElementVETMET = true ∧
          t.blasCompatibleVET = true)) ∧
    (∀ v s b, TDMatSVecMultExpr.evaluate (storedMatrixTraits v s b) = false ∧
      TDMatSVecMultExpr.materialises (storedMatrixTraits v s b) = false) := by
  refine ⟨?_, ?_, ?_, ?_, ?_, ?_⟩
  · rcases t with ⟨a, b, c, d, e⟩
    cases a <;> cases b <;> cases c <;> cases d <;> cases e <;> decide
  · rcases t with ⟨a, b, c, d, e⟩
    cases a <;> cases b <;> cases c <;> cases d <;> cases e <;> decide
  · rcases t with ⟨a, b, c, d, e⟩
    cases a <;> cases b <;> cases c <;> cases d <;> cases e <;> decide
  · rcases t with ⟨a, b, c, d, e⟩
    cases a <;> cases b <;> cases c <;> cases d <;> cases e <;> decide
  · rcases t with ⟨a, b, c, d, e⟩
    cases a <;> cases b <;> cases c <;> cases d <;> cases e <;> decide
  · intro v s b
    cases v <;> cases s <;> cases b <;> decide

/-! ## Alias queries of the multiplication node -/

/-- The alias queries recorded for the multiplication node as an operand of an addition node
are those of the node for operands that are aliased with no dense vector. -/
theorem product_alias_queries [Zero α] [Add α] [Sub α] [Mul α] (k : Kernel) (w : Nat)
    (fresh : Nat → α) (e : TDMatSVecMultExpr α) (ptr : Nat) :
    (e.toOperand k w fresh).canAlias ptr
      = TDMatSVecMultExpr.canAlias (fun _ => false) (fun _ => false) ptr ∧
    (e.toOperand k w fresh).isAliased ptr
      = TDMatSVecMultExpr.isAliased (fun _ => false) (fun _ => false) ptr :=
  ⟨rfl, rfl⟩

/-- Claim C37. For the multiplication node, `canAlias( ptr )` and `isAliased( ptr )` are the
same predicate: both are true exactly when `isAliased( ptr )` of the matrix operand or of the
vector operand is true. A multiplication node whose matrix operand or vector operand is the
stored container at `ptr` therefore reports that it can alias `ptr`, whereas an addition node
of two stored vectors, one of them at `ptr`, reports that it cannot. -/
theorem multNode_canAlias_eq_isAliased [Add α] [Sub α] [Mul α]
    (matIsAliased vecIsAliased : Nat → Bool) (ptr : Nat) :
    TDMatSVecMultExpr.canAlias matIsAliased vecIsAliased ptr
      = TDMatSVecMultExpr.isAliased matIsAliased vecIsAliased ptr ∧
    (TDMatSVecMultExpr.canAlias matIsAliased vecIsAliased ptr = true ↔
      matIsAliased ptr = true ∨ vecIsAliased ptr = true) ∧
    (TDMatSVecMultExpr.isAliased matIsAliased vecIsAliased ptr = true ↔
      matIsAliased ptr = true ∨ vecIsAliased ptr = true) ∧
    TDMatSVecMultExpr.canAlias (fun p => storedIsAliased ptr (some p)) vecIsAliased ptr
      = true ∧
    TDMatSVecMultExpr.canAlias matIsAliased (fun p => storedIsAliased ptr (some p)) ptr
      = true ∧
    (∀ a : Nat,
      (DVecDVecAddNode.mk (DenseOperand.stored ptr : DenseOperand α)
        (DenseOperand.stored a)).canAlias ptr = false ∧
      (DVecDVecAddNode.mk (DenseOperand.stored ptr : DenseOperand α)
        (DenseOperand.stored a)).isAliased ptr = true) := by
  refine ⟨rfl, ?_, ?_, ?_, ?_, fun a => ⟨rfl, ?_⟩⟩
  · simp [TDMatSVecMultExpr.canAlias]
  · simp [TDMatSVecMultExpr.isAliased]
  · simp [TDMatSVecMultExpr.canAlias, storedIsAliased]
  · simp [TDMatSVecMultExpr.canAlias, storedIsAliased]
  · simp [DVecDVecAddNode.isAliased, DenseOperand.stored]

/-! ## Block starts of the loops of the vectorized assignment kernel -/

theorem forBlocksLE_marks (w M : Nat) (hw : 0 < w) (hlt : M + w < sizeRange) :
    ∀ (bound i : Nat) (marked : Nat → Bool), w ∣ i → i ≤ M → M - i < bound →
      forBlocksLE w M (fun i marked => Function.update marked i true) bound i marked
        = .ok (fun k => marked k || decide (i ≤ k ∧ w ∣ k ∧ k + w ≤ M)) := by
  intro bound
  induction bound with
  | zero => intro i marked _ _ hb; omega
  | succ bound ih =>
    intro i marked hi hle hb
    have hmod : (i + w) % sizeRange = i + w := Nat.mod_eq_of_lt (by omega)
    by_cases hc : i + w ≤ M
    · simp only [forBlocksLE, hmod, hc, if_true]
      rw [ih (i + w) _ (Nat.dvd_add hi (dvd_refl w)) hc (by omega)]
      congr 1
      funext k
      by_cases hk : k = i
      · subst hk
        simp [hi, hc]
      · rw [Function.update_noteq hk]
        congr 1
        apply decide_eq_decide.mpr
        constructor
        · rintro ⟨h1, h2, h3⟩
          exact ⟨by omega, h2, h3⟩
        · rintro ⟨h1, h2, h3⟩
          have hsub : w ∣ k - i := Nat.dvd_sub' h2 hi
          have : w ≤ k - i := Nat.le_of_dvd (by omega) hsub
          exact ⟨by omega, h2, h3⟩
    · simp only [forBlocksLE, hmod, hc, if_false]
      congr 1
      funext k
      have : ¬ (i ≤ k ∧ w ∣ k ∧ k + w ≤ M) := by
        rintro ⟨h1, _, h3⟩
        omega
      simp [this]

theorem forBlocksLT_marks (w M : Nat) (hw : 0 < w) (hlt : M + w < sizeRange) :
    ∀ (bound i : Nat) (marked : Nat → Bool), w ∣ i → M - i < bound →
      forBlocksLT w M (fun i marked => Function.update marked i true) bound i marked
        = .ok (fun k => marked k || decide (i ≤ k ∧ w ∣ k ∧ k < M)) := by
  intro bound
  induction bound with
  | zero => intro i marked _ hb; omega
  | succ bound ih =>
    intro i marked hi hb
    by_cases hc : i < M
    · have hmod : (i + w) % sizeRange = i + w := Nat.mod_eq_of_lt (by omega)
      simp only [forBlocksLT, hmod, hc, if_true]
      rw [ih (i + w) _ (Nat.dvd_add hi (dvd_refl w)) (by omega)]
      congr 1
      funext k
      by_cases hk : k = i
      · subst hk
        simp [hi, hc]
      · rw [Function.update_noteq hk]
        congr 1
        apply decide_eq_decide.mpr
        constructor
        · rintro ⟨h1, h2, h3⟩
          exact ⟨by omega, h2, h3⟩
        · rintro ⟨h1, h2, h3⟩
          have hsub : w ∣ k - i := Nat.dvd_sub' h2 hi
          have : w ≤ k - i := Nat.le_of_dvd (by omega) hsub
          exact ⟨by omega, h2, h3⟩
    · simp only [forBlocksLT, hc, if_false]
      congr 1
      funext k
      have : ¬ (i ≤ k ∧ w ∣ k ∧ k < M) := by
        rintro ⟨h1, _, h3⟩
        omega
      simp [this]

theorem initialisedBlocks_eq (w M : Nat) (hw : 0 < w) (hlt : M + w < sizeRange) :
    initialisedBlocks w M = .ok (fun k => decide (w ∣ k ∧ k + w ≤ M)) := by
  unfold initialisedBlocks
  rw [forBlocksLE_marks w M hw hlt (M + 1) 0 _ (dvd_zero w) (Nat.zero_le M) (by omega)]
  simp

theorem accumulatedBlocks_eq (w M : Nat) (hw : 0 < w) (hlt : M + w < sizeRange) :
    accumulatedBlocks w M = .ok (fun k => decide (w ∣ k ∧ k < M)) := by
  unfold accumulatedBlocks
  rw [forBlocksLT_marks w M hw hlt (M + 1) 0 _ (dvd_zero w) (by omega)]
  simp

/-- The block starts of the two kinds of loop of the vectorized assignment kernel, for every
column length `M` and every block width `w >= 1` with `M + w` representable in `size_t`: both
loops finish, the loop testing `(i+IT::size) <= M` runs at the multiples `i` of `w` with
`i + w <= M`, the loop testing `i<M` at the multiples `i` of `w` with `i < M`, and the two sets
are equal exactly when `w` divides `M`. -/
theorem block_starts_of_loops (w M : Nat) (hw : 0 < w) (hlt : M + w < sizeRange) :
    ∃ initialised accumulated,
      initialisedBlocks w M = .ok initialised ∧ accumulatedBlocks w M = .ok accumulated ∧
      (∀ k, initialised k = true ↔ w ∣ k ∧ k + w ≤ M) ∧
      (∀ k, accumulated k = true ↔ w ∣ k ∧ k < M) ∧
      (∀ k, initialised k = true → accumulated k = true) ∧
      ((∀ k, accumulated k = true → initialised k = true) ↔ w ∣ M) ∧
      ((∀ k, initialised k = accumulated k) ↔ w ∣ M) := by
  have hsub : (∀ k, w ∣ k ∧ k < M → w ∣ k ∧ k + w ≤ M) ↔ w ∣ M := by
    constructor
    · intro h
      by_contra hM
      have hmod : M % w ≠ 0 := fun h0 => hM (Nat.dvd_of_mod_eq_zero h0)
      have hlt' : M % w < w := Nat.mod_lt M hw
      have hdiv : w * (M / w) + M % w = M := Nat.div_add_mod M w
      have := h (w * (M / w)) ⟨Dvd.intro _ rfl, by omega⟩
      omega
    · rintro hM k ⟨hk, hkM⟩
      have : w ≤ M - k := Nat.le_of_dvd (by omega) (Nat.dvd_sub' hM hk)
      exact ⟨hk, by omega⟩
  refine ⟨_, _, initialisedBlocks_eq w M hw hlt, accumulatedBlocks_eq w M hw hlt, ?_, ?_, ?_,
    ?_, ?_⟩
  · intro k; simp
  · intro k; simp
  · intro k
    simp only [decide_eq_true_eq]
    rintro ⟨h1, h2⟩
    exact ⟨h1, by omega⟩
  · simp only [decide_eq_true_eq]
    exact hsub
  · rw [← hsub]
    constructor
    · intro h k hk
      have := h k
      simp only [decide_eq_decide] at this
      exact this.mpr hk
    · intro h k
      simp only [decide_eq_decide]
      exact ⟨fun ⟨h1, h2⟩ => ⟨h1, by omega⟩, h k⟩

/-- Claim C34. In the vectorized assignment kernel the loop that initialises the destination
from the first group of elements and the loops that accumulate the later groups and the single
elements have the same bound on a padded column: for every column length `M = A.spacing()`
that is a multiple of the block width `w >= 1` (with `M + w` representable in `size_t`) the
tests `(i+IT::size) <= M` and `i<M` agree at every multiple `i <= M` of `w`, which are the
values the loop counters take, both loops finish, and the set of block starts at which the
initialising loop runs is the set at which each accumulating loop runs, the multiples of `w`
below `M`; so no block is accumulated into without having been initialised. -/
theorem padded_blocks_initialised (w M : Nat) (hw : 0 < w) (hM : w ∣ M)
    (hlt : M + w < sizeRange) :
    (∀ i, w ∣ i → i ≤ M → ((i + w) % sizeRange ≤ M ↔ i < M)) ∧
    ∃ initialised accumulated,
      initialisedBlocks w M = .ok initialised ∧ accumulatedBlocks w M = .ok accumulated ∧
      (∀ k, initialised k = accumulated k) ∧
      (∀ k, accumulated k = true → initialised k = true) ∧
      (∀ k, initialised k = true ↔ w ∣ k ∧ k < M) ∧
      (∀ k, accumulated k = true ↔ w ∣ k ∧ k < M) := by
  obtain ⟨initialised, accumulated, h1, h2, _, h4, _, h6, h7⟩ :=
    block_starts_of_loops w M hw hlt
  have hsame := h7.mpr hM
  refine ⟨?_, initialised, accumulated, h1, h2, hsame, h6.mpr hM, ?_, h4⟩
  · intro i hi hle
    rw [Nat.mod_eq_of_lt (by omega)]
    constructor
    · intro h; omega
    · intro hc
      have hsub : w ≤ M - i := Nat.le_of_dvd (by omega) (Nat.dvd_sub' hM hi)
      omega
  · intro k
    rw [hsame k]
    exact h4 k

theorem padded_blocks_initialised_witness :
    0 < 2 ∧ 2 ∣ wideMatrix.spacing ∧ wideMatrix.spacing + 2 < sizeRange ∧
    ((∀ i, 2 ∣ i → i ≤ wideMatrix.spacing →
      ((i + 2) % sizeRange ≤ wideMatrix.spacing ↔ i < wideMatrix.spacing)) ∧
    ∃ initialised accumulated,
      initialisedBlocks 2 wideMatrix.spacing = .ok initialised ∧
      accumulatedBlocks 2 wideMatrix.spacing = .ok accumulated ∧
      (∀ k, initialised k = accumulated k) ∧
      (∀ k, accumulated k = true → initialised k = true) ∧
      (∀ k, initialised k = true ↔ 2 ∣ k ∧ k < wideMatrix.spacing) ∧
      (∀ k, accumulated k = true ↔ 2 ∣ k ∧ k < wideMatrix.spacing)) :=
  ⟨by decide, by decide, by decide,
    padded_blocks_initialised 2 wideMatrix.spacing (by decide) (by decide) (by decide)⟩

/-! ## Doubling in place -/

/-- Claim C35. Doubling in place, `a = a + a`: when both operands of the addition node are the
stored vector of the destination `d` itself, the friend `assign` takes the branch for a
destination that is the left operand, which is the single call `addAssign( d, d )` of the
destination into itself; the call returns, afterwards `d[i] = d0[i] + d0[i]` for every
`i < size`, where `d0` is what `d` held before, and no other stored vector has changed. The
same holds for operands of any type that are the vector stored at `d`: a left operand that is
no computation and is held at the address of `d`, and a right operand that has the elements
of `d` and whose `addAssign` adds them element by element. -/
theorem assign_doubles_in_place [Add α] [Sub α] [Mul α] (mem : DenseMemory α) (d : Nat) :
    (!(DenseOperand.stored d : DenseOperand α).isComputation
      && storedIsAliased d (DenseOperand.stored d : DenseOperand α).address) = true ∧
    (DVecDVecAddNode.mk (DenseOperand.stored d) (DenseOperand.stored d)).assign mem d
      = (DenseOperand.stored d : DenseOperand α).addAssignTo mem d ∧
    (∃ mem1,
      (DVecDVecAddNode.mk (DenseOperand.stored d) (DenseOperand.stored d)).assign mem d
        = .ok mem1 ∧
      (∀ a, a ≠ d → mem1 a = mem a) ∧ (mem1 d).size = (mem d).size ∧
      ∀ i, i < (mem d).size → (mem1 d).data i = (mem d).data i + (mem d).data i) ∧
    ∀ e : DVecDVecAddNode α,
      e.lhs.isComputation = false → e.lhs.address = some d →
      (mem d).size = e.size mem → e.rhs.size mem = e.lhs.size mem →
      (∀ i, i < (mem d).size → e.rhs.subscript mem i = .ok ((mem d).data i)) →
      e.rhs.AddAssignAdds mem d →
      e.assign mem d = e.rhs.addAssignTo mem d ∧
      ∃ mem1, e.assign mem d = .ok mem1 ∧
        (∀ a, a ≠ d → mem1 a = mem a) ∧ (mem1 d).size = (mem d).size ∧
        ∀ i, i < (mem d).size → (mem1 d).data i = (mem d).data i + (mem d).data i := by
  have hgen : ∀ e : DVecDVecAddNode α,
      e.lhs.isComputation = false → e.lhs.address = some d →
      (mem d).size = e.size mem → e.rhs.size mem = e.lhs.size mem →
      (∀ i, i < (mem d).size → e.rhs.subscript mem i = .ok ((mem d).data i)) →
      e.rhs.AddAssignAdds mem d →
      e.assign mem d = e.rhs.addAssignTo mem d ∧
      ∃ mem1, e.assign mem d = .ok mem1 ∧
        (∀ a, a ≠ d → mem1 a = mem a) ∧ (mem1 d).size = (mem d).size ∧
        ∀ i, i < (mem d).size → (mem1 d).data i = (mem d).data i + (mem d).data i := by
    intro e hcomp haddr hsize hshape hread hadd
    have hcall : e.assign mem d = e.rhs.addAssignTo mem d := by
      unfold DVecDVecAddNode.assign
      simp [hsize, hcomp, haddr, storedIsAliased]
    obtain ⟨mem1, h1, h2, h3, h4⟩ := hadd (by rw [hshape]; exact hsize)
    refine ⟨hcall, mem1, hcall.trans h1, h2, h3, ?_⟩
    intro i hi
    obtain ⟨value, hv, hd⟩ := h4 i hi
    have hval : value = (mem d).data i := by
      have : (Except.ok ((mem d).data i) : Except Failure α) = .ok value :=
        (hread i hi).symm.trans hv
      injection this with h
      exact h.symm
    rw [hd, hval]
  obtain ⟨hcall, hres⟩ :=
    hgen (DVecDVecAddNode.mk (DenseOperand.stored d) (DenseOperand.stored d))
      rfl rfl rfl rfl (fun _ _ => rfl) (stored_addAssignAdds d mem d)
  exact ⟨by simp [DenseOperand.stored, storedIsAliased], hcall, hres, hgen⟩

/-! ## Alias queries of nested sums -/

/-- The step from the operands to the node: an addition node over operands whose `canAlias`
implies their `isAliased` has the same property. -/
theorem addNode_alias_step (e : DVecDVecAddNode α) (ptr : Nat)
    (hl : e.lhs.canAlias ptr = true → e.lhs.isAliased ptr = true)
    (hr : e.rhs.canAlias ptr = true → e.rhs.isAliased ptr = true)
    (h : e.canAlias ptr = true) : e.isAliased ptr = true := by
  simp only [DVecDVecAddNode.canAlias, Bool.or_eq_true, Bool.and_eq_true] at h
  simp only [DVecDVecAddNode.isAliased, Bool.or_eq_true]
  rcases h with ⟨_, h⟩ | ⟨_, h⟩
  · left
    by_cases hq : e.lhs.requiresEvaluation = true
    · simpa [hq] using h
    · exact hl (by simpa [hq] using h)
  · right
    by_cases hq : e.rhs.requiresEvaluation = true
    · simpa [hq] using h
    · exact hr (by simpa [hq] using h)

theorem addTree_alias_sound (t : AddTree) (ptr : Nat) (h : t.canAlias ptr = true) :
    t.isAliased ptr = true := by
  induction t with
  | leaf address => exact h
  | node flag lhs rhs ihl ihr =>
    simp only [AddTree.canAlias, Bool.or_eq_true, Bool.and_eq_true] at h
    simp only [AddTree.isAliased, Bool.or_eq_true]
    rcases h with ⟨_, h⟩ | ⟨_, h⟩
    · left
      by_cases hr : lhs.requiresEvaluation = true
      · simpa [hr] using h
      · exact ihl (by simpa [hr] using h)
    · right
      by_cases hr : rhs.requiresEvaluation = true
      · simpa [hr] using h
      · exact ihr (by simpa [hr] using h)

/-- Claim C36. For every expression `t` built from addition nodes over stored dense vectors,
whatever the `RequiresEvaluation` flags of its nodes are, at every node `s` of `t` and for every
address `ptr`: if `canAlias( ptr )` of `s` is true, then `isAliased( ptr )` of `s` is true. -/
theorem addTree_canAlias_imp_isAliased (t : AddTree) (ptr : Nat) (s : AddTree)
    (_hs : s ∈ t.subtrees) (h : s.canAlias ptr = true) : s.isAliased ptr = true :=
  addTree_alias_sound s ptr h

theorem addTree_canAlias_imp_isAliased_witness :
    AddTree.node true (.leaf 0) (.leaf 1) ∈ scenarioTree.subtrees ∧
    scenarioTree ∈ scenarioTree.subtrees ∧
    scenarioTree.canAlias 0 = true ∧
    (AddTree.node true (.leaf 0) (.leaf 1)).canAlias 0 = false ∧
    scenarioTree.isAliased 0 = true :=
  ⟨by simp [scenarioTree, AddTree.subtrees], by simp [scenarioTree, AddTree.subtrees], rfl, rfl,
    addTree_canAlias_imp_isAliased scenarioTree 0 scenarioTree
      (by simp [scenarioTree, AddTree.subtrees]) rfl⟩

/-! ## The order in which the unrolled kernels read the stored elements -/

theorem forGroupsOfFour_stop (jend j : Nat)
    (body : SparseElement α → SparseElement α → SparseElement α → SparseElement α →
      (Nat → α) → Except Failure (Nat → α))
    (element : List (SparseElement α)) (y : Nat → α) (h : ¬ ((j + 4) % sizeRange ≤ jend)) :
    forGroupsOfFour jend body j element y = .ok (element, y) := by
  match element with
  | e1 :: e2 :: e3 :: e4 :: rest => simp [forGroupsOfFour, h]
  | [] => simp [forGroupsOfFour, h]
  | [_] => simp [forGroupsOfFour, h]
  | [_, _] => simp [forGroupsOfFour, h]
  | [_, _, _] => simp [forGroupsOfFour, h]

/-- The group loop reads `(jend - j) / 4` groups of four from the front of the elements under
the iterator and leaves the iterator behind them. -/
theorem forGroupsOfFour_groups (jend : Nat)
    (G : (Nat → α) → List (SparseElement α) → (Nat → α))
    (G4 : SparseElement α → SparseElement α → SparseElement α → SparseElement α →
      (Nat → α) → (Nat → α))
    (hG : ∀ e1 e2 e3 e4 y, G4 e1 e2 e3 e4 y = G y [e1, e2, e3, e4]) :
    ∀ (n j : Nat) (element : List (SparseElement α)) (y : Nat → α),
      (jend - j) / 4 = n → jend ≤ j + element.length →
      j + element.length + 4 < sizeRange →
      forGroupsOfFour jend (fun e1 e2 e3 e4 y => .ok (G4 e1 e2 e3 e4 y)) j element y
        = .ok (element.drop (4 * n), (groupsOfFour n element).foldl G y) := by
  intro n
  induction n with
  | zero =>
    intro j element y hn hj hlt
    have hmod : (j + 4) % sizeRange = j + 4 := Nat.mod_eq_of_lt (by omega)
    rw [forGroupsOfFour_stop jend j _ element y (by rw [hmod]; omega)]
    simp [groupsOfFour]
  | succ n ih =>
    intro j element y hn hj hlt
    have hmod : (j + 4) % sizeRange = j + 4 := Nat.mod_eq_of_lt (by omega)
    have hc : j + 4 ≤ jend := by omega
    obtain ⟨e1, e2, e3, e4, rest, hel⟩ := length_ge_four element (by omega)
    subst hel
    simp only [List.length_cons] at hj hlt
    simp only [forGroupsOfFour, hmod, hc, if_true]
    rw [ih (j + 4) rest (G4 e1 e2 e3 e4 y) (by omega) (by omega) (by omega), hG]
    have h4 : 4 * (n + 1) = 4 * n + 1 + 1 + 1 + 1 := by ring
    simp [groupsOfFour, h4]

theorem foldl_singleGroups (G : (Nat → α) → List (SparseElement α) → (Nat → α))
    (element : List (SparseElement α)) (y : Nat → α) :
    (element.map (fun e => [e])).foldl G y = element.foldl (fun y e => G y [e]) y := by
  rw [List.foldl_map]

theorem groupsOfFour_flatten {β : Type} (n : Nat) (l : List β) :
    (groupsOfFour n l).flatten = l.take (4 * n) := by
  induction n generalizing l with
  | zero => simp [groupsOfFour]
  | succ n ih =>
    have h4 : 4 * (n + 1) = 4 + 4 * n := by ring
    rw [groupsOfFour, List.flatten_cons, ih, h4, List.take_add]

theorem groupsOfFour_lengths {β : Type} (n : Nat) (l : List β) (h : 4 * n ≤ l.length) :
    (groupsOfFour n l).map List.length = List.replicate n 4 := by
  induction n generalizing l with
  | zero => simp [groupsOfFour]
  | succ n ih =>
    rw [groupsOfFour, List.map_cons, ih (l.drop 4) (by rw [List.length_drop]; omega),
      List.replicate_succ, List.length_take]
    congr 1
    omega

theorem singleGroups_flatten {β : Type} (l : List β) : (l.map (fun e => [e])).flatten = l := by
  induction l with
  | nil => rfl
  | cons e rest ih => simp [ih]

theorem singleGroups_lengths {β : Type} (l : List β) :
    (l.map (fun e => [e])).map List.length = List.replicate l.length 1 := by
  induction l with
  | nil => rfl
  | cons e rest ih =>
    rw [List.map_cons, List.map_cons, ih]
    rfl

theorem accumulateGroups_flatten {β : Type} (l : List β) : (accumulateGroups l).flatten = l := by
  unfold accumulateGroups
  rw [List.flatten_append, groupsOfFour_flatten, singleGroups_flatten, List.take_append_drop]

theorem assignGroups_flatten {β : Type} (l : List β) : (assignGroups l).flatten = l := by
  unfold assignGroups
  by_cases h : 4 ≤ l.length
  · have h4 : 4 * (l.length / 4) = 4 + 4 * (l.length / 4 - 1) := by omega
    simp only [h, if_true]
    rw [List.flatten_cons, List.flatten_append, groupsOfFour_flatten, singleGroups_flatten,
      ← List.append_assoc, ← List.take_add, ← h4, List.take_append_drop]
  · simp only [h, if_false]
    rw [List.flatten_cons, singleGroups_flatten, List.take_append_drop]

theorem accumulateGroups_lengths {β : Type} (l : List β) :
    (accumulateGroups l).map List.length
      = List.replicate (l.length / 4) 4 ++ List.replicate (l.length % 4) 1 := by
  unfold accumulateGroups
  rw [List.map_append, groupsOfFour_lengths _ _ (by omega), singleGroups_lengths,
    List.length_drop]
  congr 2
  omega

theorem assignGroups_lengths {β : Type} (l : List β) (hl : l ≠ []) :
    (assignGroups l).map List.length
      = if 4 ≤ l.length then
          4 :: (List.replicate (l.length / 4 - 1) 4 ++ List.replicate (l.length % 4) 1)
        else 1 :: List.replicate (l.length - 1) 1 := by
  have hpos : 0 < l.length := List.length_pos.mpr hl
  unfold assignGroups
  by_cases h : 4 ≤ l.length
  · simp only [h, if_true]
    rw [List.map_cons, List.map_append,
      groupsOfFour_lengths _ _ (by rw [List.length_drop]; omega), singleGroups_lengths,
      List.length_drop, List.length_take]
    congr 1
    · omega
    · congr 2
      omega
  · simp only [h, if_false]
    rw [List.map_cons, singleGroups_lengths, List.length_drop, List.length_take]
    congr 1
    omega

/-- What the optimized assignment kernel leaves in `y`, group by group, for an element type
with no laws assumed. -/
theorem selectAssignKernelOptimized_groups [Add α] [Mul α] (y : DenseVector α)
    (A : DenseMatrix α) (x : SparseVector α) (hx : x.elements ≠ [])
    (hlt : x.nonZeros + 4 < sizeRange) :
    ∃ first others, assignGroups x.elements = first :: others ∧
      TDMatSVecMultExpr.selectAssignKernelOptimized y A x = .ok { y with
        data := others.foldl (readGroup (fun a s => a + s) A A.rows)
          (readGroup (fun _ s => s) A A.rows y.data first) } := by
  obtain ⟨e1, rest, hel⟩ := List.exists_cons_of_ne_nil hx
  have hlen : x.nonZeros = rest.length + 1 := by simp [SparseVector.nonZeros, hel]
  have hlen0 : x.elements.length = x.nonZeros := rfl
  have hnz : ¬ (x.nonZeros = 0) := by omega
  have hend := groupEnd_eq x.nonZeros (by omega)
  have hG : ∀ (e1 e2 e3 e4 : SparseElement α) (y : Nat → α),
      (fun k => if k < A.rows then y k + (A.elem k e1.index * e1.value
        + A.elem k e2.index * e2.value + A.elem k e3.index * e3.value
        + A.elem k e4.index * e4.value) else y k)
      = readGroup (fun a s => a + s) A A.rows y [e1, e2, e3, e4] := fun _ _ _ _ _ => rfl
  unfold TDMatSVecMultExpr.selectAssignKernelOptimized
  simp only [hnz, if_false, hend, ne_eq, not_true_eq_false, forRows_assign, forRows_add]
  by_cases h4 : 4 ≤ x.nonZeros
  · have hgt : x.nonZeros - x.nonZeros % 4 > 3 := by omega
    obtain ⟨e1', e2, e3, e4, rest', hx'⟩ := length_ge_four x.elements h4
    have hlen' : x.nonZeros = rest'.length + 4 := by simp [SparseVector.nonZeros, hx']
    have h1 := forGroupsOfFour_groups (x.nonZeros - x.nonZeros % 4)
      (readGroup (fun a s => a + s) A A.rows) _ hG (x.nonZeros / 4 - 1) 4 rest'
      (fun k => if k < A.rows then A.elem k e1'.index * e1'.value
        + A.elem k e2.index * e2.value + A.elem k e3.index * e3.value
        + A.elem k e4.index * e4.value else y.data k)
      (by omega) (by omega) (by omega)
    refine ⟨[e1', e2, e3, e4], groupsOfFour (x.nonZeros / 4 - 1) rest'
      ++ (rest'.drop (4 * (x.nonZeros / 4 - 1))).map (fun e => [e]), ?_, ?_⟩
    · have ht : x.elements.take 4 = [e1', e2, e3, e4] := by rw [hx']; rfl
      have hd : x.elements.drop 4 = rest' := by rw [hx']; rfl
      have hd2 : x.elements.drop (4 * (x.elements.length / 4))
          = rest'.drop (4 * (x.nonZeros / 4 - 1)) := by
        rw [← hd, List.drop_drop]
        congr 1
        omega
      unfold assignGroups
      rw [if_pos (by omega), ht, hd, hd2]
      rfl
    · simp only [hgt, if_true, hx', h1, forRemaining_ok]
      rw [List.foldl_append, foldl_singleGroups]
      rfl
  · have hgt : ¬ (x.nonZeros - x.nonZeros % 4 > 3) := by omega
    have h1 := forGroupsOfFour_groups (x.nonZeros - x.nonZeros % 4)
      (readGroup (fun a s => a + s) A A.rows) _ hG 0 1 rest
      (fun k => if k < A.rows then A.elem k e1.index * e1.value else y.data k)
      (by omega) (by omega) (by omega)
    refine ⟨[e1], rest.map (fun e => [e]), ?_, ?_⟩
    · unfold assignGroups
      rw [if_neg (by omega), hel]
      rfl
    · simp only [hgt, if_false, hel, h1, forRemaining_ok]
      rw [foldl_singleGroups]
      rfl

/-- What the optimized add-assignment kernel leaves in `y`, group by group, for an element
type with no laws assumed. -/
theorem selectAddAssignKernelOptimized_groups [Add α] [Mul α] (y : DenseVector α)
    (A : DenseMatrix α) (x : SparseVector α) (hx : x.elements ≠ [])
    (hlt : x.nonZeros + 4 < sizeRange) :
    TDMatSVecMultExpr.selectAddAssignKernelOptimized y A x = .ok { y with
      data := (accumulateGroups x.elements).foldl (readGroup (fun a s => a + s) A A.rows)
        y.data } := by
  have hlen0 : x.elements.length = x.nonZeros := rfl
  have hnz : ¬ (x.nonZeros = 0) := by simpa [SparseVector.nonZeros] using hx
  have hend := groupEnd_eq x.nonZeros (by omega)
  have hG : ∀ (e1 e2 e3 e4 : SparseElement α) (y : Nat → α),
      (fun k => if k < A.rows then y k + (A.elem k e1.index * e1.value
        + A.elem k e2.index * e2.value + A.elem k e3.index * e3.value
        + A.elem k e4.index * e4.value) else y k)
      = readGroup (fun a s => a + s) A A.rows y [e1, e2, e3, e4] := fun _ _ _ _ _ => rfl
  have h1 := forGroupsOfFour_groups (x.nonZeros - x.nonZeros % 4)
    (readGroup (fun a s => a + s) A A.rows) _ hG (x.nonZeros / 4) 0 x.elements y.data
    (by omega) (by omega) (by omega)
  unfold TDMatSVecMultExpr.selectAddAssignKernelOptimized accumulateGroups
  simp only [hnz, if_false, hend, ne_eq, not_true_eq_false, forRows_add, h1, forRemaining_ok,
    hlen0]
  rw [List.foldl_append, foldl_singleGroups]
  rfl

/-- What the optimized subtract-assignment kernel leaves in `y`, group by group, for an
element type with no laws assumed. -/
theorem selectSubAssignKernelOptimized_groups [Add α] [Sub α] [Mul α] (y : DenseVector α)
    (A : DenseMatrix α) (x : SparseVector α) (hx : x.elements ≠ [])
    (hlt : x.nonZeros + 4 < sizeRange) :
    TDMatSVecMultExpr.selectSubAssignKernelOptimized y A x = .ok { y with
      data := (accumulateGroups x.elements).foldl (readGroup (fun a s => a - s) A A.rows)
        y.data } := by
  have hlen0 : x.elements.length = x.nonZeros := rfl
  have hnz : ¬ (x.nonZeros = 0) := by simpa [SparseVector.nonZeros] using hx
  have hend := groupEnd_eq x.nonZeros (by omega)
  have hG : ∀ (e1 e2 e3 e4 : SparseElement α) (y : Nat → α),
      (fun k => if k < A.rows then y k - (A.elem k e1.index * e1.value
        + A.elem k e2.index * e2.value + A.elem k e3.index * e3.value
        + A.elem k e4.index * e4.value) else y k)
      = readGroup (fun a s => a - s) A A.rows y [e1, e2, e3, e4] := fun _ _ _ _ _ => rfl
  have h1 := forGroupsOfFour_groups (x.nonZeros - x.nonZeros % 4)
    (readGroup (fun a s => a - s) A A.rows) _ hG (x.nonZeros / 4) 0 x.elements y.data
    (by omega) (by omega) (by omega)
  unfold TDMatSVecMultExpr.selectSubAssignKernelOptimized accumulateGroups
  simp only [hnz, if_false, hend, ne_eq, not_true_eq_false, forRows_sub, h1, forRemaining_ok,
    hlen0]
  rw [List.foldl_append, foldl_singleGroups]
  rfl

/-- Claim C38. For every sparse `x` with `k >= 1` stored elements (`k + 4` representable in
`size_t`), every matrix and every destination, with no law assumed of `+`, `-` and `*`: the
optimized assignment kernel returns, and `y` is what reading the groups `assignGroups` leaves,
the first group initialising the rows and every later group being added; the optimized
add-assignment and subtract-assignment kernels return, and `y` is what adding, respectively
subtracting, the groups `accumulateGroups` one after the other leaves. Either list of groups,
laid end to end, is the list of the stored elements of `x`, so each stored element is read
exactly once and in order; the sizes of the groups are `4` (if `k >= 4`, else `1`), then
`k/4 - 1` times `4` (if `k >= 4`, else none), then `1` for each remaining element, for the
assignment, and `k/4` times `4`, then `k mod 4` times `1` for the other two. No kernel fails,
so no iterator is dereferenced at or advanced past the end. -/
theorem optimized_kernels_read_groups [Add α] [Sub α] [Mul α] (y : DenseVector α)
    (A : DenseMatrix α) (x : SparseVector α) (hx : x.elements ≠ [])
    (hlt : x.nonZeros + 4 < sizeRange) :
    (∃ first others, assignGroups x.elements = first :: others ∧
      TDMatSVecMultExpr.selectAssignKernelOptimized y A x = .ok { y with
        data := others.foldl (readGroup (fun a s => a + s) A A.rows)
          (readGroup (fun _ s => s) A A.rows y.data first) }) ∧
    TDMatSVecMultExpr.selectAddAssignKernelOptimized y A x = .ok { y with
      data := (accumulateGroups x.elements).foldl (readGroup (fun a s => a + s) A A.rows)
        y.data } ∧
    TDMatSVecMultExpr.selectSubAssignKernelOptimized y A x = .ok { y with
      data := (accumulateGroups x.elements).foldl (readGroup (fun a s => a - s) A A.rows)
        y.data } ∧
    (assignGroups x.elements).flatten = x.elements ∧
    (accumulateGroups x.elements).flatten = x.elements ∧
    (assignGroups x.elements).map List.length
      = (if 4 ≤ x.nonZeros then
          4 :: (List.replicate (x.nonZeros / 4 - 1) 4 ++ List.replicate (x.nonZeros % 4) 1)
        else 1 :: List.replicate (x.nonZeros - 1) 1) ∧
    (accumulateGroups x.elements).map List.length
      = List.replicate (x.nonZeros / 4) 4 ++ List.replicate (x.nonZeros % 4) 1 :=
  ⟨selectAssignKernelOptimized_groups y A x hx hlt,
    selectAddAssignKernelOptimized_groups y A x hx hlt,
    selectSubAssignKernelOptimized_groups y A x hx hlt,
    assignGroups_flatten x.elements, accumulateGroups_flatten x.elements,
    assignGroups_lengths x.elements hx, accumulateGroups_lengths x.elements⟩

theorem optimized_kernels_read_groups_witness :
    wideVector.elements ≠ [] ∧ wideVector.nonZeros + 4 < sizeRange ∧
    (∃ first others, assignGroups wideVector.elements = first :: others ∧
      TDMatSVecMultExpr.selectAssignKernelOptimized scenarioTarget wideMatrix wideVector
        = .ok { scenarioTarget with
          data := others.foldl (readGroup (fun a s => a + s) wideMatrix wideMatrix.rows)
            (readGroup (fun _ s => s) wideMatrix wideMatrix.rows scenarioTarget.data first) }) ∧
    TDMatSVecMultExpr.selectAddAssignKernelOptimized scenarioTarget wideMatrix wideVector
      = .ok { scenarioTarget with
        data := (accumulateGroups wideVector.elements).foldl
          (readGroup (fun a s => a + s) wideMatrix wideMatrix.rows) scenarioTarget.data } ∧
    TDMatSVecMultExpr.selectSubAssignKernelOptimized scenarioTarget wideMatrix wideVector
      = .ok { scenarioTarget with
        data := (accumulateGroups wideVector.elements).foldl
          (readGroup (fun a s => a - s) wideMatrix wideMatrix.rows) scenarioTarget.data } ∧
    (assignGroups wideVector.elements).flatten = wideVector.elements ∧
    (accumulateGroups wideVector.elements).flatten = wideVector.elements ∧
    (assignGroups wideVector.elements).map List.length
      = (if 4 ≤ wideVector.nonZeros then
          4 :: (List.replicate (wideVector.nonZeros / 4 - 1) 4
            ++ List.replicate (wideVector.nonZeros % 4) 1)
        else 1 :: List.replicate (wideVector.nonZeros - 1) 1) ∧
    (accumulateGroups wideVector.elements).map List.length
      = List.replicate (wideVector.nonZeros / 4) 4
        ++ List.replicate (wideVector.nonZeros % 4) 1 :=
  ⟨by simp [wideVector], by decide,
    optimized_kernels_read_groups scenarioTarget wideMatrix wideVector (by simp [wideVector])
      (by decide)⟩

/-! ## Positions of the matrix read by the kernels -/

/-- The rows of a destination computed from two matrices that agree on the positions read. -/
theorem rows_agree (M : Nat) (A A' : DenseMatrix α) (l : List (SparseElement α))
    (hpt : ∀ k, k < M → ∀ e ∈ l, A'.elem k e.index = A.elem k e.index)
    (F : DenseMatrix α → Nat → α) (y : Nat → α)
    (hF : ∀ k, k < M → (∀ e ∈ l, A'.elem k e.index = A.elem k e.index) → F A' k = F A k) :
    (fun k => if k < M then F A' k else y k) = (fun k => if k < M then F A k else y k) := by
  funext k
  by_cases hk : k < M
  · simp only [hk, if_true]
    exact hF k hk (hpt k hk)
  · simp only [hk, if_false]

theorem readGroup_agree [Add α] [Mul α] (combine : α → α → α) (A A' : DenseMatrix α)
    (M : Nat) (y : Nat → α) (g : List (SparseElement α))
    (h : ∀ k, k < M → ∀ e ∈ g, A'.elem k e.index = A.elem k e.index) :
    readGroup combine A' M y g = readGroup combine A M y g := by
  cases g with
  | nil => rfl
  | cons first rest =>
    funext i
    simp only [readGroup]
    by_cases hi : i < M
    · simp only [hi, if_true]
      congr 1
      unfold groupSum
      rw [h i hi first (List.mem_cons_self _ _)]
      exact List.foldl_ext _ _ _
        (fun b e he => by rw [h i hi e (List.mem_cons_of_mem _ he)])
    · simp only [hi, if_false]

theorem foldl_readGroup_agree [Add α] [Mul α] (combine : α → α → α) (A A' : DenseMatrix α)
    (M : Nat) (groups : List (List (SparseElement α)))
    (h : ∀ g ∈ groups, ∀ k, k < M → ∀ e ∈ g, A'.elem k e.index = A.elem k e.index)
    (y : Nat → α) :
    groups.foldl (readGroup combine A' M) y = groups.foldl (readGroup combine A M) y :=
  List.foldl_ext _ _ _ (fun y g hg => readGroup_agree combine A A' M y g (h g hg))

theorem readGroup_frame [Add α] [Mul α] (combine : α → α → α) (A : DenseMatrix α)
    (M : Nat) (y : Nat → α) (g : List (SparseElement α)) (i : Nat) (hi : M ≤ i) :
    readGroup combine A M y g i = y i := by
  cases g with
  | nil => rfl
  | cons first rest =>
    have : ¬ i < M := by omega
    simp only [readGroup, this, if_false]

theorem foldl_readGroup_frame [Add α] [Mul α] (combine : α → α → α) (A : DenseMatrix α)
    (M : Nat) (groups : List (List (SparseElement α))) (y : Nat → α) (i : Nat)
    (hi : M ≤ i) : groups.foldl (readGroup combine A M) y i = y i := by
  induction groups generalizing y with
  | nil => rfl
  | cons g rest ih => rw [List.foldl_cons, ih, readGroup_frame combine A M y g i hi]

/-- Claim C39. Matrix reads stay in range: for a node `A*x` with `A.columns() == x.size()`
whose stored elements all have an index below `x.size()`, the element access at a row below
`A.rows()` and the default and optimized assign, add-assign and subtract-assign kernels read
the matrix only at positions `(i, j)` with `i < A.rows()` and `j < A.columns()`: for every
matrix `A'` with the same number of rows that agrees with `A` on these positions, element
access returns the same value and each assignment returns the same destination, with no law
assumed of `+`, `-` and `*`, so that no value read elsewhere could cancel. The assignments
write the destination only at indices below `A.rows()`: every `y[i]` with `i >= A.rows()` is
left as it was. -/
theorem matrix_reads_in_range [Zero α] [Add α] [Sub α] [Mul α] (k : Kernel) (w : Nat)
    (y : DenseVector α) (A A' : DenseMatrix α) (x : SparseVector α)
    (hk : k ≠ Kernel.vectorized)
    (hshape : A.columns = x.size) (hwf : ∀ e ∈ x.elements, e.index < x.size)
    (hy : y.size = A.rows) (hlt : k = Kernel.optimized → x.nonZeros + 4 < sizeRange)
    (hrows : A'.rows = A.rows)
    (hagree : ∀ i j, i < A.rows → j < A.columns → A'.elem i j = A.elem i j) :
    (∀ i, i < A.rows →
      TDMatSVecMultExpr.subscript { mat := A', vec := x } i
        = TDMatSVecMultExpr.subscript { mat := A, vec := x } i) ∧
    (∃ y1, TDMatSVecMultExpr.assign k w y { mat := A, vec := x } = .ok y1 ∧
      TDMatSVecMultExpr.assign k w y { mat := A', vec := x } = .ok y1 ∧
      y1.size = y.size ∧ ∀ i, A.rows ≤ i → y1.data i = y.data i) ∧
    (∃ y1, TDMatSVecMultExpr.addAssign k w y { mat := A, vec := x } = .ok y1 ∧
      TDMatSVecMultExpr.addAssign k w y { mat := A', vec := x } = .ok y1 ∧
      y1.size = y.size ∧ ∀ i, A.rows ≤ i → y1.data i = y.data i) ∧
    (∃ y1, TDMatSVecMultExpr.subAssign k w y { mat := A, vec := x } = .ok y1 ∧
      TDMatSVecMultExpr.subAssign k w y { mat := A', vec := x } = .ok y1 ∧
      y1.size = y.size ∧ ∀ i, A.rows ≤ i → y1.data i = y.data i) := by
  have hpt : ∀ i, i < A.rows → ∀ e ∈ x.elements, A'.elem i e.index = A.elem i e.index :=
    fun i hi e he => hagree i e.index hi (by rw [hshape]; exact hwf e he)
  have hy' : y.size = A'.rows := by omega
  have hadd : ∀ (i : Nat) (l : List (SparseElement α)) (a : α),
      (∀ e ∈ l, A'.elem i e.index = A.elem i e.index) →
      l.foldl (fun acc e => acc + A'.elem i e.index * e.value) a
        = l.foldl (fun acc e => acc + A.elem i e.index * e.value) a :=
    fun i l a h => List.foldl_ext _ _ a (fun b e he => by rw [h e he])
  have hsub : ∀ (i : Nat) (l : List (SparseElement α)) (a : α),
      (∀ e ∈ l, A'.elem i e.index = A.elem i e.index) →
      l.foldl (fun acc e => acc - A'.elem i e.index * e.value) a
        = l.foldl (fun acc e => acc - A.elem i e.index * e.value) a :=
    fun i l a h => List.foldl_ext _ _ a (fun b e he => by rw [h e he])
  have hacc : ∀ g ∈ accumulateGroups x.elements, ∀ i, i < A.rows → ∀ e ∈ g,
      A'.elem i e.index = A.elem i e.index := by
    intro g hg i hi e he
    refine hpt i hi e ?_
    rw [← accumulateGroups_flatten x.elements]
    exact List.mem_flatten.mpr ⟨g, hg, he⟩
  have hasg : ∀ g ∈ assignGroups x.elements, ∀ i, i < A.rows → ∀ e ∈ g,
      A'.elem i e.index = A.elem i e.index := by
    intro g hg i hi e he
    refine hpt i hi e ?_
    rw [← assignGroups_flatten x.elements]
    exact List.mem_flatten.mpr ⟨g, hg, he⟩
  refine ⟨?_, ?_, ?_, ?_⟩
  · intro i hi
    have hi' : i < A'.rows := by omega
    unfold TDMatSVecMultExpr.subscript
    simp only [hi, hi', if_true]
    cases hel : x.elements with
    | nil => rfl
    | cons e1 rest =>
      have hmem := hpt i hi
      rw [hel] at hmem
      simp only
      rw [hmem e1 (List.mem_cons_self _ _),
        hadd i rest _ (fun e he => hmem e (List.mem_cons_of_mem _ he))]
  · by_cases hx : x.elements = []
    · have hnz : x.nonZeros = 0 := by simp [SparseVector.nonZeros, hx]
      refine ⟨reset y, ?_, ?_, rfl, ?_⟩
      · unfold TDMatSVecMultExpr.assign
        simp only [TDMatSVecMultExpr.size, hy, ne_eq, not_true_eq_false, if_false, hnz,
          if_true]
      · unfold TDMatSVecMultExpr.assign
        simp only [TDMatSVecMultExpr.size, hy', ne_eq, not_true_eq_false, if_false, hnz,
          if_true]
      · intro i hi
        have : ¬ i < y.size := by omega
        simp [reset, this]
    · obtain ⟨e1, rest, hel⟩ := List.exists_cons_of_ne_nil hx
      have hc := assign_calls_kernel k w y A x hx hy
      have hc' := assign_calls_kernel k w y A' x hx hy'
      cases k with
      | vectorized => exact absurd rfl hk
      | default =>
        have hdata : (fun i => if i < A'.rows then
              rest.foldl (fun acc e => acc + A'.elem i e.index * e.value)
                (A'.elem i e1.index * e1.value) else y.data i)
            = (fun i => if i < A.rows then
              rest.foldl (fun acc e => acc + A.elem i e.index * e.value)
                (A.elem i e1.index * e1.value) else y.data i) := by
          rw [hrows]
          refine rows_agree A.rows A A' x.elements hpt
            (fun B i => rest.foldl (fun acc e => acc + B.elem i e.index * e.value)
              (B.elem i e1.index * e1.value)) y.data ?_
          intro i _ hmem
          rw [hel] at hmem
          show rest.foldl _ _ = rest.foldl _ _
          rw [hmem e1 (List.mem_cons_self _ _),
            hadd i rest _ (fun e he => hmem e (List.mem_cons_of_mem _ he))]
        refine ⟨_, hc.trans (selectAssignKernelDefault_eq y A x e1 rest hel),
          hc'.trans ((selectAssignKernelDefault_eq y A' x e1 rest hel).trans ?_), rfl, ?_⟩
        · rw [hdata]
        · intro i hi
          have : ¬ i < A.rows := by omega
          simp only [this, if_false]
      | optimized =>
        have hl := hlt rfl
        obtain ⟨first, others, hgroups, h1⟩ := selectAssignKernelOptimized_groups y A x hx hl
        obtain ⟨first', others', hgroups', h1'⟩ :=
          selectAssignKernelOptimized_groups y A' x hx hl
        obtain ⟨hf, ho⟩ := List.cons.inj (hgroups.symm.trans hgroups')
        subst hf
        subst ho
        rw [hgroups] at hasg
        refine ⟨_, hc.trans h1, hc'.trans (h1'.trans ?_), rfl, ?_⟩
        · rw [hrows, foldl_readGroup_agree _ A A' A.rows others
              (fun g hg => hasg g (List.mem_cons_of_mem _ hg)),
            readGroup_agree _ A A' A.rows y.data first (hasg first (List.mem_cons_self _ _))]
        · intro i hi
          show others.foldl (readGroup _ A A.rows) _ i = y.data i
          rw [foldl_readGroup_frame _ A A.rows others _ i hi,
            readGroup_frame _ A A.rows y.data first i hi]
  · by_cases hx : x.elements = []
    · have hnz : x.nonZeros = 0 := by simp [SparseVector.nonZeros, hx]
      refine ⟨y, ?_, ?_, rfl, fun _ _ => rfl⟩
      · unfold TDMatSVecMultExpr.addAssign
        simp only [TDMatSVecMultExpr.size, hy, ne_eq, not_true_eq_false, if_false, hnz,
          if_true]
      · unfold TDMatSVecMultExpr.addAssign
        simp only [TDMatSVecMultExpr.size, hy', ne_eq, not_true_eq_false, if_false, hnz,
          if_true]
    · have hc := addAssign_calls_kernel k w y A x hx hy
      have hc' := addAssign_calls_kernel k w y A' x hx hy'
      cases k with
      | vectorized => exact absurd rfl hk
      | default =>
        have hdata : (fun i => if i < A'.rows then
              x.elements.foldl (fun acc e => acc + A'.elem i e.index * e.value) (y.data i)
              else y.data i)
            = (fun i => if i < A.rows then
              x.elements.foldl (fun acc e => acc + A.elem i e.index * e.value) (y.data i)
              else y.data i) := by
          rw [hrows]
          exact rows_agree A.rows A A' x.elements hpt
            (fun B i => x.elements.foldl (fun acc e => acc + B.elem i e.index * e.value)
              (y.data i)) y.data (fun i _ hmem => hadd i x.elements _ hmem)
        refine ⟨_, hc.trans (selectAddAssignKernelDefault_eq y A x hx),
          hc'.trans ((selectAddAssignKernelDefault_eq y A' x hx).trans ?_), rfl, ?_⟩
        · rw [hdata]
        · intro i hi
          have : ¬ i < A.rows := by omega
          simp only [this, if_false]
      | optimized =>
        have hl := hlt rfl
        refine ⟨_, hc.trans (selectAddAssignKernelOptimized_groups y A x hx hl),
          hc'.trans ((selectAddAssignKernelOptimized_groups y A' x hx hl).trans ?_), rfl, ?_⟩
        · rw [hrows, foldl_readGroup_agree _ A A' A.rows _ hacc]
        · intro i hi
          exact foldl_readGroup_frame _ A A.rows _ _ i hi
  · by_cases hx : x.elements = []
    · have hnz : x.nonZeros = 0 := by simp [SparseVector.nonZeros, hx]
      refine ⟨y, ?_, ?_, rfl, fun _ _ => rfl⟩
      · unfold TDMatSVecMultExpr.subAssign
        simp only [TDMatSVecMultExpr.size, hy, ne_eq, not_true_eq_false, if_false, hnz,
          if_true]
      · unfold TDMatSVecMultExpr.subAssign
        simp only [TDMatSVecMultExpr.size, hy', ne_eq, not_true_eq_false, if_false, hnz,
          if_true]
    · have hc := subAssign_calls_kernel k w y A x hx hy
      have hc' := subAssign_calls_kernel k w y A' x hx hy'
      cases k with
      | vectorized => exact absurd rfl hk
      | default =>
        have hdata : (fun i => if i < A'.rows then
              x.elements.foldl (fun acc e => acc - A'.elem i e.index * e.value) (y.data i)
              else y.data i)
            = (fun i => if i < A.rows then
              x.elements.foldl (fun acc e => acc - A.elem i e.index * e.value) (y.data i)
              else y.data i) := by
          rw [hrows]
          exact rows_agree A.rows A A' x.elements hpt
            (fun B i => x.elements.foldl (fun acc e => acc - B.elem i e.index * e.value)
              (y.data i)) y.data (fun i _ hmem => hsub i x.elements _ hmem)
        refine ⟨_, hc.trans (selectSubAssignKernelDefault_eq y A x hx),
          hc'.trans ((selectSubAssignKernelDefault_eq y A' x hx).trans ?_), rfl, ?_⟩
        · rw [hdata]
        · intro i hi
          have : ¬ i < A.rows := by omega
          simp only [this, if_false]
      | optimized =>
        have hl := hlt rfl
        refine ⟨_, hc.trans (selectSubAssignKernelOptimized_groups y A x hx hl),
          hc'.trans ((selectSubAssignKernelOptimized_groups y A' x hx hl).trans ?_), rfl, ?_⟩
        · rw [hrows, foldl_readGroup_agree _ A A' A.rows _ hacc]
        · intro i hi
          exact foldl_readGroup_frame _ A A.rows _ _ i hi

theorem wideVector_wellFormed : ∀ e ∈ wideVector.elements, e.index < wideVector.size := by
  intro e he
  simp only [wideVector, List.mem_cons, List.mem_singleton, List.not_mem_nil, or_false] at he
  rcases he with rfl | rfl | rfl | rfl | rfl <;> decide

theorem wideMatrixOutside_agrees :
    ∀ i j, i < wideMatrix.rows → j < wideMatrix.columns →
      wideMatrixOutside.elem i j = wideMatrix.elem i j := by
  intro i j hi hj
  have hi' : i < 2 := hi
  have hj' : j < 5 := hj
  simp [wideMatrixOutside, wideMatrix, hi', hj']

theorem matrix_reads_in_range_witness :
    Kernel.optimized ≠ Kernel.vectorized ∧ wideMatrix.columns = wideVector.size ∧
    (∀ e ∈ wideVector.elements, e.index < wideVector.size) ∧
    scenarioTarget.size = wideMatrix.rows ∧
    (Kernel.optimized = Kernel.optimized → wideVector.nonZeros + 4 < sizeRange) ∧
    wideMatrixOutside.rows = wideMatrix.rows ∧
    (∀ i j, i < wideMatrix.rows → j < wideMatrix.columns →
      wideMatrixOutside.elem i j = wideMatrix.elem i j) ∧
    wideMatrixOutside.elem 2 0 ≠ wideMatrix.elem 2 0 ∧
    ((∀ i, i < wideMatrix.rows →
      TDMatSVecMultExpr.subscript { mat := wideMatrixOutside, vec := wideVector } i
        = TDMatSVecMultExpr.subscript { mat := wideMatrix, vec := wideVector } i) ∧
    (∃ y1, TDMatSVecMultExpr.assign Kernel.optimized 2 scenarioTarget
        { mat := wideMatrix, vec := wideVector } = .ok y1 ∧
      TDMatSVecMultExpr.assign Kernel.optimized 2 scenarioTarget
        { mat := wideMatrixOutside, vec := wideVector } = .ok y1 ∧
      y1.size = scenarioTarget.size ∧
      ∀ i, wideMatrix.rows ≤ i → y1.data i = scenarioTarget.data i) ∧
    (∃ y1, TDMatSVecMultExpr.addAssign Kernel.optimized 2 scenarioTarget
        { mat := wideMatrix, vec := wideVector } = .ok y1 ∧
      TDMatSVecMultExpr.addAssign Kernel.optimized 2 scenarioTarget
        { mat := wideMatrixOutside, vec := wideVector } = .ok y1 ∧
      y1.size = scenarioTarget.size ∧
      ∀ i, wideMatrix.rows ≤ i → y1.data i = scenarioTarget.data i) ∧
    (∃ y1, TDMatSVecMultExpr.subAssign Kernel.optimized 2 scenarioTarget
        { mat := wideMatrix, vec := wideVector } = .ok y1 ∧
      TDMatSVecMultExpr.subAssign Kernel.optimized 2 scenarioTarget
        { mat := wideMatrixOutside, vec := wideVector } = .ok y1 ∧
      y1.size = scenarioTarget.size ∧
      ∀ i, wideMatrix.rows ≤ i → y1.data i = scenarioTarget.data i)) :=
  ⟨by decide, rfl, wideVector_wellFormed, rfl, fun _ => by decide, rfl,
    wideMatrixOutside_agrees, by decide,
    matrix_reads_in_range Kernel.optimized 2 scenarioTarget wideMatrix wideMatrixOutside
      wideVector (by decide) rfl wideVector_wellFormed rfl (fun _ => by decide) rfl
      wideMatrixOutside_agrees⟩

/-! ## The group bound of the unrolled kernels -/

theorem forGroupsOfFour_failure (jend : Nat)
    (body : SparseElement α → SparseElement α → SparseElement α → SparseElement α →
      (Nat → α) → Except Failure (Nat → α))
    (P : Failure → Prop) (hP : P .iteratorPastEnd)
    (hbody : ∀ e1 e2 e3 e4 y f, body e1 e2 e3 e4 y = .error f → P f) (n : Nat) :
    ∀ (j : Nat) (element : List (SparseElement α)) (y : Nat → α) (f : Failure),
      element.length ≤ n → forGroupsOfFour jend body j element y = .error f → P f := by
  induction n with
  | zero =>
    intro j element y f hn h
    have : element = [] := List.length_eq_zero.mp (by omega)
    subst this
    simp only [forGroupsOfFour] at h
    split at h
    · injection h with h; subst h; exact hP
    · cases h
  | succ n ih =>
    intro j element y f hn h
    match element, hn, h with
    | e1 :: e2 :: e3 :: e4 :: rest, hn, h =>
      simp only [List.length_cons] at hn
      simp only [forGroupsOfFour] at h
      split at h
      · cases hb : body e1 e2 e3 e4 y with
        | error f1 =>
          rw [hb] at h
          injection h with h
          subst h
          exact hbody _ _ _ _ _ _ hb
        | ok y1 =>
          rw [hb] at h
          exact ih _ rest y1 f (by omega) h
      · cases h
    | [], _, h =>
      simp only [forGroupsOfFour] at h
      split at h
      · injection h with h; subst h; exact hP
      · cases h
    | [_], _, h =>
      simp only [forGroupsOfFour] at h
      split at h
      · injection h with h; subst h; exact hP
      · cases h
    | [_, _], _, h =>
      simp only [forGroupsOfFour] at h
      split at h
      · injection h with h; subst h; exact hP
      · cases h
    | [_, _, _], _, h =>
      simp only [forGroupsOfFour] at h
      split at h
      · injection h with h; subst h; exact hP
      · cases h

theorem forRemaining_failure
    (body : SparseElement α → (Nat → α) → Except Failure (Nat → α))
    (P : Failure → Prop) (hbody : ∀ e y f, body e y = .error f → P f) :
    ∀ (element : List (SparseElement α)) (y : Nat → α) (f : Failure),
      forRemaining body element y = .error f → P f := by
  intro element
  induction element with
  | nil => intro y f h; cases h
  | cons e rest ih =>
    intro y f h
    simp only [forRemaining] at h
    cases hb : body e y with
    | error f1 =>
      rw [hb] at h
      injection h with h
      subst h
      exact hbody _ _ _ hb
    | ok y1 =>
      rw [hb] at h
      exact ih y1 f h

theorem forBlocksLT_failure (w M : Nat) (body : Nat → (Nat → α) → (Nat → α)) :
    ∀ (bound i : Nat) (y : Nat → α) (f : Failure),
      forBlocksLT w M body bound i y = .error f → f = .loopBoundExceeded := by
  intro bound
  induction bound with
  | zero => intro i y f h; injection h with h; exact h.symm
  | succ bound ih =>
    intro i y f h
    simp only [forBlocksLT] at h
    split at h
    · exact ih _ _ f h
    · cases h

theorem forBlocksLE_failure (w M : Nat) (body : Nat → (Nat → α) → (Nat → α)) :
    ∀ (bound i : Nat) (y : Nat → α) (f : Failure),
      forBlocksLE w M body bound i y = .error f → f = .loopBoundExceeded := by
  intro bound
  induction bound with
  | zero => intro i y f h; injection h with h; exact h.symm
  | succ bound ih =>
    intro i y f h
    simp only [forBlocksLE] at h
    split at h
    · exact ih _ _ f h
    · cases h

theorem endAssertion_ne_count :
    Failure.internalAssert "Invalid number of non-zero elements"
      ≠ Failure.internalAssert "Invalid end calculation" := by decide

theorem iteratorPastEnd_ne_end :
    Failure.iteratorPastEnd ≠ Failure.internalAssert "Invalid end calculation" := by decide

theorem loopBoundExceeded_ne_end :
    Failure.loopBoundExceeded ≠ Failure.internalAssert "Invalid end calculation" := by decide

theorem selectAssignKernelOptimized_end [Add α] [Mul α] (y : DenseVector α)
    (A : DenseMatrix α) (x : SparseVector α) (hk : x.nonZeros < sizeRange) :
    TDMatSVecMultExpr.selectAssignKernelOptimized y A x
      ≠ .error (.internalAssert "Invalid end calculation") := by
  have hend := groupEnd_eq x.nonZeros hk
  intro h
  unfold TDMatSVecMultExpr.selectAssignKernelOptimized at h
  simp only [hend, ne_eq, not_true_eq_false, if_false] at h
  split at h
  · injection h with h
    exact endAssertion_ne_count h
  · split at h
    · next f hfirst =>
      injection h with h
      subst h
      split at hfirst <;> split at hfirst <;> cases hfirst
    · next element y1 hfirst =>
      split at h
      · next f hgroups =>
        injection h with h
        subst h
        exact forGroupsOfFour_failure _ _
          (fun f => f ≠ Failure.internalAssert "Invalid end calculation")
          iteratorPastEnd_ne_end (fun _ _ _ _ _ _ hb => by cases hb) _ _ _ _ _ (le_refl _)
          hgroups rfl
      · split at h
        · next f hrest =>
          injection h with h
          subst h
          exact forRemaining_failure _
            (fun f => f ≠ Failure.internalAssert "Invalid end calculation")
            (fun _ _ _ hb => by cases hb) _ _ _ hrest rfl
        · cases h

theorem selectAddAssignKernelOptimized_end [Add α] [Mul α] (y : DenseVector α)
    (A : DenseMatrix α) (x : SparseVector α)
    (hk : x.nonZeros < sizeRange) :
    TDMatSVecMultExpr.selectAddAssignKernelOptimized y A x
      ≠ .error (.internalAssert "Invalid end calculation") := by
  have hend := groupEnd_eq x.nonZeros hk
  intro h
  unfold TDMatSVecMultExpr.selectAddAssignKernelOptimized at h
  simp only [hend, ne_eq, not_true_eq_false, if_false] at h
  split at h
  · injection h with h
    exact endAssertion_ne_count h
  · split at h
    · next f hgroups =>
      injection h with h
      subst h
      exact forGroupsOfFour_failure _ _
        (fun f => f ≠ Failure.internalAssert "Invalid end calculation")
        iteratorPastEnd_ne_end (fun _ _ _ _ _ _ hb => by cases hb) _ _ _ _ _ (le_refl _)
        hgroups rfl
    · split at h
      · next f hrest =>
        injection h with h
        subst h
        exact forRemaining_failure _
          (fun f => f ≠ Failure.internalAssert "Invalid end calculation")
          (fun _ _ _ hb => by cases hb) _ _ _ hrest rfl
      · cases h

theorem selectSubAssignKernelOptimized_end [Add α] [Sub α] [Mul α] (y : DenseVector α)
    (A : DenseMatrix α) (x : SparseVector α)
    (hk : x.nonZeros < sizeRange) :
    TDMatSVecMultExpr.selectSubAssignKernelOptimized y A x
      ≠ .error (.internalAssert "Invalid end calculation") := by
  have hend := groupEnd_eq x.nonZeros hk
  intro h
  unfold TDMatSVecMultExpr.selectSubAssignKernelOptimized at h
  simp only [hend, ne_eq, not_true_eq_false, if_false] at h
  split at h
  · injection h with h
    exact endAssertion_ne_count h
  · split at h
    · next f hgroups =>
      injection h with h
      subst h
      exact forGroupsOfFour_failure _ _
        (fun f => f ≠ Failure.internalAssert "Invalid end calculation")
        iteratorPastEnd_ne_end (fun _ _ _ _ _ _ hb => by cases hb) _ _ _ _ _ (le_refl _)
        hgroups rfl
    · split at h
      · next f hrest =>
        injection h with h
        subst h
        exact forRemaining_failure _
          (fun f => f ≠ Failure.internalAssert "Invalid end calculation")
          (fun _ _ _ hb => by cases hb) _ _ _ hrest rfl
      · cases h

theorem selectAddAssignKernelVectorized_end [Add α] [Mul α] (w : Nat) (y : DenseVector α)
    (A : DenseMatrix α) (x : SparseVector α)
    (hk : x.nonZeros < sizeRange) :
    TDMatSVecMultExpr.selectAddAssignKernelVectorized w y A x
      ≠ .error (.internalAssert "Invalid end calculation") := by
  have hend := groupEnd_eq x.nonZeros hk
  intro h
  unfold TDMatSVecMultExpr.selectAddAssignKernelVectorized at h
  simp only [hend, ne_eq, not_true_eq_false, if_false] at h
  split at h
  · injection h with h
    exact endAssertion_ne_count h
  · split at h
    · next f hgroups =>
      injection h with h
      subst h
      exact forGroupsOfFour_failure _ _
        (fun f => f ≠ Failure.internalAssert "Invalid end calculation")
        iteratorPastEnd_ne_end (fun _ _ _ _ _ _ hb =>
          (forBlocksLT_failure _ _ _ _ _ _ _ hb).symm ▸ loopBoundExceeded_ne_end)
        _ _ _ _ _ (le_refl _) hgroups rfl
    · split at h
      · next f hrest =>
        injection h with h
        subst h
        exact forRemaining_failure _
          (fun f => f ≠ Failure.internalAssert "Invalid end calculation")
          (fun _ _ _ hb =>
            (forBlocksLT_failure _ _ _ _ _ _ _ hb).symm ▸ loopBoundExceeded_ne_end)
          _ _ _ hrest rfl
      · cases h

theorem selectSubAssignKernelVectorized_end [Sub α] [Mul α] (w : Nat) (y : DenseVector α)
    (A : DenseMatrix α) (x : SparseVector α)
    (hk : x.nonZeros < sizeRange) :
    TDMatSVecMultExpr.selectSubAssignKernelVectorized w y A x
      ≠ .error (.internalAssert "Invalid end calculation") := by
  have hend := groupEnd_eq x.nonZeros hk
  intro h
  unfold TDMatSVecMultExpr.selectSubAssignKernelVectorized at h
  simp only [hend, ne_eq, not_true_eq_false, if_false] at h
  split at h
  · injection h with h
    exact endAssertion_ne_count h
  · split at h
    · next f hgroups =>
      injection h with h
      subst h
      exact forGroupsOfFour_failure _ _
        (fun f => f ≠ Failure.internalAssert "Invalid end calculation")
        iteratorPastEnd_ne_end (fun _ _ _ _ _ _ hb =>
          (forBlocksLT_failure _ _ _ _ _ _ _ hb).symm ▸ loopBoundExceeded_ne_end)
        _ _ _ _ _ (le_refl _) hgroups rfl
    · split at h
      · next f hrest =>
        injection h with h
        subst h
        exact forRemaining_failure _
          (fun f => f ≠ Failure.internalAssert "Invalid end calculation")
          (fun _ _ _ hb =>
            (forBlocksLT_failure _ _ _ _ _ _ _ hb).symm ▸ loopBoundExceeded_ne_end)
          _ _ _ hrest rfl
      · cases h

theorem selectAssignKernelVectorized_end [Add α] [Mul α] (w : Nat) (y : DenseVector α)
    (A : DenseMatrix α) (x : SparseVector α)
    (hk : x.nonZeros < sizeRange) :
    TDMatSVecMultExpr.selectAssignKernelVectorized w y A x
      ≠ .error (.internalAssert "Invalid end calculation") := by
  have hend := groupEnd_eq x.nonZeros hk
  intro h
  unfold TDMatSVecMultExpr.selectAssignKernelVectorized at h
  simp only [hend, ne_eq, not_true_eq_false, if_false] at h
  split at h
  · injection h with h
    exact endAssertion_ne_count h
  · split at h
    · next f hfirst =>
      injection h with h
      subst h
      split at hfirst <;> split at hfirst
      · split at hfirst
        · cases hfirst
        · next f1 hb =>
          injection hfirst with hfirst
          exact loopBoundExceeded_ne_end
            ((forBlocksLE_failure _ _ _ _ _ _ _ hb).symm.trans hfirst)
      · cases hfirst
      · split at hfirst
        · cases hfirst
        · next f1 hb =>
          injection hfirst with hfirst
          exact loopBoundExceeded_ne_end
            ((forBlocksLE_failure _ _ _ _ _ _ _ hb).symm.trans hfirst)
      · cases hfirst
    · next element y1 hfirst =>
      split at h
      · next f hgroups =>
        injection h with h
        subst h
        exact forGroupsOfFour_failure _ _
          (fun f => f ≠ Failure.internalAssert "Invalid end calculation")
          iteratorPastEnd_ne_end (fun _ _ _ _ _ _ hb =>
            (forBlocksLT_failure _ _ _ _ _ _ _ hb).symm ▸ loopBoundExceeded_ne_end)
          _ _ _ _ _ (le_refl _) hgroups rfl
      · split at h
        · next f hrest =>
          injection h with h
          subst h
          exact forRemaining_failure _
            (fun f => f ≠ Failure.internalAssert "Invalid end calculation")
            (fun _ _ _ hb =>
              (forBlocksLT_failure _ _ _ _ _ _ _ hb).symm ▸ loopBoundExceeded_ne_end)
            _ _ _ hrest rfl
        · cases h

/-- Claim C40. For every value `k` of `size_t` the group bound `k & size_t(-4)` is
`k - (k mod 4)`: it is a multiple of four, it does not exceed `k`, and every multiple of four
that does not exceed `k` is at most the bound. The condition of the assertion
"Invalid end calculation" therefore holds for every sparse vector whose number of stored
elements is a `size_t`, and none of the unrolled kernels fails with that assertion. -/
theorem groupEnd_largest_multiple [Add α] [Sub α] [Mul α] (k : Nat) (hk : k < sizeRange) :
    groupEnd k = k - k % 4 ∧ 4 ∣ groupEnd k ∧ groupEnd k ≤ k ∧
    (∀ m, 4 ∣ m → m ≤ k → m ≤ groupEnd k) ∧
    ∀ (w : Nat) (y : DenseVector α) (A : DenseMatrix α) (x : SparseVector α),
      x.nonZeros = k →
      x.nonZeros - x.nonZeros % 4 = groupEnd x.nonZeros ∧
      TDMatSVecMultExpr.selectAssignKernelOptimized y A x
        ≠ .error (.internalAssert "Invalid end calculation") ∧
      TDMatSVecMultExpr.selectAssignKernelVectorized w y A x
        ≠ .error (.internalAssert "Invalid end calculation") ∧
      TDMatSVecMultExpr.selectAddAssignKernelOptimized y A x
        ≠ .error (.internalAssert "Invalid end calculation") ∧
      TDMatSVecMultExpr.selectAddAssignKernelVectorized w y A x
        ≠ .error (.internalAssert "Invalid end calculation") ∧
      TDMatSVecMultExpr.selectSubAssignKernelOptimized y A x
        ≠ .error (.internalAssert "Invalid end calculation") ∧
      TDMatSVecMultExpr.selectSubAssignKernelVectorized w y A x
        ≠ .error (.internalAssert "Invalid end calculation") := by
  have hend := groupEnd_eq k hk
  refine ⟨hend, ?_, ?_, ?_, ?_⟩
  · rw [hend]
    exact (Nat.dvd_sub_mod k)
  · rw [hend]
    omega
  · intro m hm hle
    rw [hend]
    omega
  · intro w y A x hx
    have hk' : x.nonZeros < sizeRange := by rw [hx]; exact hk
    exact ⟨(groupEnd_eq x.nonZeros hk').symm, selectAssignKernelOptimized_end y A x hk',
      selectAssignKernelVectorized_end w y A x hk',
      selectAddAssignKernelOptimized_end y A x hk',
      selectAddAssignKernelVectorized_end w y A x hk',
      selectSubAssignKernelOptimized_end y A x hk',
      selectSubAssignKernelVectorized_end w y A x hk'⟩

theorem groupEnd_largest_multiple_witness :
    5 < sizeRange ∧
    (groupEnd 5 = 5 - 5 % 4 ∧ 4 ∣ groupEnd 5 ∧ groupEnd 5 ≤ 5 ∧
    (∀ m, 4 ∣ m → m ≤ 5 → m ≤ groupEnd 5) ∧
    ∀ (w : Nat) (y : DenseVector Int) (A : DenseMatrix Int) (x : SparseVector Int),
      x.nonZeros = 5 →
      x.nonZeros - x.nonZeros % 4 = groupEnd x.nonZeros ∧
      TDMatSVecMultExpr.selectAssignKernelOptimized y A x
        ≠ .error (.internalAssert "Invalid end calculation") ∧
      TDMatSVecMultExpr.selectAssignKernelVectorized w y A x
        ≠ .error (.internalAssert "Invalid end calculation") ∧
      TDMatSVecMultExpr.selectAddAssignKernelOptimized y A x
        ≠ .error (.internalAssert "Invalid end calculation") ∧
      TDMatSVecMultExpr.selectAddAssignKernelVectorized w y A x
        ≠ .error (.internalAssert "Invalid end calculation") ∧
      TDMatSVecMultExpr.selectSubAssignKernelOptimized y A x
        ≠ .error (.internalAssert "Invalid end calculation") ∧
      TDMatSVecMultExpr.selectSubAssignKernelVectorized w y A x
        ≠ .error (.internalAssert "Invalid end calculation")) ∧
    groupEnd 5 = 4 ∧ wideVector.nonZeros = 5 :=
  ⟨by decide, groupEnd_largest_multiple 5 (by decide), by decide, rfl⟩

end

end blaze
